import Mathlib

/-!
# Ponscripter transition core: scheduler, effect engine, compositing kernels

A shallow embedding of

* `src/PonscripterLabel_animation.cpp` (sprite animation scheduler),
* `src/PonscripterLabel_effect.cpp` (frame-pair transition engine),
* `src/graphics_sse2.cpp`, `src/graphics_accelerated.cpp` (compositing kernels),

followed by theorems about the embedded functions.

Conventions.

* A C++ `int` is a Lean `Int`.  Signed overflow is undefined behaviour in the
  source, so the embedding describes the executions in which no `int`
  operation overflows.  Integer division is C++ division (truncation towards
  zero, `Int.tdiv`), and a division by zero is an explicit error result.
* An array read outside the array is an explicit failure (`none`).
* A byte buffer is a function from the index to the cell; a cell is read
  modulo 256 and a store keeps the value modulo 256.
* Calls into collaborators whose code is outside these four files are either
  recorded in a log, in program order, with their arguments, or taken from a
  parameter.
-/

namespace Ponscripter

/-! ## Sprite animation scheduler (`PonscripterLabel_animation.cpp`) -/

/-- The SDL rectangle: position and extent. -/
structure SDL_Rect where
  x : Int
  y : Int
  w : Int
  h : Int
  deriving DecidableEq, Repr

/-- The fields of `AnimationInfo` that the scheduler reads or writes.
`visible` is the flag behind `showing()`. -/
structure AnimationInfo where
  visible : Bool
  is_animatable : Bool
  abs_flag : Bool
  pos : SDL_Rect
  remaining_time : Int
  current_cell : Int
  num_of_cells : Int
  duration_list : List Int
  loop_mode : Int
  deriving DecidableEq, Repr

namespace AnimationInfo

/-- Modelled from the spec: `AnimationInfo::showing()` is declared in
`AnimationInfo.h`, which is not among the sources; the data model gives every
sprite "a visibility flag", and `showing()` reads it. -/
def showing (a : AnimationInfo) : Bool := a.visible

/-- The read `duration_list[i]`; reading outside the list fails. -/
def duration_at (a : AnimationInfo) (i : Int) : Option Int :=
  if 0 ≤ i then a.duration_list[i.toNat]? else none

/-- Modelled from the spec: `AnimationInfo::proceedAnimation()` lives in
`AnimationInfo.cpp`, which is not among the sources.  The spec: a due sprite
"advances one cel (wrapping or stopping per loop mode)"; `loop` (digit 0)
"wraps to cel 0", `once` "freezes on the last cel", the reserved
no-animation mode (digit 3) "disables advancement entirely";
`remaining_time` "resets to `duration_list[current_cel]` immediately after an
advance".  The Boolean result tells the caller whether the cel changed, that
is, whether the sprite has to be redrawn. -/
def proceedAnimation (a : AnimationInfo) : Option (AnimationInfo × Bool) :=
  let next : Int × Bool :=
    if a.loop_mode = 3 then (a.current_cell, false)
    else if a.current_cell + 1 < a.num_of_cells then (a.current_cell + 1, true)
    else if a.loop_mode = 0 then (0, true)
    else (a.num_of_cells - 1, false)
  match a.duration_at next.1 with
  | none => none
  | some d => some ({ a with current_cell := next.1, remaining_time := d }, next.2)

/-- The guard `anim->showing() && anim->is_animatable` of every scheduler loop. -/
def active (a : AnimationInfo) : Bool := a.showing && a.is_animatable

/-- The data-model invariant of a sprite: `0 <= current_cell < num_of_cells`
and one duration per cel. -/
def WellFormed (a : AnimationInfo) : Prop :=
  0 ≤ a.current_cell ∧ a.current_cell < a.num_of_cells ∧
    a.num_of_cells = (a.duration_list.length : Int)

instance (a : AnimationInfo) : Decidable a.WellFormed := by
  unfold WellFormed; infer_instance

end AnimationInfo

/-- The values of `clickstr_state` the scheduler distinguishes. -/
inductive ClickState
  | CLICK_NONE
  | CLICK_WAIT
  | CLICK_NEWPAGE
  | CLICK_OTHER
  deriving DecidableEq, Repr

/-- The part of `PonscripterLabel` the scheduler works on.  `tachi_info` has
three slots, `sprite_info` has `MAX_SPRITE_NUM` and `sprite2_info` has
`MAX_SPRITE2_NUM` (the lengths of the lists); `cursor_info_wait` and
`cursor_info_newpage` are `cursor_info[CURSOR_WAIT_NO]` and
`cursor_info[CURSOR_NEWPAGE_NO]`.  `textgosub_label` is true when the pointer
is set.  `font_offset` is the pair of offsets computed from `sentence_font`
and the screen ratio that is added to the position of a cursor without
`abs_flag`.  `flushed` logs the rectangles handed to `flushDirect`. -/
structure Scheduler where
  tachi_info : List AnimationInfo
  sprite_info : List AnimationInfo
  sprite2_info : List AnimationInfo
  cursor_info_wait : AnimationInfo
  cursor_info_newpage : AnimationInfo
  textgosub_label : Bool
  clickstr_state : ClickState
  font_offset : Int × Int
  flushed : List SDL_Rect
  deriving DecidableEq, Repr

/-- The method `PonscripterLabel::estimateNextDuration`: the updated sprite, the updated
running minimum and the rectangles flushed.  The duration is read from
`duration_list[current_cell]` before the sprite advances. -/
def estimateNextDuration (anim : AnimationInfo) (rect : SDL_Rect) (minimum : Int) :
    Option (AnimationInfo × Int × List SDL_Rect) :=
  if anim.remaining_time = 0 then
    match anim.duration_at anim.current_cell with
    | none => none
    | some d =>
      let minimum := if minimum = -1 ∨ minimum > d then d else minimum
      match anim.proceedAnimation with
      | none => none
      | some (anim', changed) => some (anim', minimum, if changed then [rect] else [])
  else
    let minimum :=
      if minimum = -1 ∨ minimum > anim.remaining_time then anim.remaining_time else minimum
    some (anim, minimum, [])

/-- One scheduler loop over a group of slots, in list order: the body
`if (anim->showing() && anim->is_animatable) minimum_duration =
estimateNextDuration(anim, anim->pos, minimum_duration);`. -/
def visitGroup : List AnimationInfo → Int → Option (List AnimationInfo × Int × List SDL_Rect)
  | [], minimum => some ([], minimum, [])
  | anim :: rest, minimum =>
    if anim.active then
      match estimateNextDuration anim anim.pos minimum with
      | none => none
      | some (anim', minimum', fl) =>
        match visitGroup rest minimum' with
        | none => none
        | some (rest', minimum'', fl') => some (anim' :: rest', minimum'', fl ++ fl')
    else
      match visitGroup rest minimum with
      | none => none
      | some (rest', minimum'', fl') => some (anim :: rest', minimum'', fl')

/-- A loop `for (i = N - 1; i >= 0; i--)`: the slots are visited from the
highest index down. -/
def visitGroupDown (l : List AnimationInfo) (minimum : Int) :
    Option (List AnimationInfo × Int × List SDL_Rect) :=
  match visitGroup l.reverse minimum with
  | none => none
  | some (l', minimum', fl) => some (l'.reverse, minimum', fl)

/-- The guard `!textgosub_label && (clickstr_state == CLICK_WAIT ||
clickstr_state == CLICK_NEWPAGE)` together with the choice of the cursor:
`some true` selects the wait cursor, `some false` the new-page cursor. -/
def cursorChoice (s : Scheduler) : Option Bool :=
  if !s.textgosub_label then
    match s.clickstr_state with
    | .CLICK_WAIT => some true
    | .CLICK_NEWPAGE => some false
    | _ => none
  else none

/-- The rectangle flushed for a cursor: its position, moved by the font
offset unless `abs_flag` is set. -/
def cursorRect (s : Scheduler) (anim : AnimationInfo) : SDL_Rect :=
  if !anim.abs_flag then
    { anim.pos with x := anim.pos.x + s.font_offset.1, y := anim.pos.y + s.font_offset.2 }
  else anim.pos

/-- The method `PonscripterLabel::proceedAnimation`: the returned wait and the state
after the call. -/
def proceedAnimation (s : Scheduler) : Option (Int × Scheduler) :=
  match visitGroup (s.tachi_info.take 3) (-1) with
  | none => none
  | some (tachi, m1, f1) =>
  match visitGroupDown s.sprite_info m1 with
  | none => none
  | some (sprites, m2, f2) =>
  match visitGroupDown s.sprite2_info m2 with
  | none => none
  | some (sprites2, m3, f3) =>
  let s1 : Scheduler :=
    { s with tachi_info := tachi ++ s.tachi_info.drop 3, sprite_info := sprites,
             sprite2_info := sprites2, flushed := s.flushed ++ f1 ++ f2 ++ f3 }
  let fin (m : Int) (s2 : Scheduler) : Option (Int × Scheduler) :=
    some (if m = -1 then 0 else m, s2)
  match cursorChoice s with
  | none => fin m3 s1
  | some wait =>
    let anim := if wait then s.cursor_info_wait else s.cursor_info_newpage
    if anim.active then
      match estimateNextDuration anim (cursorRect s anim) m3 with
      | none => none
      | some (anim', m4, f4) =>
        if wait then fin m4 { s1 with cursor_info_wait := anim', flushed := s1.flushed ++ f4 }
        else fin m4 { s1 with cursor_info_newpage := anim', flushed := s1.flushed ++ f4 }
    else fin m3 s1

/-- One loop of `resetRemainingTime` over a group of slots, in list order. -/
def chargeGroup (t : Int) : List AnimationInfo → List AnimationInfo
  | [] => []
  | anim :: rest =>
    (if anim.active then { anim with remaining_time := anim.remaining_time - t } else anim)
      :: chargeGroup t rest

/-- A loop of `resetRemainingTime` from the highest index down. -/
def chargeGroupDown (t : Int) (l : List AnimationInfo) : List AnimationInfo :=
  (chargeGroup t l.reverse).reverse

/-- The method `PonscripterLabel::resetRemainingTime`. -/
def resetRemainingTime (s : Scheduler) (t : Int) : Scheduler :=
  let s1 : Scheduler :=
    { s with tachi_info := chargeGroup t (s.tachi_info.take 3) ++ s.tachi_info.drop 3,
             sprite_info := chargeGroupDown t s.sprite_info,
             sprite2_info := chargeGroupDown t s.sprite2_info }
  match cursorChoice s with
  | none => s1
  | some wait =>
    let anim := if wait then s.cursor_info_wait else s.cursor_info_newpage
    if anim.active then
      if wait then
        { s1 with cursor_info_wait := { anim with remaining_time := anim.remaining_time - t } }
      else
        { s1 with cursor_info_newpage := { anim with remaining_time := anim.remaining_time - t } }
    else s1

/-! ### Vocabulary for the scheduler statements -/

/-- The cursor the scheduler looks at in this state, if any. -/
def applicableCursor (s : Scheduler) : List AnimationInfo :=
  match cursorChoice s with
  | none => []
  | some wait => [if wait then s.cursor_info_wait else s.cursor_info_newpage]

/-- Every entry the scheduler looks at, in visiting order. -/
def entries (s : Scheduler) : List AnimationInfo :=
  s.tachi_info.take 3 ++ s.sprite_info.reverse ++ s.sprite2_info.reverse ++ applicableCursor s

/-- The candidate wait of one entry at call time: its `remaining_time` when
that is non-zero, and the duration of its current cel when it is zero. -/
def candidateWait (a : AnimationInfo) : Int :=
  if a.remaining_time = 0 then (a.duration_at a.current_cell).getD 0 else a.remaining_time

/-- The candidate waits of the showing, animatable entries, in visiting order. -/
def candidates (s : Scheduler) : List Int :=
  ((entries s).filter AnimationInfo.active).map candidateWait

/-- The wait the scheduler is said to return: `0` without candidates, and
otherwise a least element of the candidates. -/
def IsNextWait (s : Scheduler) (r : Int) : Prop :=
  (candidates s = [] → r = 0) ∧
    (candidates s ≠ [] → r ∈ candidates s ∧ ∀ c ∈ candidates s, r ≤ c)

/-- Every showing, animatable entry satisfies the data-model invariant. -/
def Scheduler.WellFormed (s : Scheduler) : Prop :=
  ∀ a ∈ entries s, a.active = true → a.WellFormed

/-- What the scheduler does to one entry: a showing, animatable entry whose
`remaining_time` is exactly `0` advances, every other entry stays. -/
def advanceIfDue (a : AnimationInfo) : AnimationInfo :=
  if a.active = true ∧ a.remaining_time = 0 then
    match a.proceedAnimation with
    | some (a', _) => a'
    | none => a
  else a

/-- The update of the running minimum by one candidate; `-1` stands for "no
candidate yet". -/
def stepMin (m c : Int) : Int := if m = -1 ∨ m > c then c else m

/-- The last statement of `proceedAnimation`: `-1` ("no candidate") becomes `0`. -/
def finalWait (m : Int) : Int := if m = -1 then 0 else m

instance (s : Scheduler) : Decidable s.WellFormed := by
  unfold Scheduler.WellFormed; infer_instance

instance (s : Scheduler) (r : Int) : Decidable (IsNextWait s r) := by
  unfold IsNextWait; infer_instance

/-- The update of the remaining time that `resetRemainingTime` applies to one
entry: a showing, animatable entry loses `t`, every other entry is kept. -/
def chargedEntry (t : Int) (a : AnimationInfo) : AnimationInfo :=
  { a with remaining_time := if a.active = true then a.remaining_time - t else a.remaining_time }

/-! ### Concrete scheduler states -/

/-- A showing, animatable looping sprite with three cels lasting 100, 150 and
200 ticks, at cel `cell` with `rt` ticks remaining. -/
def loopSprite (rt cell : Int) : AnimationInfo :=
  { visible := true, is_animatable := true, abs_flag := true, pos := ⟨0, 0, 32, 32⟩,
    remaining_time := rt, current_cell := cell, num_of_cells := 3,
    duration_list := [100, 150, 200], loop_mode := 0 }

/-- A hidden cursor. -/
def hiddenCursor : AnimationInfo :=
  { visible := false, is_animatable := false, abs_flag := true, pos := ⟨0, 0, 16, 16⟩,
    remaining_time := 0, current_cell := 0, num_of_cells := 1,
    duration_list := [0], loop_mode := 3 }

/-- A scheduler state whose only sprites are the given `sprite_info` slots. -/
def spriteScheduler (sprites : List AnimationInfo) : Scheduler :=
  { tachi_info := [hiddenCursor, hiddenCursor, hiddenCursor], sprite_info := sprites,
    sprite2_info := [], cursor_info_wait := hiddenCursor, cursor_info_newpage := hiddenCursor,
    textgosub_label := false, clickstr_state := .CLICK_NONE, font_offset := (0, 0),
    flushed := [] }

/-! ## Frame-pair transition engine (`PonscripterLabel_effect.cpp`) -/

/-- A pixel surface: its extent and the pixel at every position. -/
structure SDL_Surface where
  w : Int
  h : Int
  pixels : Int → Int → Nat

/-- The position `(x, y)` lies inside the rectangle. -/
def SDL_Rect.covers (r : SDL_Rect) (x y : Int) : Prop :=
  r.x ≤ x ∧ x < r.x + r.w ∧ r.y ≤ y ∧ y < r.y + r.h

instance (r : SDL_Rect) (x y : Int) : Decidable (r.covers x y) := by
  unfold SDL_Rect.covers; infer_instance

/-- The position `(x, y)` is a pixel of the surface. -/
def SDL_Surface.covers (s : SDL_Surface) (x y : Int) : Prop :=
  0 ≤ x ∧ x < s.w ∧ 0 ≤ y ∧ y < s.h

instance (s : SDL_Surface) (x y : Int) : Decidable (s.covers x y) := by
  unfold SDL_Surface.covers; infer_instance

/-- Modelled from the spec: `SDL_BlitSurface(src, &r, dst, &r)` belongs to the
SDL library, which is not among the sources.  With the same rectangle on both
sides it copies every pixel of `r` that exists in both surfaces ("commits
`destination` into `accumulation` over the dirty region"). -/
def SDL_BlitSurface_rect (src : SDL_Surface) (r : SDL_Rect) (dst : SDL_Surface) : SDL_Surface :=
  { dst with
    pixels := fun x y =>
      if r.covers x y ∧ src.covers x y ∧ dst.covers x y then src.pixels x y
      else dst.pixels x y }

/-- Modelled from the spec: `SDL_BlitSurface(src, NULL, dst, NULL)`, the copy
of a whole surface ("snapshots the current visible composite into `source`"). -/
def SDL_BlitSurface_all (src dst : SDL_Surface) : SDL_Surface :=
  { dst with
    pixels := fun x y => if src.covers x y ∧ dst.covers x y then src.pixels x y else dst.pixels x y }

/-- The surfaces a drawing call can name. -/
inductive SurfaceRef
  | accumulation_surface
  | effect_src_surface
  | effect_dst_surface
  | backup_surface
  deriving DecidableEq, Repr

/-- The blend modes handed to `alphaMaskBlend`. -/
inductive BlendMode
  | ALPHA_BLEND_CONST
  | ALPHA_BLEND_FADE_MASK
  | ALPHA_BLEND_CROSSFADE_MASK
  deriving DecidableEq, Repr

/-- The calls the engine issues, with their arguments.  `drawEffect` records
the two rectangles at the time of the call and whether both arguments are the
same object.  `generateMosaic` and `drawEffect` are functions of
`PonscripterLabel_effect.cpp`; the others belong to collaborators. -/
inductive EngineCall
  | drawEffect (dst_rect src_rect : SDL_Rect) (same_object : Bool) (surface : SurfaceRef)
  | alphaMaskBlend (mask : Option Nat) (mode : BlendMode) (mask_value : Int) (clip : SDL_Rect)
  | generateMosaic (surface : SurfaceRef) (level : Int)
  | fillBlack
  | effectCascade (duration : Int)
  | effectWhirl (duration : Int)
  | effectTrvswave (duration : Int)
  | effectBreakup (duration : Int)
  | printf_dll_not_found (effect_no : Int)
  | printf_no_dll (effect_no : Int)
  | printf_not_implemented (effect_no : Int)
  | flush (clear_dirty_flag : Bool)
  | refreshSurface (surface : SurfaceRef) (clip : Option SDL_Rect)
  | loadMask
  | buildSinTable
  | buildCosTable
  | buildWhirlTable
  | initBreakup
  | advancePhase
  deriving DecidableEq, Repr

/-- The errors of a step. -/
inductive EffectError
  | divisionByZero
  deriving DecidableEq, Repr

/-- The two results of `setEffect` and `doEffect`: `RET_CONTINUE`, and the bit
mask `RET_WAIT | RET_REREAD` ("wait and re-poll"). -/
inductive RetCode
  | RET_CONTINUE
  | RET_WAIT_REREAD
  deriving DecidableEq, Repr

/-- The values of `event_mode` the engine distinguishes. -/
inductive EventMode
  | IDLE_EVENT_MODE
  | EFFECT_EVENT_MODE
  | OTHER_EVENT_MODE (bits : Nat)
  deriving DecidableEq, Repr

/-- The request `Effect`: the effect number, the duration, the quake
parameter `no`, and of the mask `anim` whether an image is loaded
(`image_surface`, `none` for a null pointer). -/
structure Effect where
  effect : Int
  duration : Int
  no : Int
  anim_image_surface : Option Nat
  deriving DecidableEq, Repr

/-- The part of `PonscripterLabel` the engine works on.  `dirty_rect` is
`dirty_rect.bounding_box`; `dll` is the file-level pointer `dll` (`none` for a
null pointer); `CUSTOM_EFFECT_NO` is the constant of that name, whose value is
fixed in a header outside the sources; `log` records the calls issued so far.
The bookkeeping of `lastRenderEvent` is left out. -/
structure Engine where
  CUSTOM_EFFECT_NO : Int
  effect_counter : Int
  effect_start_time : Int
  effect_start_time_old : Int
  effect_timer_resolution : Int
  event_mode : EventMode
  ctrl_pressed_status : Bool
  skip_to_wait : Bool
  effect_cut_flag : Bool
  skip_flag : Bool
  screen_width : Int
  screen_height : Int
  screen_ratio1 : Int
  screen_ratio2 : Int
  accumulation_surface : SDL_Surface
  effect_src_surface : SDL_Surface
  effect_dst_surface : SDL_Surface
  backup_surface : SDL_Surface
  dirty_rect : SDL_Rect
  dll : Option String
  log : List EngineCall

/-- What one step takes from outside: the clock `SDL_GetTicks()`, the value of
the floating-point quake expression `(Sint16)(sin(M_PI * 2.0 * no * counter /
duration) * amp * no * (duration - counter) / duration)` as a function of the
amplitude, `no`, the counter and the duration, the two results of
`get_rnd(-1, 1)`, and what each recorded call does to the accumulation
surface. -/
structure StepEnv where
  ticks : Int
  quake_wave : Int → Int → Int → Int → Int
  rnd_x : Int
  rnd_y : Int
  render : Engine → EngineCall → SDL_Surface → SDL_Surface

/-- C++ integer division: truncation towards zero, an error for divisor 0. -/
def cdiv (a b : Int) : Except EffectError Int :=
  if b = 0 then .error .divisionByZero else .ok (a.tdiv b)

/-- The macro `EFFECT_STRIPE_WIDTH`, `(16 * screen_ratio1 / screen_ratio2)`. -/
def EFFECT_STRIPE_WIDTH (s : Engine) : Except EffectError Int :=
  cdiv (16 * s.screen_ratio1) s.screen_ratio2

/-- The macro `EFFECT_STRIPE_CURTAIN_WIDTH`, `(24 * screen_ratio1 / screen_ratio2)`. -/
def EFFECT_STRIPE_CURTAIN_WIDTH (s : Engine) : Except EffectError Int :=
  cdiv (24 * s.screen_ratio1) s.screen_ratio2

/-- The macro `EFFECT_QUAKE_AMP`, `(12 * screen_ratio1 / screen_ratio2)`. -/
def EFFECT_QUAKE_AMP (s : Engine) : Except EffectError Int :=
  cdiv (12 * s.screen_ratio1) s.screen_ratio2

/-- The body of a `for` loop run for each index of the list in turn; the
calls of all iterations, in order. -/
def forEach (body : Int → Except EffectError (List EngineCall)) :
    List Int → Except EffectError (List EngineCall)
  | [] => .ok []
  | i :: rest =>
    match body i with
    | .error e => .error e
    | .ok calls =>
      match forEach body rest with
      | .error e => .error e
      | .ok more => .ok (calls ++ more)

/-- The indices `first, first + 1, ..., first + count - 1`. -/
def indicesFrom (first : Int) (count : Nat) : List Int :=
  (List.range count).map (fun k => first + (k : Int))

/-- The screen rectangle `{ 0, 0, screen_width, screen_height }`. -/
def screenRect (s : Engine) : SDL_Rect := ⟨0, 0, s.screen_width, s.screen_height⟩

/-- Cases 2 to 5, the shutters.  `vertical` tells stripes side by side (2, 3)
from stripes on top of each other (4, 5); `fromEnd` tells 3 and 5, whose loop
runs `i = 1 .. n` and draws the stripe ending one pixel before `i * stripe`. -/
def shutter (s : Engine) (counter duration : Int) (vertical fromEnd : Bool) :
    Except EffectError (List EngineCall) := do
  let stripe ← EFFECT_STRIPE_WIDTH s
  let width ← cdiv (stripe * counter) duration
  let extent := if vertical then s.screen_width else s.screen_height
  let n ← cdiv extent stripe
  let start := fun (i : Int) => if fromEnd then i * stripe - width - 1 else i * stripe
  let rect := fun (i : Int) =>
    if vertical then (⟨start i, 0, width, s.screen_height⟩ : SDL_Rect)
    else ⟨0, start i, s.screen_width, width⟩
  forEach (fun i => .ok [.drawEffect (rect i) (rect i) true .effect_dst_surface])
    (if fromEnd then indicesFrom 1 n.toNat else indicesFrom 0 n.toNat)

/-- Cases 6 to 9, the curtains.  `vertical` tells 6 and 7 from 8 and 9;
`fromEnd` tells 7 and 9, which place the stripe from the far edge; only case 7
clamps the stripe to the curtain width. -/
def curtain (s : Engine) (counter duration : Int) (vertical fromEnd : Bool) :
    Except EffectError (List EngineCall) := do
  let stripe ← EFFECT_STRIPE_CURTAIN_WIDTH s
  let width ← cdiv (stripe * counter * 2) duration
  let extent := if vertical then s.screen_width else s.screen_height
  let n ← cdiv extent stripe
  forEach (fun i =>
      (cdiv (stripe * stripe * i) extent).map (fun back =>
        let width2 := width - back
        if width2 ≥ 0 then
          let width2 := if vertical ∧ fromEnd ∧ width2 > stripe then stripe else width2
          let start := if fromEnd then extent - i * stripe - width2 else i * stripe
          let rect : SDL_Rect :=
            if vertical then ⟨start, 0, width2, s.screen_height⟩
            else ⟨0, start, s.screen_width, width2⟩
          [.drawEffect rect rect true .effect_dst_surface]
        else []))
    (indicesFrom 0 (n + 1).toNat)

/-- Case 10, the cross fade, which is also where `default` and the
unrecognised case 99 end. -/
def crossFade (s : Engine) (counter duration : Int) : Except EffectError (List EngineCall) := do
  let height ← cdiv (256 * counter) duration
  pure [.alphaMaskBlend none .ALPHA_BLEND_CONST height s.dirty_rect]

/-- Cases 11 to 14, the scrolls: the old frame moved by `width`, then the new
frame entering from the opposite edge. -/
def scroll (s : Engine) (counter duration : Int) (effect_no : Int) :
    Except EffectError (List EngineCall) := do
  let sw := s.screen_width
  let sh := s.screen_height
  if effect_no = 11 then
    let width ← cdiv (sw * counter) duration
    pure [.drawEffect ⟨width, 0, sw - width, sh⟩ ⟨0, 0, sw - width, sh⟩ false .effect_src_surface,
          .drawEffect ⟨0, 0, width, sh⟩ ⟨sw - width - 1, 0, width, sh⟩ false .effect_dst_surface]
  else if effect_no = 12 then
    let width ← cdiv (sw * counter) duration
    pure [.drawEffect ⟨0, 0, sw - width, sh⟩ ⟨width, 0, sw - width, sh⟩ false .effect_src_surface,
          .drawEffect ⟨sw - width - 1, 0, width, sh⟩ ⟨0, 0, width, sh⟩ false .effect_dst_surface]
  else if effect_no = 13 then
    let width ← cdiv (sh * counter) duration
    pure [.drawEffect ⟨0, width, sw, sh - width⟩ ⟨0, 0, sw, sh - width⟩ false .effect_src_surface,
          .drawEffect ⟨0, 0, sw, width⟩ ⟨0, sh - width - 1, sw, width⟩ false .effect_dst_surface]
  else
    let width ← cdiv (sh * counter) duration
    pure [.drawEffect ⟨0, 0, sw, sh - width⟩ ⟨0, width, sw, sh - width⟩ false .effect_src_surface,
          .drawEffect ⟨0, sh - width - 1, sw, width⟩ ⟨0, 0, sw, width⟩ false .effect_dst_surface]

/-- The test `!strncmp(dll, name, strlen(name))`: `name` starts `dll`. -/
def dllIs (dll name : String) : Bool := name.toList.isPrefixOf dll.toList

/-- A warning that is printed only on the first step (`if (first_time)`). -/
def warnOnce (first_time : Bool) (c : EngineCall) : List EngineCall :=
  if first_time then [c] else []

/-- A case of the switch that leaves `effect_timer_resolution` as it is. -/
def keepResolution (resolution : Int) (calls : Except EffectError (List EngineCall)) :
    Except EffectError (List EngineCall × Int) :=
  calls.map (fun cs => (cs, resolution))

/-- The cases `CUSTOM_EFFECT_NO + 0` (quakey, `vertical`) and
`CUSTOM_EFFECT_NO + 1` (quakex): the timer resolution is lowered to
`effect.duration / 4 / effect.no`, then the new frame is drawn at the offset
given by the sine expression; quakey first clears the accumulation surface. -/
def sineQuake (env : StepEnv) (s : Engine) (effect : Effect) (counter resolution : Int)
    (vertical : Bool) : Except EffectError (List EngineCall × Int) := do
  let limit ← cdiv (effect.duration.tdiv 4) effect.no
  let resolution := if resolution > limit then limit else resolution
  let amp ← EFFECT_QUAKE_AMP s
  let wave := env.quake_wave amp effect.no counter effect.duration
  if vertical then
    pure ([.fillBlack,
           .drawEffect ⟨0, wave, s.screen_width, s.screen_height⟩ (screenRect s) false
             .effect_dst_surface], resolution)
  else
    pure ([.drawEffect ⟨wave, 0, s.screen_width, s.screen_height⟩ (screenRect s) false
             .effect_dst_surface], resolution)

/-- Case 99, the effects named by a DLL: the four known names call their
emulation; an unknown name and a missing name print a warning on the first
step and fall through `default` (a second warning) into the cross fade. -/
def dllEffect (s : Engine) (effect : Effect) (counter resolution effect_no : Int)
    (first_time : Bool) : Except EffectError (List EngineCall × Int) :=
  match s.dll with
  | some dll =>
    if dllIs dll "cascade.dll" then .ok ([.effectCascade effect.duration], resolution)
    else if dllIs dll "whirl.dll" then .ok ([.effectWhirl effect.duration], resolution)
    else if dllIs dll "trvswave.dll" then .ok ([.effectTrvswave effect.duration], resolution)
    else if dllIs dll "breakup.dll" then .ok ([.effectBreakup effect.duration], resolution)
    else
      keepResolution resolution ((crossFade s counter effect.duration).map (fun cs =>
        warnOnce first_time (.printf_dll_not_found effect_no) ++
          warnOnce first_time (.printf_not_implemented effect_no) ++ cs))
  | none =>
    keepResolution resolution ((crossFade s counter effect.duration).map (fun cs =>
      warnOnce first_time (.printf_no_dll effect_no) ++
        warnOnce first_time (.printf_not_implemented effect_no) ++ cs))

/-- Cases 15 and 18, the fades with a mask: the level is `256 * counter /
duration`, doubled for the cross fade with mask. -/
def maskFade (s : Engine) (effect : Effect) (counter : Int) (cross : Bool) :
    Except EffectError (List EngineCall) :=
  if cross then
    (cdiv (256 * counter * 2) effect.duration).map (fun level =>
      [.alphaMaskBlend effect.anim_image_surface .ALPHA_BLEND_CROSSFADE_MASK level s.dirty_rect])
  else
    (cdiv (256 * counter) effect.duration).map (fun level =>
      [.alphaMaskBlend effect.anim_image_surface .ALPHA_BLEND_FADE_MASK level s.dirty_rect])

/-- Cases 16 (mosaic out, on the old frame) and 17 (mosaic in, on the new
frame). -/
def mosaic (effect : Effect) (counter : Int) (out : Bool) :
    Except EffectError (List EngineCall) :=
  (cdiv (6 * counter) effect.duration).map (fun q =>
    if out then [.generateMosaic .effect_src_surface (5 - q)]
    else [.generateMosaic .effect_dst_surface q])

/-- The `switch (effect_no)` of `doEffect`: the calls issued, in order, and
the value of `effect_timer_resolution` after it (the sinusoidal quakes lower
it).  `counter` and `effect` are `effect_counter` and the request after the
skip keys have been looked at. -/
def effectSwitch (env : StepEnv) (s : Engine) (effect : Effect) (counter : Int)
    (resolution : Int) (effect_no : Int) (first_time : Bool) :
    Except EffectError (List EngineCall × Int) :=
  if effect_no = 0 ∨ effect_no = 1 then .ok ([], resolution)
  else if effect_no = 2 then
    keepResolution resolution (shutter s counter effect.duration true false)
  else if effect_no = 3 then
    keepResolution resolution (shutter s counter effect.duration true true)
  else if effect_no = 4 then
    keepResolution resolution (shutter s counter effect.duration false false)
  else if effect_no = 5 then
    keepResolution resolution (shutter s counter effect.duration false true)
  else if effect_no = 6 then
    keepResolution resolution (curtain s counter effect.duration true false)
  else if effect_no = 7 then
    keepResolution resolution (curtain s counter effect.duration true true)
  else if effect_no = 8 then
    keepResolution resolution (curtain s counter effect.duration false false)
  else if effect_no = 9 then
    keepResolution resolution (curtain s counter effect.duration false true)
  else if effect_no = 10 then keepResolution resolution (crossFade s counter effect.duration)
  else if 11 ≤ effect_no ∧ effect_no ≤ 14 then
    keepResolution resolution (scroll s counter effect.duration effect_no)
  else if effect_no = 15 then keepResolution resolution (maskFade s effect counter false)
  else if effect_no = 16 then keepResolution resolution (mosaic effect counter true)
  else if effect_no = 17 then keepResolution resolution (mosaic effect counter false)
  else if effect_no = 18 then keepResolution resolution (maskFade s effect counter true)
  else if effect_no = 99 then dllEffect s effect counter resolution effect_no first_time
  else if effect_no = s.CUSTOM_EFFECT_NO + 0 then sineQuake env s effect counter resolution true
  else if effect_no = s.CUSTOM_EFFECT_NO + 1 then sineQuake env s effect counter resolution false
  else if effect_no = s.CUSTOM_EFFECT_NO + 2 then
    .ok ([.fillBlack,
          .drawEffect ⟨effect.no * env.rnd_x * 2, effect.no * env.rnd_y * 2, s.screen_width,
            s.screen_height⟩ (screenRect s) false .effect_dst_surface], resolution)
  else
    keepResolution resolution ((crossFade s counter effect.duration).map (fun cs =>
      warnOnce first_time (.printf_not_implemented effect_no) ++ cs))

/-- The method `PonscripterLabel::doEffect`: the return code, the state and the request
after one step, or the error the step runs into. -/
def doEffect (env : StepEnv) (s : Engine) (effect : Effect) (clear_dirty_region : Bool) :
    Except EffectError (RetCode × Engine × Effect) :=
  let first_time : Bool := decide (s.effect_counter = 0)
  let prevduration := effect.duration
  let skip : Bool := s.ctrl_pressed_status || s.skip_to_wait
  let effect1 : Effect := if skip then { effect with duration := 1 } else effect
  let counter : Int := if skip then 1 else s.effect_counter
  let effect_start_time := env.ticks
  let resolution := effect_start_time - s.effect_start_time_old
  let effect_no : Int := if s.effect_cut_flag && s.skip_flag then 1 else effect1.effect
  match effectSwitch env s effect1 counter resolution effect_no first_time with
  | .error e => .error e
  | .ok (calls, resolution) =>
    let drawn := calls.foldl (fun acc c => env.render s c acc) s.accumulation_surface
    let counter := counter + resolution
    let s1 : Engine :=
      { s with effect_start_time := effect_start_time, effect_start_time_old := effect_start_time,
               effect_timer_resolution := resolution, effect_counter := counter,
               accumulation_surface := drawn, log := s.log ++ calls }
    if counter < effect1.duration ∧ effect_no ≠ 1 then
      .ok (.RET_WAIT_REREAD,
        { s1 with log := s1.log ++ (if effect_no ≠ 0 then [.flush false] else []) },
        { effect1 with duration := prevduration })
    else
      .ok (.RET_CONTINUE,
        { s1 with
          accumulation_surface :=
            SDL_BlitSurface_rect s.effect_dst_surface s.dirty_rect drawn
          log := s1.log ++ (if effect_no ≠ 0 then [.flush clear_dirty_region] else [])
          effect_counter := if effect_no = 1 then 0 else counter
          event_mode := .IDLE_EVENT_MODE },
        { effect1 with duration := prevduration })

/-- What arming takes from outside: the clock, whether `refreshMode()` is
`REFRESH_NORMAL_MODE`, what `refreshSurface` leaves in its target surface, the
mask image that `parseTaggedString` and `setupAnimationInfo` load, and the
string `bstr2cstr(&effect.anim.image_name, '0')` (`none` for a null pointer). -/
structure ArmEnv where
  ticks : Int
  refresh_mode_normal : Bool
  refreshed : SurfaceRef → Option SDL_Rect → SDL_Surface → SDL_Surface
  loaded_mask : Option Nat
  image_name_cstr : Option String

/-- Modelled from the spec: `DirtyRect::fill(w, h)` belongs to a class
outside the sources; it "marks the dirty region as the entire screen". -/
def DirtyRect_fill (w h : Int) : SDL_Rect := ⟨0, 0, w, h⟩

/-- The method `PonscripterLabel::setEffect`: the return code, the state and the request
after arming. -/
def setEffect (env : ArmEnv) (s : Engine) (effect : Effect)
    (generate_effect_dst update_backup_surface : Bool) : RetCode × Engine × Effect :=
  if effect.effect = 0 then (.RET_CONTINUE, s, effect)
  else
    let backup :=
      if update_backup_surface then
        env.refreshed .backup_surface (some s.dirty_rect) s.backup_surface
      else s.backup_surface
    let log1 : List EngineCall :=
      if update_backup_surface then [.refreshSurface .backup_surface (some s.dirty_rect)] else []
    let effect_no : Int := if s.effect_cut_flag && s.skip_flag then 1 else effect.effect
    let src := SDL_BlitSurface_all s.accumulation_surface s.effect_src_surface
    let dst : SDL_Surface × List EngineCall :=
      if generate_effect_dst then
        if update_backup_surface && env.refresh_mode_normal then
          (SDL_BlitSurface_rect backup s.dirty_rect s.effect_dst_surface, [])
        else if effect_no = 1 then
          (env.refreshed .effect_dst_surface (some s.dirty_rect) s.effect_dst_surface,
            [.refreshSurface .effect_dst_surface (some s.dirty_rect)])
        else
          (env.refreshed .effect_dst_surface none s.effect_dst_surface,
            [.refreshSurface .effect_dst_surface none])
      else (s.effect_dst_surface, [])
    let mask : Effect × List EngineCall :=
      if (effect_no = 15 ∨ effect_no = 18) ∧ effect.anim_image_surface = none then
        ({ effect with anim_image_surface := env.loaded_mask }, [.loadMask])
      else (effect, [])
    let full := DirtyRect_fill s.screen_width s.screen_height
    let dirty1 : SDL_Rect :=
      if effect_no = 11 ∨ effect_no = 12 ∨ effect_no = 13 ∨ effect_no = 14 ∨ effect_no = 16 ∨
          effect_no = 17 then full
      else s.dirty_rect
    let ext : Option String × SDL_Rect × List EngineCall :=
      if effect_no = 99 then
        match env.image_name_cstr with
        | some dll =>
          if dllIs dll "whirl.dll" then
            (some dll, full, [.buildSinTable, .buildCosTable, .buildWhirlTable])
          else if dllIs dll "trvswave.dll" then (some dll, full, [.buildSinTable])
          else if dllIs dll "breakup.dll" then (some dll, full, [.initBreakup])
          else (some dll, full, [])
        | none => (none, dirty1, [])
      else (none, dirty1, [])
    (.RET_WAIT_REREAD,
      { s with backup_surface := backup, effect_src_surface := src, effect_dst_surface := dst.1,
               dirty_rect := ext.2.1, dll := ext.1, effect_counter := 0,
               effect_start_time_old := env.ticks, event_mode := .EFFECT_EVENT_MODE,
               log := s.log ++ log1 ++ dst.2 ++ mask.2 ++ ext.2.2 ++ [.advancePhase] },
      mask.1)

/-- Consecutive `doEffect` steps on the same request, each finding that `t`
ticks have passed since the step before (the clock reads
`effect_start_time_old + t`): the return codes in order and the last state. -/
def runSteps (env : StepEnv) (t : Int) (clear_dirty_region : Bool) :
    Nat → Engine → Effect → Except EffectError (List RetCode × Engine × Effect)
  | 0, s, effect => .ok ([], s, effect)
  | n + 1, s, effect =>
    match doEffect { env with ticks := s.effect_start_time_old + t } s effect
        clear_dirty_region with
    | .error e => .error e
    | .ok (r, s1, effect1) =>
      match runSteps env t clear_dirty_region n s1 effect1 with
      | .error e => .error e
      | .ok (rs, s2, effect2) => .ok (r :: rs, s2, effect2)

/-- The number `ceil(D / t)` for positive `t`. -/
def ceilDiv (D t : Int) : Int := (D + t - 1) / t

/-- The divisors that the drawing code of a step uses are different from 0:
the screen ratio, the duration, the two stripe widths and the screen extents. -/
def DivisorsOk (s : Engine) (effect : Effect) : Prop :=
  s.screen_ratio2 ≠ 0 ∧ effect.duration ≠ 0 ∧
    (16 * s.screen_ratio1).tdiv s.screen_ratio2 ≠ 0 ∧
    (24 * s.screen_ratio1).tdiv s.screen_ratio2 ≠ 0 ∧
    s.screen_width ≠ 0 ∧ s.screen_height ≠ 0

instance (s : Engine) (effect : Effect) : Decidable (DivisorsOk s effect) := by
  unfold DivisorsOk; infer_instance

/-- The effect number a step dispatches on: 1 while `effect_cut_flag` and
`skip_flag` are set, the number of the request otherwise. -/
def effectNo (s : Engine) (effect : Effect) : Int :=
  if s.effect_cut_flag && s.skip_flag then 1 else effect.effect

/-- No skip key is held: `ctrl_pressed_status` and `skip_to_wait` are clear. -/
def NoSkipInput (s : Engine) : Prop :=
  s.ctrl_pressed_status = false ∧ s.skip_to_wait = false

instance (s : Engine) : Decidable (NoSkipInput s) := by
  unfold NoSkipInput; infer_instance

/-- The effect number is not one of the two sinusoidal quakes. -/
def NotSineQuake (s : Engine) (effect_no : Int) : Prop :=
  effect_no ≠ s.CUSTOM_EFFECT_NO + 0 ∧ effect_no ≠ s.CUSTOM_EFFECT_NO + 1

instance (s : Engine) (n : Int) : Decidable (NotSineQuake s n) := by
  unfold NotSineQuake; infer_instance

/-- Inside the dirty rectangle the accumulation surface `acc` shows the
pixels of `dst`, wherever both surfaces have a pixel. -/
def CommittedInside (dirty : SDL_Rect) (dst acc : SDL_Surface) : Prop :=
  ∀ x y : Int, dirty.covers x y → dst.covers x y → acc.covers x y →
    acc.pixels x y = dst.pixels x y

/-! ### Concrete engine states -/

/-- A blank surface of 640 by 480 pixels filled with one value. -/
def plainSurface (v : Nat) : SDL_Surface := ⟨640, 480, fun _ _ => v⟩

/-- An idle engine with a 640 by 480 screen, screen ratio 1/1, no skip input,
and a dirty rectangle in the middle of the screen. -/
def idleEngine : Engine :=
  { CUSTOM_EFFECT_NO := 100, effect_counter := 0, effect_start_time := 0,
    effect_start_time_old := 0, effect_timer_resolution := 0,
    event_mode := .IDLE_EVENT_MODE, ctrl_pressed_status := false, skip_to_wait := false,
    effect_cut_flag := false, skip_flag := false, screen_width := 640, screen_height := 480,
    screen_ratio1 := 1, screen_ratio2 := 1, accumulation_surface := plainSurface 1,
    effect_src_surface := plainSurface 2, effect_dst_surface := plainSurface 3,
    backup_surface := plainSurface 4, dirty_rect := ⟨100, 100, 200, 100⟩, dll := none,
    log := [] }

/-- The running engine: `idleEngine` in effect mode, last polled at tick 0. -/
def runningEngine : Engine := { idleEngine with event_mode := .EFFECT_EVENT_MODE }

/-- A step environment whose clock reads `ticks` and whose drawing calls leave
the accumulation surface as it is. -/
def clockEnv (ticks : Int) : StepEnv :=
  { ticks := ticks, quake_wave := fun _ _ _ _ => 0, rnd_x := 0, rnd_y := 0,
    render := fun _ _ acc => acc }

/-- An arming environment with the clock at 0. -/
def armEnv : ArmEnv :=
  { ticks := 0, refresh_mode_normal := true, refreshed := fun _ _ surf => surf,
    loaded_mask := none, image_name_cstr := none }

/-- The request with effect number `no` and duration `duration`. -/
def request (no duration : Int) : Effect :=
  { effect := no, duration := duration, no := 1, anim_image_surface := none }

/-- The state `s'` has the setup of `s`: the same constants, flags, screen
geometry, target frame, dirty rectangle and DLL name.  A step changes none of
them. -/
def SameSetup (s s' : Engine) : Prop :=
  s'.CUSTOM_EFFECT_NO = s.CUSTOM_EFFECT_NO ∧
  s'.ctrl_pressed_status = s.ctrl_pressed_status ∧ s'.skip_to_wait = s.skip_to_wait ∧
  s'.effect_cut_flag = s.effect_cut_flag ∧ s'.skip_flag = s.skip_flag ∧
  s'.screen_width = s.screen_width ∧ s'.screen_height = s.screen_height ∧
  s'.screen_ratio1 = s.screen_ratio1 ∧ s'.screen_ratio2 = s.screen_ratio2 ∧
  s'.effect_dst_surface = s.effect_dst_surface ∧ s'.dirty_rect = s.dirty_rect ∧
  s'.dll = s.dll

/-- The step as C3 words it: the elapsed ticks are added to `effect_counter`;
below the duration the step waits and keeps the event mode; otherwise it
commits the target frame inside the dirty rectangle, goes idle and
continues. -/
def StepAsClaimed (env : StepEnv) (s : Engine) (effect : Effect) (cdr : Bool) : Prop :=
  ∃ r s' effect', doEffect env s effect cdr = .ok (r, s', effect') ∧
    s'.effect_counter = s.effect_counter + (env.ticks - s.effect_start_time_old) ∧
    (s'.effect_counter < effect.duration →
      r = .RET_WAIT_REREAD ∧ s'.event_mode = s.event_mode) ∧
    (¬ s'.effect_counter < effect.duration →
      r = .RET_CONTINUE ∧ s'.event_mode = .IDLE_EVENT_MODE ∧
        CommittedInside s.dirty_rect s.effect_dst_surface s'.accumulation_surface)

/-- The transition as C8 words it: after arming, `ceil(D / t)` steps that each
see `t` elapsed ticks return wait-and-re-poll `ceil(D / t) - 1` times and then
continue, idle, with the target frame committed inside the dirty rectangle. -/
def RunAsClaimed (aenv : ArmEnv) (env : StepEnv) (s : Engine) (effect : Effect)
    (generate_effect_dst update_backup_surface : Bool) (t : Int) (cdr : Bool) : Prop :=
  let armed := setEffect aenv s effect generate_effect_dst update_backup_surface
  let n := (ceilDiv effect.duration t).toNat
  ∃ s', runSteps env t cdr n armed.2.1 armed.2.2 =
      .ok (List.replicate (n - 1) .RET_WAIT_REREAD ++ [.RET_CONTINUE], s', armed.2.2) ∧
    s'.event_mode = .IDLE_EVENT_MODE ∧
    CommittedInside armed.2.1.dirty_rect armed.2.1.effect_dst_surface s'.accumulation_surface

/-! ## Compositing kernels (`graphics_accelerated.cpp`, `graphics_sse2.cpp`)

The buffers handed to a kernel are taken to be separate objects. -/

/-- A byte buffer seen from its base pointer: the cell at every index. -/
abbrev Buffer := Nat → Nat

/-- The read `buf[i]` of an `unsigned char`. -/
def Buffer.load (buf : Buffer) (i : Nat) : Nat := buf i % 256

/-- The store `buf[i] = v` into an `unsigned char`. -/
def Buffer.store (buf : Buffer) (i : Nat) (v : Nat) : Buffer :=
  fun j => if j = i then v % 256 else buf j

/-- Modelled from the spec: `mean_pixel` is declared in `graphics_common.h`,
which is not among the sources; the contract of the mean kernel is
"`mean(a,b) -> (a+b)/2` per channel". -/
def mean_pixel (a b : Nat) : Nat := (a + b) / 2

/-- Modelled from the spec: `is_aligned(ptr, n)` is declared in
`graphics_x86_common.h`, which is not among the sources; the loop that uses it
runs "so we're on a 16-byte boundary in dst": the address is a multiple of
`n`. -/
def is_aligned (addr n : Nat) : Bool := addr % n == 0

/-- The loop `for (; i < length; i++) dst[i] = mean_pixel(src1[i], src2[i]);`
started at `i`: the final index and buffer.  The first argument bounds the
number of iterations; `length - i` iterations are enough. -/
def meanBytes (src1 src2 : Buffer) (length : Int) : Nat → Nat → Buffer → Nat × Buffer
  | 0, i, dst => (i, dst)
  | fuel + 1, i, dst =>
    if (i : Int) < length then
      meanBytes src1 src2 length fuel (i + 1)
        (dst.store i (mean_pixel (src1.load i) (src2.load i)))
    else (i, dst)

/-- The function `imageFilterMean_Basic`: the reference kernel. -/
def imageFilterMean_Basic (src1 src2 dst : Buffer) (length : Int) : Buffer :=
  (meanBytes src1 src2 length length.toNat 0 dst).2

/-- An SSE register: its 16 bytes, lowest address first. -/
abbrev M128 := List Nat

/-- The intrinsic `_mm_set1_epi8`: 16 copies of one byte. -/
def _mm_set1_epi8 (b : Nat) : M128 := List.replicate 16 (b % 256)

/-- The intrinsic `_mm_loadu_si128`: the 16 bytes from index `i` on. -/
def _mm_loadu_si128 (buf : Buffer) (i : Nat) : M128 :=
  (List.range 16).map (fun k => buf.load (i + k))

/-- The intrinsic `_mm_store_si128`: the 16 bytes are stored from index `i` on. -/
def _mm_store_si128 (buf : Buffer) (i : Nat) (v : M128) : Buffer :=
  fun j => if i ≤ j ∧ j < i + 16 then v.getD (j - i) 0 % 256 else buf j

/-- The intrinsic `_mm_srli_epi16`: every 16-bit lane, made of two
neighbouring bytes with the low byte first, is shifted right by `n` bits. -/
def _mm_srli_epi16 : M128 → Nat → M128
  | lo :: hi :: rest, n =>
    ((lo + 256 * hi) >>> n) % 256 :: ((lo + 256 * hi) >>> n) / 256 :: _mm_srli_epi16 rest n
  | v, _ => v

/-- The intrinsic `_mm_and_si128`: the bitwise and. -/
def _mm_and_si128 (a b : M128) : M128 := List.zipWith Nat.land a b

/-- The intrinsic `_mm_adds_epu8`: the sum of unsigned bytes, saturated at 255. -/
def _mm_adds_epu8 (a b : M128) : M128 := List.zipWith (fun x y => min (x + y) 255) a b

/-- The first loop of `imageFilterMean_SSE2`: single bytes until `dst + i` is
on a 16-byte boundary or the length is reached.  `dstAddr` is the address of
`dst`. -/
def meanHead (dstAddr : Nat) (src1 src2 : Buffer) (length : Int) :
    Nat → Nat → Buffer → Nat × Buffer
  | 0, i, dst => (i, dst)
  | fuel + 1, i, dst =>
    if !is_aligned (dstAddr + i) 16 ∧ (i : Int) < length then
      meanHead dstAddr src1 src2 length fuel (i + 1)
        (dst.store i (mean_pixel (src1.load i) (src2.load i)))
    else (i, dst)

/-- The second loop of `imageFilterMean_SSE2`: 16 bytes at a time while
`i < length - 15`. -/
def meanBlocks (src1 src2 : Buffer) (length : Int) : Nat → Nat → Buffer → Nat × Buffer
  | 0, i, dst => (i, dst)
  | fuel + 1, i, dst =>
    if (i : Int) < length - 15 then
      let mask := _mm_set1_epi8 0x7F
      let s1 := _mm_and_si128 (_mm_srli_epi16 (_mm_loadu_si128 src1 i) 1) mask
      let s2 := _mm_and_si128 (_mm_srli_epi16 (_mm_loadu_si128 src2 i) 1) mask
      let r := _mm_adds_epu8 s1 s2
      meanBlocks src1 src2 length fuel (i + 16) (_mm_store_si128 dst i r)
    else (i, dst)

/-- The function `imageFilterMean_SSE2`, for a `dst` at address `dstAddr`. -/
def imageFilterMean_SSE2 (dstAddr : Nat) (src1 src2 dst : Buffer) (length : Int) : Buffer :=
  let head := meanHead dstAddr src1 src2 length length.toNat 0 dst
  let body := meanBlocks src1 src2 length length.toNat head.1 head.2
  (meanBytes src1 src2 length length.toNat body.1 body.2).2

/-- The buffer whose cells all hold `v`. -/
def constBuffer (v : Nat) : Buffer := fun _ => v

/-! ### The saturating kernels `imageFilterAddTo` and `imageFilterSubFrom` -/

/-- Modelled from the spec: `addto_pixel(d, s)` is declared in
`graphics_common.h`, which is not among the sources; the contract is
"`addTo(dst, src) -> dst + src` saturating (clamped, never wraps)".  The value
is what the macro leaves in its first argument. -/
def addto_pixel (d s : Nat) : Nat := min 255 (d + s)

/-- Modelled from the spec: `subfrom_pixel(d, s)` is declared in
`graphics_common.h`, which is not among the sources; the contract is
"`subFrom(dst, src) -> dst - src` saturating at zero".  The value is what the
macro leaves in its first argument. -/
def subfrom_pixel (d s : Nat) : Nat := d - s

/-- The intrinsic `_mm_load_si128`: the 16 bytes from index `i` on; the
address has to be on a 16-byte boundary, which the caller checks. -/
def _mm_load_si128 (buf : Buffer) (i : Nat) : M128 :=
  (List.range 16).map (fun k => buf.load (i + k))

/-- The intrinsic `_mm_subs_epu8`: the difference of unsigned bytes, saturated
at 0. -/
def _mm_subs_epu8 (a b : M128) : M128 := List.zipWith (fun x y => x - y) a b

/-- What a kernel call leaves behind: its first and its second buffer
argument, and the indices it has processed, in order. -/
structure KernelResult where
  first : Buffer
  second : Buffer
  touched : List Nat

/-- The loop `for (; i < length; i++) op(dst[i], src[i]);` started at `i`,
for `op` one of `addto_pixel` and `subfrom_pixel`: the final index, the final
`dst` and the indices processed.  The first argument bounds the number of
iterations; `length - i` iterations are enough. -/
def accumBytes (op : Nat → Nat → Nat) (src : Buffer) (length : Int) :
    Nat → Nat → Buffer → List Nat → Nat × Buffer × List Nat
  | 0, i, dst, touched => (i, dst, touched)
  | fuel + 1, i, dst, touched =>
    if (i : Int) < length then
      accumBytes op src length fuel (i + 1) (dst.store i (op (dst.load i) (src.load i)))
        (touched ++ [i])
    else (i, dst, touched)

/-- The first loop of the SSE2 kernels: single bytes until `dst + i` is on a
16-byte boundary or the length is reached. -/
def accumHead (op : Nat → Nat → Nat) (dstAddr : Nat) (src : Buffer) (length : Int) :
    Nat → Nat → Buffer → List Nat → Nat × Buffer × List Nat
  | 0, i, dst, touched => (i, dst, touched)
  | fuel + 1, i, dst, touched =>
    if !is_aligned (dstAddr + i) 16 ∧ (i : Int) < length then
      accumHead op dstAddr src length fuel (i + 1)
        (dst.store i (op (dst.load i) (src.load i))) (touched ++ [i])
    else (i, dst, touched)

/-- The second loop of the SSE2 kernels: 16 bytes at a time while
`i < length - 15`.  `vop s d` is the register operation on the loaded source
and destination bytes.  The aligned load and store of `dst + i` fail (`none`)
when that address is not on a 16-byte boundary. -/
def accumBlocks (vop : M128 → M128 → M128) (dstAddr : Nat) (src : Buffer) (length : Int) :
    Nat → Nat → Buffer → List Nat → Option (Nat × Buffer × List Nat)
  | 0, i, dst, touched => some (i, dst, touched)
  | fuel + 1, i, dst, touched =>
    if (i : Int) < length - 15 then
      if is_aligned (dstAddr + i) 16 then
        let s := _mm_loadu_si128 src i
        let d := _mm_load_si128 dst i
        let r := vop s d
        accumBlocks vop dstAddr src length fuel (i + 16) (_mm_store_si128 dst i r)
          (touched ++ (List.range 16).map (fun k => i + k))
      else none
    else some (i, dst, touched)

/-- The three loops of an SSE2 kernel on a `dst` at address `dstAddr`. -/
def accumSSE2 (op : Nat → Nat → Nat) (vop : M128 → M128 → M128) (dstAddr : Nat)
    (dst src : Buffer) (length : Int) : Option KernelResult :=
  let head := accumHead op dstAddr src length length.toNat 0 dst []
  match accumBlocks vop dstAddr src length length.toNat head.1 head.2.1 head.2.2 with
  | none => none
  | some body =>
    let tail := accumBytes op src length length.toNat body.1 body.2.1 body.2.2
    some { first := tail.2.1, second := src, touched := tail.2.2 }

/-- The function `imageFilterAddTo_Basic(src, dst, length)`: the reference
kernel; it writes its second argument. -/
def imageFilterAddTo_Basic (src dst : Buffer) (length : Int) : KernelResult :=
  let run := accumBytes addto_pixel src length length.toNat 0 dst []
  { first := src, second := run.2.1, touched := run.2.2 }

/-- The function `imageFilterSubFrom_Basic(src, dst, length)`: the reference
kernel; it writes its second argument. -/
def imageFilterSubFrom_Basic (src dst : Buffer) (length : Int) : KernelResult :=
  let run := accumBytes subfrom_pixel src length length.toNat 0 dst []
  { first := src, second := run.2.1, touched := run.2.2 }

/-- The function `imageFilterAddTo_SSE2(dst, src, length)` for a `dst` at
address `dstAddr`; it writes its first argument.  The block loop computes
`_mm_adds_epu8(s, d)`. -/
def imageFilterAddTo_SSE2 (dstAddr : Nat) (dst src : Buffer) (length : Int) :
    Option KernelResult :=
  accumSSE2 addto_pixel (fun s d => _mm_adds_epu8 s d) dstAddr dst src length

/-- The function `imageFilterSubFrom_SSE2(dst, src, length)` for a `dst` at
address `dstAddr`; it writes its first argument.  The block loop computes
`_mm_subs_epu8(d, s)`. -/
def imageFilterSubFrom_SSE2 (dstAddr : Nat) (dst src : Buffer) (length : Int) :
    Option KernelResult :=
  accumSSE2 subfrom_pixel (fun s d => _mm_subs_epu8 d s) dstAddr dst src length

/-! ## The box filter `downscale4x` (`PonscripterLabel_animation.cpp`)

The two surfaces are taken to be separate objects with 32-bit pixels, so that
the pitch is a multiple of 4 and two `Uint32` accesses at different offsets do
not overlap. -/

/-- A surface as `downscale4x` uses it: `w`, `h`, `pitch` (in bytes), and the
`Uint32` found at every byte offset from `pixels`. -/
structure Surface32 where
  w : Int
  h : Int
  pitch : Int
  mem : Int → Nat

/-- A value kept in a `Uint32`. -/
def u32 (x : Nat) : Nat := x % 4294967296

/-- The four running sums `a`, `b`, `c`, `d` of `downscale4x`. -/
structure ChannelSums where
  a : Nat
  b : Nat
  c : Nat
  d : Nat
  deriving DecidableEq, Repr

/-- The first pixel of a block: `a = p >> 24; b = (p >> 16) & 0xff;
c = (p >> 8) & 0xff; d = p & 0xff;`. -/
def firstPx (p : Nat) : ChannelSums :=
  ⟨p >>> 24, (p >>> 16) &&& 0xff, (p >>> 8) &&& 0xff, p &&& 0xff⟩

/-- The macro `AddPx`: `a += p >> 24; b += (p >> 16) & 0xff; c += (p >> 8) &
0xff; d += p & 0xff`. -/
def AddPx (s : ChannelSums) (p : Nat) : ChannelSums :=
  ⟨u32 (s.a + (p >>> 24)), u32 (s.b + ((p >>> 16) &&& 0xff)),
    u32 (s.c + ((p >>> 8) &&& 0xff)), u32 (s.d + (p &&& 0xff))⟩

/-- The end of a block: `a >>= 4; b >>= 4; c >>= 4; d >>= 4;` and the value
`a << 24 | b << 16 | c << 8 | d` stored through `dest`. -/
def packPx (s : ChannelSums) : Nat :=
  u32 ((s.a >>> 4) <<< 24) ||| u32 ((s.b >>> 4) <<< 16) ||| u32 ((s.c >>> 4) <<< 8) |||
    (s.d >>> 4)

/-- The 16 source pixels of one block in the order in which they are read:
four through `src1`, four through `src2 = src_scan + sp`, four through `src3`
and four through `src4`; `base` is the offset of `src1`. -/
def blockWords (src : Int → Nat) (sp base : Int) : List Nat :=
  [u32 (src base), u32 (src (base + 4)), u32 (src (base + 8)), u32 (src (base + 12)),
   u32 (src (base + sp)), u32 (src (base + sp + 4)), u32 (src (base + sp + 8)),
   u32 (src (base + sp + 12)),
   u32 (src (base + sp * 2)), u32 (src (base + sp * 2 + 4)), u32 (src (base + sp * 2 + 8)),
   u32 (src (base + sp * 2 + 12)),
   u32 (src (base + sp * 3)), u32 (src (base + sp * 3 + 4)), u32 (src (base + sp * 3 + 8)),
   u32 (src (base + sp * 3 + 12))]

/-- The body of the `while (cols-- > 0)` loop: the pixel computed from the
block at `base`. -/
def downscalePixel (src : Int → Nat) (sp base : Int) : Nat :=
  match blockWords src sp base with
  | [] => 0
  | p :: rest => packPx (rest.foldl AddPx (firstPx p))

/-- The loop `while (cols-- > 0)` of one output row: `srcOff` is the offset of
`src1`, `dstOff` the offset of `dest`. -/
def downscaleRow (src : Int → Nat) (sp : Int) :
    Nat → Int → Int → (Int → Nat) → (Int → Nat)
  | 0, _, _, dst => dst
  | cols + 1, srcOff, dstOff, dst =>
    downscaleRow src sp cols (srcOff + 16) (dstOff + 4)
      (fun o => if o = dstOff then downscalePixel src sp srcOff else dst o)

/-- The loop `for (int rows = dr.h; rows-- > 0; src_scan += sp * 4, dst_scan
+= dp)`. -/
def downscaleRows (src : Int → Nat) (sp dp : Int) (cols : Nat) :
    Nat → Int → Int → (Int → Nat) → (Int → Nat)
  | 0, _, _, dst => dst
  | rows + 1, src_scan, dst_scan, dst =>
    downscaleRows src sp dp cols rows (src_scan + sp * 4) (dst_scan + dp)
      (downscaleRow src sp cols src_scan dst_scan dst)

/-- The source rectangle of `downscale4x`: `*srcpos`, or the whole source
surface for a null pointer. -/
def downscaleSrcRect (src : Surface32) (srcpos : Option SDL_Rect) : SDL_Rect :=
  match srcpos with
  | some r => r
  | none => ⟨0, 0, src.w, src.h⟩

/-- The corner of the destination rectangle: that of `*dstpos`, or `(0, 0)`
for a null pointer. -/
def downscaleDstCorner (dstpos : Option SDL_Rect) : Int × Int :=
  match dstpos with
  | some r => (r.x, r.y)
  | none => (0, 0)

/-- The function `downscale4x(src, srcpos, dst, dstpos)`: the destination
surface after the call. -/
def downscale4x (src : Surface32) (srcpos : Option SDL_Rect) (dst : Surface32)
    (dstpos : Option SDL_Rect) : Surface32 :=
  let sp := src.pitch
  let dp := dst.pitch
  let sr := downscaleSrcRect src srcpos
  let corner := downscaleDstCorner dstpos
  let dr_w := sr.w.tdiv 4
  let dr_h := sr.h.tdiv 4
  let src_scan := sr.y * sp + sr.x * 4
  let dst_scan := corner.2 * dp + corner.1 * 4
  { dst with
    mem := downscaleRows src.mem sp dp dr_w.toNat dr_h.toNat src_scan dst_scan dst.mem }

/-- The 8-bit channel number `k` of a pixel: `k = 3` is `p >> 24`, `k = 0` is
`p & 0xff`. -/
def channel (k : Nat) (p : Nat) : Nat := (p >>> (8 * k)) % 256

/-- The pixel `(x, y)` of a 32-bit surface: the `Uint32` at byte offset
`y * pitch + x * 4`. -/
def Surface32.pixel (s : Surface32) (x y : Int) : Nat :=
  u32 (s.mem (y * s.pitch + x * 4))

/-- Spec-side sum of a 4x4 block: the sum of channel `k` over the 16 source
pixels `(x + j, y + i)`, `i, j < 4`. -/
def boxSum (src : Surface32) (x y : Int) (k : Nat) : Nat :=
  ((List.range 4).map (fun i : Nat =>
    ((List.range 4).map (fun j : Nat => channel k (src.pixel (x + j) (y + i)))).sum)).sum

/-! ## The sprite descriptor reader `parseTaggedString` (`PonscripterLabel_animation.cpp`)

A `const char*` walking a NUL-terminated string is the list of the characters
from the pointer up to the terminator: the empty list is a pointer at the
NUL.  Moving a pointer that is at the NUL leaves it there (the source would
read past the end of the string). -/

/-- The values of `AnimationInfo::trans_mode` that `parseTaggedString` assigns. -/
inductive TransMode where
  | TRANS_ALPHA
  | TRANS_TOPLEFT
  | TRANS_COPY
  | TRANS_STRING
  | TRANS_DIRECT
  | TRANS_PALETTE
  | TRANS_TOPRIGHT
  | TRANS_MASK
  deriving DecidableEq, Repr

/-- The fields of `AnimationInfo` that `parseTaggedString` reads or writes,
on top of those the scheduler uses. -/
structure TaggedAnimation extends AnimationInfo where
  image_name : Option (List Char)
  trans_mode : TransMode
  twox : Bool
  isflipped : Bool
  is_centered_text : Bool
  font_size_x : Int
  font_size_y : Int
  font_pitch : Int
  color_list : List Nat
  mask_file_name : List Char
  direct_color : Nat
  palette_number : Int
  file_name : List Char
  deriving DecidableEq, Repr

/-- What `parseTaggedString` takes from the rest of the program, none of it
among the sources: `AnimationInfo::removeTag` (`AnimationInfo.cpp`), the
members `multiplier_style`, `res_multiplier`, `trans_mode` and
`sentence_font` of `PonscripterLabel`, the constant
`ScriptHandler::UMINEKO`, the helpers `getNumberFromBuffer` and `readColour`
(value read, and for the former the pointer after it),
`readFontArgs` for the calls of `script_h` that read the font sizes of a text
sprite (size x, optional size y, optional pitch, and the pointer returned by
`getNext`), and `readStrValue` for `script_h.readStrValue()`. -/
structure ParseEnv where
  removeTag : TaggedAnimation → TaggedAnimation
  multiplier_style : Int
  UMINEKO : Int
  res_multiplier : Int
  trans_mode : TransMode
  sentence_font_size : Int
  sentence_font_pitch_x : Int
  getNumberFromBuffer : List Char → Int × List Char
  readColour : List Char → Nat
  readFontArgs : List Char → Int × Option Int × Option Int × List Char
  readStrValue : List Char → List Char

/-- What stops `parseTaggedString` other than its `return` statements. -/
inductive ParseError where
  | nullBuffer
  | lengthError
  deriving DecidableEq, Repr

/-- The character `buffer[i]`; the terminator is the NUL character. -/
def charAt (buffer : List Char) (i : Nat) : Char := buffer.getD i (Char.ofNat 0)

/-- The loop `while (*buffer == ' ') buffer++`. -/
def skipSpaces : List Char → List Char
  | [] => []
  | c :: rest => if c = ' ' then skipSpaces rest else c :: rest

/-- The loops `while (!stop(buffer[0]) && buffer[0]) buffer++`. -/
def skipTo (stop : Char → Bool) : List Char → List Char
  | [] => []
  | c :: rest => if stop c then c :: rest else skipTo stop rest

/-- The loop `while (buffer[i] == '#') { anim->num_of_cells++; i += 7; }`,
started with `buffer + i`; at most one round per character left. -/
def countColours : Nat → List Char → Int → Int
  | 0, _, n => n
  | bound + 1, buffer, n =>
    if charAt buffer 0 = '#' then countColours bound (buffer.drop 7) (n + 1) else n

/-- The loop `for (i = 0; i < anim->num_of_cells; i++) {
color_list.push_back(readColour(buffer)); buffer += 7; }`. -/
def readColours (env : ParseEnv) : Nat → List Char → List Nat × List Char
  | 0, buffer => ([], buffer)
  | n + 1, buffer =>
    let rest := readColours env n (buffer.drop 7)
    (env.readColour buffer :: rest.1, rest.2)

/-- The branch `buffer[0] == 's' || buffer[0] == 'S'` of `parseTaggedString`:
a text sprite. -/
def parseStringSprite (env : ParseEnv) (multiplier : Int) (anim : TaggedAnimation)
    (buffer : List Char) : TaggedAnimation × List Char :=
  let anim : TaggedAnimation :=
    { anim with trans_mode := .TRANS_STRING, is_centered_text := decide (charAt buffer 0 = 'S') }
  let buffer := buffer.tail
  let anim : TaggedAnimation := { anim with num_of_cells := 0 }
  let sized : TaggedAnimation × List Char :=
    if charAt buffer 0 = '/' then
      let args := env.readFontArgs buffer.tail
      let font_size_x := args.1 * multiplier
      ({ anim with
          font_size_x := font_size_x
          font_size_y := (match args.2.1 with
            | some y => y * multiplier
            | none => font_size_x)
          font_pitch := (match args.2.2.1 with
            | some p => p
            | none => 0) }, args.2.2.2)
    else
      ({ anim with
          font_size_x := env.sentence_font_size
          font_size_y := env.sentence_font_size
          font_pitch := env.sentence_font_pitch_x }, buffer)
  let anim := sized.1
  let buffer := skipTo (fun c => c = '#') sized.2
  if charAt buffer 0 = '#' ∧ charAt buffer 1 = '#' then
    ({ anim with
        num_of_cells := 2
        color_list := [env.readColour "#FFFFFF".toList, env.readColour "#000000".toList] },
      buffer.drop 2)
  else
    let num_of_cells := countColours buffer.length buffer anim.num_of_cells
    let colours := readColours env num_of_cells.toNat buffer
    ({ anim with num_of_cells := num_of_cells, color_list := colours.1 }, colours.2)

/-- The step `if (buffer[0] == 'b') { anim->twox = true; buffer++; }`. -/
def prefixTwox (p : TaggedAnimation × List Char) : TaggedAnimation × List Char :=
  if charAt p.2 0 = 'b' then ({ p.1 with twox := true }, p.2.tail) else p

/-- The step `if (buffer[0] == 'f') { anim->isflipped = true; buffer++; }`. -/
def prefixFlipped (p : TaggedAnimation × List Char) : TaggedAnimation × List Char :=
  if charAt p.2 0 = 'f' then ({ p.1 with isflipped := true }, p.2.tail) else p

/-- The branch `buffer[0] == 'm'`: a sprite with a mask file. -/
def prefixMask (anim : TaggedAnimation) (buffer : List Char) : TaggedAnimation × List Char :=
  let start := buffer.tail
  let stop := skipTo (fun c => c = ';' || c = Char.ofNat 0x0a) start
  ({ anim with
      trans_mode := .TRANS_MASK
      mask_file_name :=
        if charAt stop 0 = ';' then start.take (start.length - stop.length)
        else anim.mask_file_name }, stop)

/-- The chain `if (buffer[0] == 'a') ... else if (buffer[0] == '!') ...` that
reads the compositing mode. -/
def prefixMode (env : ParseEnv) (multiplier : Int) (p : TaggedAnimation × List Char) :
    TaggedAnimation × List Char :=
  if charAt p.2 0 = 'a' then ({ p.1 with trans_mode := .TRANS_ALPHA }, p.2.tail)
  else if charAt p.2 0 = 'l' then ({ p.1 with trans_mode := .TRANS_TOPLEFT }, p.2.tail)
  else if charAt p.2 0 = 'r' then ({ p.1 with trans_mode := .TRANS_TOPRIGHT }, p.2.tail)
  else if charAt p.2 0 = 'c' then ({ p.1 with trans_mode := .TRANS_COPY }, p.2.tail)
  else if charAt p.2 0 = 's' ∨ charAt p.2 0 = 'S' then parseStringSprite env multiplier p.1 p.2
  else if charAt p.2 0 = 'm' then prefixMask p.1 p.2
  else if charAt p.2 0 = '#' then
    ({ p.1 with trans_mode := .TRANS_DIRECT, direct_color := env.readColour p.2 }, p.2.drop 7)
  else if charAt p.2 0 = '!' then
    ({ p.1 with
        trans_mode := .TRANS_PALETTE
        palette_number := (env.getNumberFromBuffer p.2.tail).1 },
      (env.getNumberFromBuffer p.2.tail).2)
  else p

/-- The step `if (anim->trans_mode != AnimationInfo::TRANS_STRING) while
(buffer[0] != '/' && buffer[0] != ';' && buffer[0]) buffer++;`. -/
def prefixSkip (p : TaggedAnimation × List Char) : TaggedAnimation × List Char :=
  if p.1.trans_mode ≠ .TRANS_STRING then (p.1, skipTo (fun c => c = '/' || c = ';') p.2)
  else p

/-- The part `if (buffer[0] == ':') { ... }` of `parseTaggedString`, entered
with the pointer at the colon; `while (*++buffer == ' ') ;` comes first. -/
def parsePrefix (env : ParseEnv) (multiplier : Int) (anim : TaggedAnimation)
    (buffer : List Char) : TaggedAnimation × List Char :=
  prefixSkip (prefixMode env multiplier
    (prefixFlipped (prefixTwox (anim, skipSpaces buffer.tail))))

/-- The loop `for (i = 0; i < anim->num_of_cells; i++) { duration_list[i] =
getNumberFromBuffer(&buffer); buffer++; }` over the resized list. -/
def readDurations (env : ParseEnv) : Nat → List Char → List Int × List Char
  | 0, buffer => ([], buffer)
  | n + 1, buffer =>
    let number := env.getNumberFromBuffer buffer
    let rest := readDurations env n number.2.tail
    (number.1 :: rest.1, rest.2)

/-- The line the function prints for a cell count of 0. -/
def zeroCellsMessage : String :=
  "PonscripterLabel::parseTaggedString  The number of cells is 0\n"

/-- The durations of the cells, read after the cell count: the bracketed
list `<d1,d2,...>` with one number per cell, or one number for all cells.
The sprite with its `duration_list`, and the pointer at the loop mode. -/
def cellDurations (env : ParseEnv) (anim : TaggedAnimation) (buffer : List Char) :
    TaggedAnimation × List Char :=
  if charAt buffer 0 = '<' then
    let durations := readDurations env anim.num_of_cells.toNat buffer.tail
    ({ anim with duration_list := durations.1 }, durations.2.tail)
  else
    let number := env.getNumberFromBuffer buffer
    ({ anim with duration_list := List.replicate anim.num_of_cells.toNat number.1 },
      number.2.tail)

/-- The part `if (buffer[0] == '/') { ... }` of `parseTaggedString`, entered
with the pointer at the slash: the sprite, the lines printed to `stderr`, and
the pointer, or nothing for the early `return`. -/
def parseCells (env : ParseEnv) (anim : TaggedAnimation) (buffer : List Char) :
    Except ParseError (TaggedAnimation × List String × Option (List Char)) :=
  let count := env.getNumberFromBuffer buffer.tail
  let anim : TaggedAnimation := { anim with num_of_cells := count.1 }
  let buffer := count.2.tail
  if anim.num_of_cells = 0 then .ok (anim, [zeroCellsMessage], none)
  else if anim.num_of_cells < 0 then .error .lengthError
  else
    let listed := cellDurations env anim buffer
    let anim := listed.1
    let buffer := listed.2
    let anim : TaggedAnimation := { anim with loop_mode := ((charAt buffer 0).toNat : Int) - 48 }
    let buffer := buffer.tail
    let anim : TaggedAnimation :=
      if anim.loop_mode ≠ 3 then { anim with is_animatable := true } else anim
    .ok (anim, [], some (skipTo (fun c => c = ';') buffer))

/-- The statements of `parseTaggedString` from `anim->removeTag()` to the end
of the block `if (buffer[0] == ':') { ... }`: the sprite and the pointer
`buffer` at the test `buffer[0] == '/'`. -/
def parseHead (env : ParseEnv) (anim : TaggedAnimation) (is_mask : Bool) :
    Except ParseError (TaggedAnimation × List Char) :=
  let anim := env.removeTag anim
  let multiplier : Int := if env.multiplier_style ≤ env.UMINEKO then 1 else env.res_multiplier
  match anim.image_name with
  | none => .error .nullBuffer
  | some buffer =>
    let anim : TaggedAnimation := { anim with num_of_cells := 1, current_cell := 0 }
    let anim : TaggedAnimation := { anim with trans_mode := env.trans_mode }
    let anim : TaggedAnimation := if is_mask then { anim with trans_mode := .TRANS_COPY } else anim
    let anim : TaggedAnimation := { anim with twox := false, isflipped := false }
    if charAt buffer 0 = ':' then .ok (parsePrefix env multiplier anim buffer)
    else .ok (anim, buffer)

/-- The end of `parseTaggedString`, from `if (buffer[0] == ';') buffer++;`:
the assignment of `file_name`. -/
def parseFileName (env : ParseEnv) (anim : TaggedAnimation) (buffer : List Char) :
    TaggedAnimation :=
  let buffer := if charAt buffer 0 = ';' then buffer.tail else buffer
  if anim.trans_mode = .TRANS_STRING ∧ charAt buffer 0 = '$' then
    { anim with file_name := env.readStrValue buffer }
  else { anim with file_name := buffer }

/-- The function `PonscripterLabel::parseTaggedString(anim, is_mask)`: the
sprite after the call and the lines printed to `stderr`. -/
def parseTaggedString (env : ParseEnv) (anim : TaggedAnimation) (is_mask : Bool) :
    Except ParseError (TaggedAnimation × List String) :=
  match anim.image_name with
  | none => .ok (anim, [])
  | some _ =>
    match parseHead env anim is_mask with
    | .error e => .error e
    | .ok (anim, buffer) =>
      if charAt buffer 0 = '/' then
        match parseCells env anim buffer with
        | .error e => .error e
        | .ok (anim, printed, none) => .ok (anim, printed)
        | .ok (anim, printed, some buffer) => .ok (parseFileName env anim buffer, printed)
      else .ok (parseFileName env anim buffer, [])

/-- A reader of unsigned decimal numbers, to stand for `getNumberFromBuffer`
in examples: the value of the leading digits and the pointer after them. -/
def readDecimal : List Char → Int → Int × List Char
  | [], n => (n, [])
  | c :: rest, n =>
    if '0' ≤ c ∧ c ≤ '9' then readDecimal rest (n * 10 + ((c.toNat : Int) - 48))
    else (n, c :: rest)

/-- An environment for examples: `removeTag` changes nothing, numbers are
decimal, colours and script values are not interpreted. -/
def exampleParseEnv : ParseEnv where
  removeTag := fun a => a
  multiplier_style := 0
  UMINEKO := 1
  res_multiplier := 1
  trans_mode := .TRANS_TOPLEFT
  sentence_font_size := 26
  sentence_font_pitch_x := 0
  getNumberFromBuffer := fun buffer => readDecimal buffer 0
  readColour := fun _ => 0
  readFontArgs := fun buffer => (26, none, none, buffer)
  readStrValue := fun buffer => buffer

/-- A sprite for examples: three cells, showing the last one, animated, and
carrying the descriptor `text`. -/
def exampleSprite (text : String) : TaggedAnimation where
  visible := true
  is_animatable := true
  abs_flag := true
  pos := ⟨0, 0, 30, 10⟩
  remaining_time := 50
  current_cell := 2
  num_of_cells := 3
  duration_list := [100, 150, 200]
  loop_mode := 0
  image_name := some text.toList
  trans_mode := .TRANS_COPY
  twox := false
  isflipped := false
  is_centered_text := false
  font_size_x := 0
  font_size_y := 0
  font_pitch := 0
  color_list := []
  mask_file_name := []
  direct_color := 0
  palette_number := 0
  file_name := "old.png".toList

/-- The running engine with the Ctrl key held. -/
def skipEngine : Engine := { runningEngine with ctrl_pressed_status := true }

/-- A transition driven by `doEffect` steps that find the elapsed tick counts
of the list, one after the other, until a step returns `RET_CONTINUE` or the
list ends: the return code and the state after every step. -/
def runTicks (env : StepEnv) (clear_dirty_region : Bool) :
    List Int → Engine → Effect → Except EffectError (List (RetCode × Engine))
  | [], _, _ => .ok []
  | t :: rest, s, effect =>
    match doEffect { env with ticks := s.effect_start_time_old + t } s effect
        clear_dirty_region with
    | .error e => .error e
    | .ok (.RET_CONTINUE, s1, _) => .ok [(.RET_CONTINUE, s1)]
    | .ok (.RET_WAIT_REREAD, s1, effect1) =>
      match runTicks env clear_dirty_region rest s1 effect1 with
      | .error e => .error e
      | .ok trace => .ok ((.RET_WAIT_REREAD, s1) :: trace)

/-- The bounds on `effect_counter` after a step of a transition of duration
`D`: never negative, below `D` after a step that waits, at least `D` after
the step that completes. -/
def CounterBounds (D : Int) (step : RetCode × Engine) : Prop :=
  0 ≤ step.2.effect_counter ∧
    (step.1 = .RET_WAIT_REREAD → step.2.effect_counter < D) ∧
    (step.1 = .RET_CONTINUE → D ≤ step.2.effect_counter)

/-- The calls that print a warning: the three `printf` of case 99 and of
`default`. -/
def isWarning : EngineCall → Bool
  | .printf_dll_not_found _ => true
  | .printf_no_dll _ => true
  | .printf_not_implemented _ => true
  | _ => false

/-- The effect numbers that end in the cross fade by substitution: 99 when
the DLL name is missing or is none of the four emulated ones, and every
number that has no `case` of its own. -/
def isSubstituted (s : Engine) (n : Int) : Bool :=
  if n = 99 then
    match s.dll with
    | none => true
    | some dll =>
      !(dllIs dll "cascade.dll" || dllIs dll "whirl.dll" || dllIs dll "trvswave.dll" ||
        dllIs dll "breakup.dll")
  else
    decide (¬ (0 ≤ n ∧ n ≤ 18) ∧ n ≠ s.CUSTOM_EFFECT_NO + 0 ∧ n ≠ s.CUSTOM_EFFECT_NO + 1 ∧
      n ≠ s.CUSTOM_EFFECT_NO + 2)

/-- The warnings a substituted effect number prints on a step that finds
`effect_counter == 0`: for 99 the line about the DLL, then for all the line
"not implemented, crossfade is substituted". -/
def substitutionWarnings (s : Engine) (n : Int) : List EngineCall :=
  if s.effect_counter = 0 then
    (if n = 99 then
      match s.dll with
      | none => [.printf_no_dll n]
      | some _ => [.printf_dll_not_found n]
    else []) ++ [.printf_not_implemented n]
  else []

/-- The warnings of one step on effect number `n`: none while
`effect_cut_flag` and `skip_flag` are set (the step then runs `case 1`). -/
def stepWarnings (s : Engine) (n : Int) : List EngineCall :=
  if s.effect_cut_flag && s.skip_flag then [] else substitutionWarnings s n

/-- The state `s10` reached by the cross fade, with the warnings `warnings`
put into the log right after the calls recorded before the step (`before`),
and nothing else changed. -/
def withWarnings (before warnings : List EngineCall) (s10 : Engine) : Engine :=
  { s10 with log := before ++ warnings ++ s10.log.drop before.length }

/-- The level of a call of the constant-alpha blend, nothing for other calls. -/
def blendLevel : EngineCall → Option Int
  | .alphaMaskBlend _ .ALPHA_BLEND_CONST level _ => some level
  | _ => none

/-- The levels handed to the constant-alpha blend by the recorded calls, in
the order of the calls. -/
def blendLevels (log : List EngineCall) : List Int := log.filterMap blendLevel

/-- The idle engine while effects are being cut short: `effect_cut_flag` and
`skip_flag` are both set. -/
def cutEngine : Engine := { idleEngine with effect_cut_flag := true, skip_flag := true }

/-- The destination rectangles handed to `drawEffect` by the recorded calls,
in the order of the calls. -/
def drawnRects (log : List EngineCall) : List SDL_Rect :=
  log.filterMap (fun c =>
    match c with
    | .drawEffect dst_rect _ _ _ => some dst_rect
    | _ => none)

/-- The rectangle of stripe `i` of a curtain (cases 6 to 9) once its width
`width2` has passed the test `width2 >= 0`: case 7 clamps the width to the
stripe width, the cases 7 and 9 place the stripe from the far edge. -/
def curtainStripe (s : Engine) (vertical fromEnd : Bool) (stripe i width2 : Int) : SDL_Rect :=
  let extent := if vertical then s.screen_width else s.screen_height
  let width2 := if vertical ∧ fromEnd ∧ width2 > stripe then stripe else width2
  let start := if fromEnd then extent - i * stripe - width2 else i * stripe
  if vertical then ⟨start, 0, width2, s.screen_height⟩ else ⟨0, start, s.screen_width, width2⟩

/-- Spec-side width of curtain stripe `i`, as C30 words it:
`floor(S * counter * 2 / duration) - floor(S * S * i / L)`. -/
def curtainWidth2 (S counter duration L i : Int) : Int :=
  S * counter * 2 / duration - S * S * i / L

/-- The effect number of a curtain: 6 left, 7 right, 8 top, 9 bottom. -/
def curtainNumber (vertical fromEnd : Bool) : Int :=
  if vertical then (if fromEnd then 7 else 6) else (if fromEnd then 9 else 8)

/-! ### The clipped blit `drawEffect` -/

/-- Modelled from the spec: `AnimationInfo::doClipping(dst, clip, clipped)`
lives in `AnimationInfo.cpp`, which is not among the sources.  The clipping
contract of the spec: "the destination rectangle is intersected with the
current dirty-region bounding box; if the intersection is empty the draw is a
no-op", and the source rectangle is "translated by the same offset".  The
result is `none` for an empty intersection (the function returns non-zero),
and otherwise the intersection, which replaces `*dst`, together with
`*clipped`: the offset of the intersection from the old corner of `dst`, and
the extent of the intersection. -/
def doClipping (dst clip : SDL_Rect) : Option (SDL_Rect × SDL_Rect) :=
  let x := max dst.x clip.x
  let y := max dst.y clip.y
  let w := min (dst.x + dst.w) (clip.x + clip.w) - x
  let h := min (dst.y + dst.h) (clip.y + clip.h) - y
  if w ≤ 0 ∨ h ≤ 0 then none
  else some (⟨x, y, w, h⟩, ⟨x - dst.x, y - dst.y, w, h⟩)

/-- The arguments of the call `SDL_BlitSurface(surface, src_rect,
accumulation_surface, dst_rect)` that ends `drawEffect`. -/
structure BlitCall where
  surface : SurfaceRef
  src_rect : SDL_Rect
  dst_rect : SDL_Rect
  deriving DecidableEq, Repr

/-- The method `PonscripterLabel::drawEffect(dst_rect, src_rect, surface)`
for the dirty bounding box `dirty`: the blit it performs, or `none` when it
returns before the blit.  `same_object` tells that both pointers point to the
same rectangle (`src_rect == dst_rect`); the source rectangle of the blit is
then the clipped destination rectangle itself. -/
def drawEffect (dirty : SDL_Rect) (dst_rect src_rect : SDL_Rect) (same_object : Bool)
    (surface : SurfaceRef) : Option BlitCall :=
  match doClipping dst_rect dirty with
  | none => none
  | some (dst_rect, clipped_rect) =>
    let src_rect : SDL_Rect :=
      if same_object then dst_rect
      else
        { x := src_rect.x + clipped_rect.x, y := src_rect.y + clipped_rect.y,
          w := clipped_rect.w, h := clipped_rect.h }
    some ⟨surface, src_rect, dst_rect⟩

/-- The character read by `anim->loop_mode = *buffer++ - '0'`, for the sprite
`anim` and the pointer `buffer` (at the slash) that the first part of
`parseTaggedString` hands to the cell section. -/
def loopModeChar (env : ParseEnv) (anim : TaggedAnimation) (buffer : List Char) : Char :=
  charAt (cellDurations env
    { anim with num_of_cells := (env.getNumberFromBuffer buffer.tail).1 }
    (env.getNumberFromBuffer buffer.tail).2.tail).2 0

/-- An environment for examples whose `removeTag` clears the animatable flag
and the durations. -/
def resettingParseEnv : ParseEnv :=
  { exampleParseEnv with
    removeTag := fun a => { a with is_animatable := false, duration_list := [] } }

/-- One round of the caller of the scheduler: `proceedAnimation` (the
`advanceAll` of the spec), then `resetRemainingTime` (`chargeElapsed`) with
the wait that was returned.  The wait and the state after the round. -/
def animationRound (s : Scheduler) : Option (Int × Scheduler) :=
  match proceedAnimation s with
  | none => none
  | some (wait, s1) => some (wait, resetRemainingTime s1 wait)

/-- Rounds in a row: the waits returned, in order, and the last state. -/
def animationRounds : Nat → Scheduler → Option (List Int × Scheduler)
  | 0, s => some ([], s)
  | n + 1, s =>
    match animationRound s with
    | none => none
    | some (wait, s1) =>
      match animationRounds n s1 with
      | none => none
      | some (waits, s2) => some (wait :: waits, s2)

/-- A showing, animatable looping sprite with two cels lasting 100 and 99
ticks, at cel `cell` with `rt` ticks remaining. -/
def shortSprite (rt cell : Int) : AnimationInfo :=
  { visible := true, is_animatable := true, abs_flag := true, pos := ⟨0, 0, 32, 32⟩,
    remaining_time := rt, current_cell := cell, num_of_cells := 2,
    duration_list := [100, 99], loop_mode := 0 }

/-- The cel a looping sprite shows after an advance: the next one, and cel 0
after the last. -/
def nextCell (a : AnimationInfo) : Int :=
  if a.current_cell + 1 < a.num_of_cells then a.current_cell + 1 else 0

/-! ### The mosaic `generateMosaic` (`PonscripterLabel_effect.cpp`)

The frame that is read and the accumulation surface are separate objects, each
seen as the array of its `ONSBuf` pixels from the pointer `pixels`: the pixel
`(x, y)` is the element `y * total_width + x`. -/

/-- The loop `for (i = 0; i < level; i++) width >>= 1;` for a width that is
not negative. -/
def halveTimes : Nat → Int → Int
  | 0, width => width
  | n + 1, width => halveTimes n (width / 2)

/-- The block width of `generateMosaic`: 160, halved `level` times. -/
def mosaicWidth (level : Int) : Int := halveTimes level.toNat 160

/-- The loop `for (jj = 0; jj < width2; jj++) *dst_buffer++ = p;`: the array
and the pointer after it. -/
def fillRow (p : Nat) : Nat → Int → (Int → Nat) → (Int → Nat) × Int
  | 0, dst_buffer, dst => (dst, dst_buffer)
  | n + 1, dst_buffer, dst =>
    fillRow p n (dst_buffer + 1) (fun k => if k = dst_buffer then p else dst k)

/-- The loop `for (ii = 0; ii < height2; ii++) { ...; dst_buffer -=
total_width + width2; }` that fills one block, row by row upwards. -/
def fillBlock (p : Nat) (total_width width2 : Int) : Nat → Int → (Int → Nat) → (Int → Nat)
  | 0, _, dst => dst
  | n + 1, dst_buffer, dst =>
    let row := fillRow p width2.toNat dst_buffer dst
    fillBlock p total_width width2 n (row.2 - (total_width + width2)) row.1

/-- The loop `for (j = 0; j < screen_width; j += width)` of `generateMosaic`
for the row `i`; `none` when the bound on the number of rounds is used up
while the guard still holds. -/
def mosaicCols (src : Int → Nat) (total_width screen_width width i : Int) :
    Nat → Int → (Int → Nat) → Option (Int → Nat)
  | 0, j, dst => if j < screen_width then none else some dst
  | bound + 1, j, dst =>
    if j < screen_width then
      let p := src (i * total_width + j)
      let height2 := if i + 1 - width < 0 then i + 1 else width
      let width2 := if j + width > screen_width then screen_width - j else width
      mosaicCols src total_width screen_width width i bound (j + width)
        (fillBlock p total_width width2 height2.toNat (i * total_width + j) dst)
    else some dst

/-- The loop `for (i = screen_height - 1; i >= 0; i -= width)` of
`generateMosaic`; `none` when the bound on the number of rounds is used up
while the guard still holds. -/
def mosaicRows (src : Int → Nat) (total_width screen_width width : Int) :
    Nat → Int → (Int → Nat) → Option (Int → Nat)
  | 0, i, dst => if i ≥ 0 then none else some dst
  | bound + 1, i, dst =>
    if i ≥ 0 then
      match mosaicCols src total_width screen_width width i screen_width.toNat 0 dst with
      | none => none
      | some dst1 => mosaicRows src total_width screen_width width bound (i - width) dst1
    else some dst

/-- The method `PonscripterLabel::generateMosaic(src_surface, level)`: the pixels of
the accumulation surface after the call, for the pixels `src_buffer` of the
frame, the pixels `dst` of the accumulation surface before the call, and
`total_width = accumulation_surface->pitch / 4`.  A loop with block width 0
does not end: the result is `none`. -/
def generateMosaic (src_buffer dst : Int → Nat) (total_width screen_width screen_height
    level : Int) : Option (Int → Nat) :=
  mosaicRows src_buffer total_width screen_width (mosaicWidth level) screen_height.toNat
    (screen_height - 1) dst

/-- An array for examples: the elements of the list, then zeros. -/
def listBuffer (l : List Nat) : Int → Nat := fun k => if 0 ≤ k then l.getD k.toNat 0 else 0

/-! ### Vocabulary for the sinusoidal quakes -/

/-- The effect number `n` runs one of the two sinusoidal quakes: it is
`CUSTOM_EFFECT_NO + 0` (quakey) or `CUSTOM_EFFECT_NO + 1` (quakex), and it is
none of the case labels 0 to 18 and 99 of the catalog. -/
def IsSineQuake (s : Engine) (n : Int) : Prop :=
  (n = s.CUSTOM_EFFECT_NO + 0 ∨ n = s.CUSTOM_EFFECT_NO + 1) ∧ ¬ (0 ≤ n ∧ n ≤ 18) ∧ n ≠ 99

instance (s : Engine) (n : Int) : Decidable (IsSineQuake s n) := by
  unfold IsSineQuake; infer_instance

/-- The request for a quake: effect number `no`, duration `duration` and
intensity `intensity` (the field `no` of the request). -/
def quakeRequest (no duration intensity : Int) : Effect :=
  { effect := no, duration := duration, no := intensity, anim_image_surface := none }

/-- The ticks that a step of a sinusoidal quake adds to `effect_counter`: the
elapsed ticks, lowered to `limit` when they are above it. -/
def quakeTicks (elapsed limit : Int) : Int := if elapsed > limit then limit else elapsed

/-! ### The stores of `generateMosaic`

The same loops as above, recording every store `*dst_buffer++ = p` instead of
carrying the array: the element of the accumulation surface that is written
and the value, in the order of the stores. -/

/-- The stores of the loop `for (jj = 0; jj < width2; jj++) *dst_buffer++ = p;`
and the pointer after it. -/
def rowWrites (p : Nat) : Nat → Int → List (Int × Nat) × Int
  | 0, dst_buffer => ([], dst_buffer)
  | n + 1, dst_buffer =>
    let rest := rowWrites p n (dst_buffer + 1)
    ((dst_buffer, p) :: rest.1, rest.2)

/-- The stores of the loop `for (ii = 0; ii < height2; ii++) { ...; dst_buffer -=
total_width + width2; }` that fills one block. -/
def blockWrites (p : Nat) (total_width width2 : Int) : Nat → Int → List (Int × Nat)
  | 0, _ => []
  | n + 1, dst_buffer =>
    let row := rowWrites p width2.toNat dst_buffer
    row.1 ++ blockWrites p total_width width2 n (row.2 - (total_width + width2))

/-- The stores of the loop `for (j = 0; j < screen_width; j += width)` for the
row `i`; `none` when the bound on the number of rounds is used up while the
guard still holds. -/
def mosaicColsWrites (src : Int → Nat) (total_width screen_width width i : Int) :
    Nat → Int → Option (List (Int × Nat))
  | 0, j => if j < screen_width then none else some []
  | bound + 1, j =>
    if j < screen_width then
      let p := src (i * total_width + j)
      let height2 := if i + 1 - width < 0 then i + 1 else width
      let width2 := if j + width > screen_width then screen_width - j else width
      (mosaicColsWrites src total_width screen_width width i bound (j + width)).map
        (fun rest => blockWrites p total_width width2 height2.toNat (i * total_width + j) ++ rest)
    else some []

/-- The stores of the loop `for (i = screen_height - 1; i >= 0; i -= width)`;
`none` when the bound on the number of rounds is used up while the guard
still holds. -/
def mosaicRowsWrites (src : Int → Nat) (total_width screen_width width : Int) :
    Nat → Int → Option (List (Int × Nat))
  | 0, i => if i ≥ 0 then none else some []
  | bound + 1, i =>
    if i ≥ 0 then
      match mosaicColsWrites src total_width screen_width width i screen_width.toNat 0 with
      | none => none
      | some ws =>
        (mosaicRowsWrites src total_width screen_width width bound (i - width)).map
          (fun rest => ws ++ rest)
    else some []

/-- The stores of `PonscripterLabel::generateMosaic(src_surface, level)` into the
accumulation surface, in order: the element `y * total_width + x` and the
value stored. -/
def mosaicWrites (src_buffer : Int → Nat) (total_width screen_width screen_height
    level : Int) : Option (List (Int × Nat)) :=
  mosaicRowsWrites src_buffer total_width screen_width (mosaicWidth level) screen_height.toNat
    (screen_height - 1)

/-- The array after the stores of the list have been done, in order. -/
def applyWrites (ws : List (Int × Nat)) (dst : Int → Nat) : Int → Nat :=
  ws.foldl (fun d w => fun k => if k = w.1 then w.2 else d k) dst

/-- The stores of the list that go to element `k`. -/
def writesAt (k : Int) (ws : List (Int × Nat)) : List (Int × Nat) :=
  ws.filter (fun w => decide (w.1 = k))

/-! # Theorems -/

/-! ## Scheduler: closed forms of the loops -/

theorem AnimationInfo.proceedAnimation_wf (a : AnimationInfo) (h : a.WellFormed) :
    ∃ a' c, a.proceedAnimation = some (a', c) := by
  obtain ⟨h0, h1, h2⟩ := h
  have key : ∀ i : Int, 0 ≤ i → i < a.num_of_cells → ∃ d, a.duration_at i = some d := by
    intro i hi hlt
    have hlen : i.toNat < a.duration_list.length := by omega
    exact ⟨a.duration_list[i.toNat], by
      simp [AnimationInfo.duration_at, hi, List.getElem?_eq_getElem hlen]⟩
  unfold AnimationInfo.proceedAnimation
  by_cases c3 : a.loop_mode = 3
  · obtain ⟨d, hd⟩ := key a.current_cell h0 h1
    simp [c3, hd]
  · by_cases c1 : a.current_cell + 1 < a.num_of_cells
    · obtain ⟨d, hd⟩ := key (a.current_cell + 1) (by omega) c1
      simp [c3, c1, hd]
    · by_cases c0 : a.loop_mode = 0
      · obtain ⟨d, hd⟩ := key 0 (le_refl _) (by omega)
        simp [c3, c1, c0, hd]
      · obtain ⟨d, hd⟩ := key (a.num_of_cells - 1) (by omega) (by omega)
        simp [c3, c1, c0, hd]

theorem estimateNextDuration_eq (a : AnimationInfo) (rect : SDL_Rect) (m : Int)
    (hact : a.active = true) (h : a.WellFormed) :
    ∃ fl, estimateNextDuration a rect m = some (advanceIfDue a, stepMin m (candidateWait a), fl) := by
  obtain ⟨a', c, hp⟩ := AnimationInfo.proceedAnimation_wf a h
  obtain ⟨h0, h1, h2⟩ := h
  by_cases hz : a.remaining_time = 0
  · have hlen : a.current_cell.toNat < a.duration_list.length := by omega
    have hd : a.duration_at a.current_cell = some a.duration_list[a.current_cell.toNat] := by
      simp [AnimationInfo.duration_at, h0, List.getElem?_eq_getElem hlen]
    refine ⟨if c then [rect] else [], ?_⟩
    simp [estimateNextDuration, hz, hd, hp, advanceIfDue, hact, candidateWait, stepMin]
  · exact ⟨[], by simp [estimateNextDuration, hz, advanceIfDue, candidateWait, stepMin]⟩

theorem visitGroup_eq (l : List AnimationInfo) :
    ∀ m : Int, (∀ a ∈ l, a.active = true → a.WellFormed) →
      ∃ fl, visitGroup l m =
        some (l.map advanceIfDue,
          ((l.filter AnimationInfo.active).map candidateWait).foldl stepMin m, fl) := by
  induction l with
  | nil => intro m _; exact ⟨[], rfl⟩
  | cons a rest ih =>
    intro m hwf
    have hrest : ∀ b ∈ rest, b.active = true → b.WellFormed :=
      fun b hb => hwf b (List.mem_cons_of_mem _ hb)
    by_cases hact : a.active = true
    · obtain ⟨fl, he⟩ := estimateNextDuration_eq a a.pos m hact (hwf a (List.mem_cons_self _ _) hact)
      obtain ⟨fl', hr⟩ := ih (stepMin m (candidateWait a)) hrest
      exact ⟨fl ++ fl', by simp [visitGroup, hact, he, hr]⟩
    · obtain ⟨fl', hr⟩ := ih m hrest
      refine ⟨fl', ?_⟩
      have hadv : advanceIfDue a = a := by simp [advanceIfDue, hact]
      simp [visitGroup, hact, hr, hadv]

theorem visitGroupDown_eq (l : List AnimationInfo) (m : Int)
    (hwf : ∀ a ∈ l, a.active = true → a.WellFormed) :
    ∃ fl, visitGroupDown l m =
      some (l.map advanceIfDue,
        ((l.reverse.filter AnimationInfo.active).map candidateWait).foldl stepMin m, fl) := by
  obtain ⟨fl, h⟩ := visitGroup_eq l.reverse m (fun a ha => hwf a (List.mem_reverse.mp ha))
  exact ⟨fl, by simp [visitGroupDown, h, List.map_reverse]⟩

theorem proceedAnimation_eq (s : Scheduler) (hwf : s.WellFormed) :
    ∃ s', proceedAnimation s = some (finalWait ((candidates s).foldl stepMin (-1)), s') ∧
      s'.tachi_info = (s.tachi_info.take 3).map advanceIfDue ++ s.tachi_info.drop 3 ∧
      s'.sprite_info = s.sprite_info.map advanceIfDue ∧
      s'.sprite2_info = s.sprite2_info.map advanceIfDue ∧
      s'.cursor_info_wait =
        (if cursorChoice s = some true then advanceIfDue s.cursor_info_wait
         else s.cursor_info_wait) ∧
      s'.cursor_info_newpage =
        (if cursorChoice s = some false then advanceIfDue s.cursor_info_newpage
         else s.cursor_info_newpage) := by
  have hmem : ∀ a, a ∈ entries s → a.active = true → a.WellFormed := hwf
  obtain ⟨f1, h1⟩ := visitGroup_eq (s.tachi_info.take 3) (-1)
    (fun a ha => hmem a (by simp [entries, ha]))
  obtain ⟨f2, h2⟩ := visitGroupDown_eq s.sprite_info
    (((((s.tachi_info.take 3).filter AnimationInfo.active).map candidateWait)).foldl stepMin (-1))
    (fun a ha => hmem a (by simp [entries, ha]))
  obtain ⟨f3, h3⟩ := visitGroupDown_eq s.sprite2_info
    (((s.sprite_info.reverse.filter AnimationInfo.active).map candidateWait).foldl stepMin
      (((((s.tachi_info.take 3).filter AnimationInfo.active).map candidateWait)).foldl stepMin (-1)))
    (fun a ha => hmem a (by simp [entries, ha]))
  cases hc : cursorChoice s with
  | none =>
    simp only [proceedAnimation, h1, h2, h3, hc]
    simp [finalWait, candidates, entries, applicableCursor, hc, List.filter_append,
      List.foldl_append]
  | some wait =>
    have hin : (if wait then s.cursor_info_wait else s.cursor_info_newpage) ∈ entries s := by
      simp [entries, applicableCursor, hc]
    by_cases hact : (if wait then s.cursor_info_wait else s.cursor_info_newpage).active = true
    · obtain ⟨f4, h4⟩ := estimateNextDuration_eq _
        (cursorRect s (if wait then s.cursor_info_wait else s.cursor_info_newpage))
        (((s.sprite2_info.reverse.filter AnimationInfo.active).map candidateWait).foldl stepMin
          (((s.sprite_info.reverse.filter AnimationInfo.active).map candidateWait).foldl stepMin
            (((((s.tachi_info.take 3).filter AnimationInfo.active).map candidateWait)).foldl
              stepMin (-1)))) hact (hmem _ hin hact)
      cases wait with
      | true =>
        simp only [if_true] at hact h4
        simp only [proceedAnimation, h1, h2, h3, hc, if_true, hact, h4]
        simp [finalWait, candidates, entries, applicableCursor, hc, List.filter_append,
          List.foldl_append, hact, List.filter_cons]
      | false =>
        simp only [Bool.false_eq_true, if_false] at hact h4
        simp only [proceedAnimation, h1, h2, h3, hc, Bool.false_eq_true, if_false, hact, h4]
        simp [finalWait, candidates, entries, applicableCursor, hc, List.filter_append,
          List.foldl_append, hact, List.filter_cons]
    · have hadv : advanceIfDue (if wait then s.cursor_info_wait else s.cursor_info_newpage) =
          (if wait then s.cursor_info_wait else s.cursor_info_newpage) := by
        simp [advanceIfDue, hact]
      simp only [proceedAnimation, h1, h2, h3, hc, hact]
      cases wait <;>
        simp_all [finalWait, candidates, entries, applicableCursor, List.filter_append,
          List.foldl_append, List.filter_cons]

theorem foldl_stepMin_of_ne (cs : List Int) :
    ∀ m : Int, m ≠ -1 → (∀ c ∈ cs, c ≠ -1) →
      (cs.foldl stepMin m = m ∨ cs.foldl stepMin m ∈ cs) ∧
      cs.foldl stepMin m ≤ m ∧ (∀ c ∈ cs, cs.foldl stepMin m ≤ c) := by
  induction cs with
  | nil => intro m _ _; simp
  | cons c rest ih =>
    intro m hm hcs
    have hc : c ≠ -1 := hcs c (List.mem_cons_self _ _)
    have hstep : stepMin m c = min m c := by
      unfold stepMin
      by_cases h : m > c
      · simp [hm, h, min_eq_right (le_of_lt h)]
      · simp [hm, h, min_eq_left (not_lt.mp h)]
    have hne : stepMin m c ≠ -1 := by
      rw [hstep]; rcases min_choice m c with h | h <;> rw [h] <;> assumption
    obtain ⟨h1, h2, h3⟩ := ih (stepMin m c) hne (fun x hx => hcs x (List.mem_cons_of_mem _ hx))
    simp only [List.foldl_cons]
    refine ⟨?_, ?_, ?_⟩
    · rcases h1 with h1 | h1
      · rw [h1, hstep]
        rcases min_choice m c with h | h
        · left; exact h
        · right; rw [h]; exact List.mem_cons_self _ _
      · right; exact List.mem_cons_of_mem _ h1
    · exact le_trans h2 (by rw [hstep]; exact min_le_left _ _)
    · intro x hx
      rcases List.mem_cons.mp hx with rfl | hx
      · exact le_trans h2 (by rw [hstep]; exact min_le_right _ _)
      · exact h3 x hx

theorem finalWait_isMin (cs : List Int) (hcs : ∀ c ∈ cs, c ≠ -1) :
    (cs = [] → finalWait (cs.foldl stepMin (-1)) = 0) ∧
    (cs ≠ [] → finalWait (cs.foldl stepMin (-1)) ∈ cs ∧
      ∀ c ∈ cs, finalWait (cs.foldl stepMin (-1)) ≤ c) := by
  cases cs with
  | nil => simp [finalWait]
  | cons c rest =>
    have hc : c ≠ -1 := hcs c (List.mem_cons_self _ _)
    have h0 : stepMin (-1) c = c := by simp [stepMin]
    obtain ⟨h1, h2, h3⟩ := foldl_stepMin_of_ne rest c hc
      (fun x hx => hcs x (List.mem_cons_of_mem _ hx))
    have hmemb : rest.foldl stepMin c ∈ c :: rest := by
      rcases h1 with h | h
      · rw [h]; exact List.mem_cons_self _ _
      · exact List.mem_cons_of_mem _ h
    have hne : rest.foldl stepMin c ≠ -1 := hcs _ hmemb
    refine ⟨by simp, fun _ => ?_⟩
    simp only [List.foldl_cons, h0, finalWait, hne, if_false]
    refine ⟨hmemb, ?_⟩
    intro x hx
    rcases List.mem_cons.mp hx with rfl | hx
    · exact h2
    · exact h3 x hx

theorem foldl_stepMin_ge (cs : List Int) :
    ∀ m : Int, -1 ≤ m → (∀ c ∈ cs, -1 ≤ c) → -1 ≤ cs.foldl stepMin m := by
  induction cs with
  | nil => intro m hm _; simpa using hm
  | cons c rest ih =>
    intro m hm hcs
    simp only [List.foldl_cons]
    apply ih
    · unfold stepMin
      split
      · exact hcs c (List.mem_cons_self _ _)
      · exact hm
    · exact fun x hx => hcs x (List.mem_cons_of_mem _ hx)

/-! ## Scheduler: the wait returned by `proceedAnimation` -/

/-- C1 (as stated, refuted): one showing, animatable sprite with 99 ticks
left, charged with 100 elapsed ticks, so that its `remaining_time` is `-1`.
Its candidate `-1` is the minimum of the candidates, but `proceedAnimation`
returns `0`, because `-1` is also the marker for "no candidate yet". -/
theorem proceedAnimation_min_counterexample :
    (proceedAnimation (resetRemainingTime (spriteScheduler [loopSprite 99 1]) 100)).map
        Prod.fst = some 0 ∧
      candidates (resetRemainingTime (spriteScheduler [loopSprite 99 1]) 100) = [-1] ∧
      ¬ IsNextWait (resetRemainingTime (spriteScheduler [loopSprite 99 1]) 100) 0 := by
  decide

/-- C1 (amended): in every well-formed state in which no candidate wait equals
`-1`, `proceedAnimation` returns `0` when no entry is showing and animatable,
and otherwise the minimum of the candidate waits of the showing, animatable
entries among `tachi_info[0..2]`, `sprite_info`, `sprite2_info` and the
applicable cursor, the candidate being `remaining_time` when non-zero and
`duration_list[current_cell]` when zero. -/
theorem proceedAnimation_returns_min (s : Scheduler) (hwf : s.WellFormed)
    (hne : ∀ c ∈ candidates s, c ≠ -1) :
    ∃ r s', proceedAnimation s = some (r, s') ∧ IsNextWait s r := by
  obtain ⟨s', h, _⟩ := proceedAnimation_eq s hwf
  exact ⟨_, s', h, finalWait_isMin (candidates s) hne⟩

/-- Witness for C1 (amended): a due sprite and a sprite with a negative
remaining time. -/
theorem proceedAnimation_returns_min_witness :
    (spriteScheduler [loopSprite 0 0, loopSprite (-5) 2]).WellFormed ∧
      (∀ c ∈ candidates (spriteScheduler [loopSprite 0 0, loopSprite (-5) 2]), c ≠ -1) ∧
      ∃ r s', proceedAnimation (spriteScheduler [loopSprite 0 0, loopSprite (-5) 2]) = some (r, s') ∧
        IsNextWait (spriteScheduler [loopSprite 0 0, loopSprite (-5) 2]) r :=
  ⟨by decide, by decide,
    proceedAnimation_returns_min (spriteScheduler [loopSprite 0 0, loopSprite (-5) 2])
      (by decide) (by decide)⟩

/-- C2 (as stated, refuted): the looping sprite with durations 100, 150, 200
at cel 0 with `remaining_time` 0.  `proceedAnimation` moves it to cel 1, whose
duration is 150, and returns 100, the duration of the cel that has just
elapsed. -/
theorem proceedAnimation_due_counterexample :
    (proceedAnimation (spriteScheduler [loopSprite 0 0])).map
        (fun r => (r.1, r.2.sprite_info.map (fun a => (a.current_cell, a.remaining_time)))) =
      some (100, [(1, 150)]) ∧
    (proceedAnimation (spriteScheduler [loopSprite 0 0])).map Prod.fst ≠ some 150 := by
  decide

/-- C2 (amended): a well-formed sprite whose `remaining_time` is 0 contributes
`duration_list[current_cell]` for the cel that is current when
`estimateNextDuration` is called: the running minimum is updated with that
duration, and only then the sprite advances.  For the single looping sprite
with durations 100, 150, 200 at cel 0 with `remaining_time` 0,
`proceedAnimation` moves it to cel 1 and returns 100. -/
theorem estimateNextDuration_due (a : AnimationInfo) (rect : SDL_Rect) (m : Int)
    (hwf : a.WellFormed) (hdue : a.remaining_time = 0) :
    (∃ d a' changed, a.duration_list[a.current_cell.toNat]? = some d ∧
      a.proceedAnimation = some (a', changed) ∧
      estimateNextDuration a rect m =
        some (a', (if m = -1 ∨ m > d then d else m), if changed then [rect] else [])) ∧
    (proceedAnimation (spriteScheduler [loopSprite 0 0])).map
        (fun r => (r.1, r.2.sprite_info.map (fun a => a.current_cell))) = some (100, [1]) := by
  refine ⟨?_, by decide⟩
  obtain ⟨a', c, hp⟩ := AnimationInfo.proceedAnimation_wf a hwf
  obtain ⟨h0, h1, h2⟩ := hwf
  have hlen : a.current_cell.toNat < a.duration_list.length := by omega
  refine ⟨a.duration_list[a.current_cell.toNat], a', c, List.getElem?_eq_getElem hlen, hp, ?_⟩
  simp [estimateNextDuration, hdue, AnimationInfo.duration_at, h0,
    List.getElem?_eq_getElem hlen, hp]

/-- Witness for C2 (amended): the sprite of the scenario. -/
theorem estimateNextDuration_due_witness :
    (loopSprite 0 0).WellFormed ∧ (loopSprite 0 0).remaining_time = 0 ∧
      (∃ d a' changed,
        (loopSprite 0 0).duration_list[(loopSprite 0 0).current_cell.toNat]? = some d ∧
        (loopSprite 0 0).proceedAnimation = some (a', changed) ∧
        estimateNextDuration (loopSprite 0 0) ⟨0, 0, 32, 32⟩ (-1) =
          some (a', (if (-1 : Int) = -1 ∨ (-1 : Int) > d then d else -1),
            if changed then [⟨0, 0, 32, 32⟩] else [])) ∧
      (proceedAnimation (spriteScheduler [loopSprite 0 0])).map
        (fun r => (r.1, r.2.sprite_info.map (fun a => a.current_cell))) = some (100, [1]) :=
  ⟨by decide, by decide,
    estimateNextDuration_due (loopSprite 0 0) ⟨0, 0, 32, 32⟩ (-1) (by decide) (by decide)⟩

/-- C5 (as stated, refuted): a sprite with 5 ticks left, charged with 10
elapsed ticks, so that its `remaining_time` is `-5`; `proceedAnimation`
returns `-5`. -/
theorem proceedAnimation_negative_counterexample :
    (proceedAnimation (resetRemainingTime (spriteScheduler [loopSprite 5 2]) 10)).map
        Prod.fst = some (-5) ∧
      ¬ (0 : Int) ≤ -5 := by
  decide

/-- C5 (amended): in every well-formed state in which every candidate wait is
at least `-1`, hence in every state without a negative remaining time or
duration, the value returned by `proceedAnimation` is not negative. -/
theorem proceedAnimation_nonneg (s : Scheduler) (hwf : s.WellFormed)
    (hge : ∀ c ∈ candidates s, -1 ≤ c) :
    ∃ r s', proceedAnimation s = some (r, s') ∧ 0 ≤ r := by
  obtain ⟨s', h, _⟩ := proceedAnimation_eq s hwf
  refine ⟨_, s', h, ?_⟩
  have hfold := foldl_stepMin_ge (candidates s) (-1) (le_refl _) hge
  unfold finalWait
  split
  · exact le_refl _
  · omega

/-- Witness for C5 (amended). -/
theorem proceedAnimation_nonneg_witness :
    (spriteScheduler [loopSprite 0 0, loopSprite (-1) 2]).WellFormed ∧
      (∀ c ∈ candidates (spriteScheduler [loopSprite 0 0, loopSprite (-1) 2]), -1 ≤ c) ∧
      ∃ r s', proceedAnimation (spriteScheduler [loopSprite 0 0, loopSprite (-1) 2]) = some (r, s') ∧
        0 ≤ r :=
  ⟨by decide, by decide,
    proceedAnimation_nonneg (spriteScheduler [loopSprite 0 0, loopSprite (-1) 2])
      (by decide) (by decide)⟩

/-- C6 (as stated, refuted): the same sprite at cel 0, once with 95 ticks left
and once with 100 ticks left, charged with 100 elapsed ticks.  The second has
`remaining_time` `0` and is advanced to cel 1; the first has `remaining_time`
`-5` and stays at cel 0 with its remaining time. -/
theorem proceedAnimation_overdue_counterexample :
    (proceedAnimation (resetRemainingTime (spriteScheduler [loopSprite 95 0]) 100)).map
        (fun r => r.2.sprite_info.map (fun a => (a.current_cell, a.remaining_time))) =
      some [(0, -5)] ∧
    (proceedAnimation (resetRemainingTime (spriteScheduler [loopSprite 100 0]) 100)).map
        (fun r => r.2.sprite_info.map (fun a => (a.current_cell, a.remaining_time))) =
      some [(1, 150)] := by
  decide

/-- C6 (amended): in every well-formed state `proceedAnimation` advances
exactly the showing, animatable entries whose `remaining_time` is `0`
(`advanceIfDue`), in all three groups and for the applicable cursor; an entry
whose `remaining_time` is not `0`, in particular a negative one, is left as it
is. -/
theorem proceedAnimation_advances_due (s : Scheduler) (hwf : s.WellFormed) :
    ∃ r s', proceedAnimation s = some (r, s') ∧
      s'.tachi_info = (s.tachi_info.take 3).map advanceIfDue ++ s.tachi_info.drop 3 ∧
      s'.sprite_info = s.sprite_info.map advanceIfDue ∧
      s'.sprite2_info = s.sprite2_info.map advanceIfDue ∧
      s'.cursor_info_wait =
        (if cursorChoice s = some true then advanceIfDue s.cursor_info_wait
         else s.cursor_info_wait) ∧
      s'.cursor_info_newpage =
        (if cursorChoice s = some false then advanceIfDue s.cursor_info_newpage
         else s.cursor_info_newpage) ∧
      (∀ a : AnimationInfo, a.remaining_time ≠ 0 → advanceIfDue a = a) ∧
      (∀ a : AnimationInfo, a.active = true → a.remaining_time = 0 → a.WellFormed →
        a.proceedAnimation.map Prod.fst = some (advanceIfDue a)) := by
  obtain ⟨s', h, h1, h2, h3, h4, h5⟩ := proceedAnimation_eq s hwf
  refine ⟨_, s', h, h1, h2, h3, h4, h5, ?_, ?_⟩
  · intro a ha
    simp [advanceIfDue, ha]
  · intro a hact hz ha
    obtain ⟨a', c, hp⟩ := AnimationInfo.proceedAnimation_wf a ha
    simp [advanceIfDue, hact, hz, hp]

/-- Witness for C6 (amended): an overdue sprite next to a due one. -/
theorem proceedAnimation_advances_due_witness :
    (spriteScheduler [loopSprite (-5) 0, loopSprite 0 0]).WellFormed ∧
    ∃ r s', proceedAnimation (spriteScheduler [loopSprite (-5) 0, loopSprite 0 0]) = some (r, s') ∧
      s'.tachi_info =
        ((spriteScheduler [loopSprite (-5) 0, loopSprite 0 0]).tachi_info.take 3).map advanceIfDue ++
          (spriteScheduler [loopSprite (-5) 0, loopSprite 0 0]).tachi_info.drop 3 ∧
      s'.sprite_info =
        (spriteScheduler [loopSprite (-5) 0, loopSprite 0 0]).sprite_info.map advanceIfDue ∧
      s'.sprite2_info =
        (spriteScheduler [loopSprite (-5) 0, loopSprite 0 0]).sprite2_info.map advanceIfDue ∧
      s'.cursor_info_wait =
        (if cursorChoice (spriteScheduler [loopSprite (-5) 0, loopSprite 0 0]) = some true then
          advanceIfDue (spriteScheduler [loopSprite (-5) 0, loopSprite 0 0]).cursor_info_wait
         else (spriteScheduler [loopSprite (-5) 0, loopSprite 0 0]).cursor_info_wait) ∧
      s'.cursor_info_newpage =
        (if cursorChoice (spriteScheduler [loopSprite (-5) 0, loopSprite 0 0]) = some false then
          advanceIfDue (spriteScheduler [loopSprite (-5) 0, loopSprite 0 0]).cursor_info_newpage
         else (spriteScheduler [loopSprite (-5) 0, loopSprite 0 0]).cursor_info_newpage) ∧
      (∀ a : AnimationInfo, a.remaining_time ≠ 0 → advanceIfDue a = a) ∧
      (∀ a : AnimationInfo, a.active = true → a.remaining_time = 0 → a.WellFormed →
        a.proceedAnimation.map Prod.fst = some (advanceIfDue a)) :=
  ⟨by decide,
    proceedAnimation_advances_due (spriteScheduler [loopSprite (-5) 0, loopSprite 0 0])
      (by decide)⟩

/-! ## Scheduler: `resetRemainingTime` -/

theorem chargeGroup_eq_map (t : Int) (l : List AnimationInfo) :
    chargeGroup t l = l.map (chargedEntry t) := by
  induction l with
  | nil => rfl
  | cons a rest ih =>
    by_cases h : a.active = true <;> simp [chargeGroup, chargedEntry, h, ih]

theorem chargeGroupDown_eq_map (t : Int) (l : List AnimationInfo) :
    chargeGroupDown t l = l.map (chargedEntry t) := by
  simp [chargeGroupDown, chargeGroup_eq_map, List.map_reverse]

/-- C7: `resetRemainingTime t` replaces every entry of `tachi_info[0..2]`,
`sprite_info` and `sprite2_info`, and the applicable cursor, by
`chargedEntry t`, which takes `t` off `remaining_time` when the entry is
showing and animatable and keeps `remaining_time` otherwise, and which changes
no other field (in particular not `current_cell` and `duration_list`); the
cursor that is not applicable and all other parts of the state stay as they
are. -/
theorem resetRemainingTime_frame (s : Scheduler) (t : Int) :
    (resetRemainingTime s t).tachi_info =
        (s.tachi_info.take 3).map (chargedEntry t) ++ s.tachi_info.drop 3 ∧
    (resetRemainingTime s t).sprite_info = s.sprite_info.map (chargedEntry t) ∧
    (resetRemainingTime s t).sprite2_info = s.sprite2_info.map (chargedEntry t) ∧
    (resetRemainingTime s t).cursor_info_wait =
        (if cursorChoice s = some true then chargedEntry t s.cursor_info_wait
         else s.cursor_info_wait) ∧
    (resetRemainingTime s t).cursor_info_newpage =
        (if cursorChoice s = some false then chargedEntry t s.cursor_info_newpage
         else s.cursor_info_newpage) ∧
    (resetRemainingTime s t).textgosub_label = s.textgosub_label ∧
    (resetRemainingTime s t).clickstr_state = s.clickstr_state ∧
    (resetRemainingTime s t).font_offset = s.font_offset ∧
    (resetRemainingTime s t).flushed = s.flushed ∧
    (∀ a : AnimationInfo,
      (chargedEntry t a).remaining_time =
          (if a.active = true then a.remaining_time - t else a.remaining_time) ∧
      (chargedEntry t a).current_cell = a.current_cell ∧
      (chargedEntry t a).duration_list = a.duration_list ∧
      (chargedEntry t a).num_of_cells = a.num_of_cells ∧
      (chargedEntry t a).loop_mode = a.loop_mode ∧
      (chargedEntry t a).visible = a.visible ∧
      (chargedEntry t a).is_animatable = a.is_animatable ∧
      (chargedEntry t a).abs_flag = a.abs_flag ∧
      (chargedEntry t a).pos = a.pos) := by
  have hkeep : ∀ a : AnimationInfo, a.active ≠ true → chargedEntry t a = a := by
    intro a h; simp [chargedEntry, h]
  have hact : ∀ a : AnimationInfo, a.active = true →
      chargedEntry t a = { a with remaining_time := a.remaining_time - t } := by
    intro a h; simp [chargedEntry, h]
  refine ⟨?_, ?_, ?_, ?_, ?_, ?_, ?_, ?_, ?_, ?_⟩
  case refine_10 => intro a; simp [chargedEntry]
  all_goals
    unfold resetRemainingTime
    cases hc : cursorChoice s with
    | none => simp [chargeGroup_eq_map, chargeGroupDown_eq_map]
    | some wait =>
      cases wait
      · by_cases ha : s.cursor_info_newpage.active = true
        · simp [chargeGroup_eq_map, chargeGroupDown_eq_map, ha, hact]
        · simp [chargeGroup_eq_map, chargeGroupDown_eq_map, ha, hkeep]
      · by_cases ha : s.cursor_info_wait.active = true
        · simp [chargeGroup_eq_map, chargeGroupDown_eq_map, ha, hact]
        · simp [chargeGroup_eq_map, chargeGroupDown_eq_map, ha, hkeep]

/-! ## Transition engine: one step -/

theorem cdiv_ok (a b : Int) (h : b ≠ 0) : cdiv a b = .ok (a.tdiv b) := by
  simp [cdiv, h]

theorem forEach_ok (body : Int → Except EffectError (List EngineCall)) (l : List Int)
    (h : ∀ i ∈ l, ∃ c, body i = .ok c) : ∃ cs, forEach body l = .ok cs := by
  induction l with
  | nil => exact ⟨[], rfl⟩
  | cons i rest ih =>
    obtain ⟨c, hc⟩ := h i (List.mem_cons_self _ _)
    obtain ⟨cs, hcs⟩ := ih (fun j hj => h j (List.mem_cons_of_mem _ hj))
    exact ⟨c ++ cs, by simp [forEach, hc, hcs]⟩

theorem shutter_ok (s : Engine) (effect : Effect) (counter : Int) (vertical fromEnd : Bool)
    (hd : DivisorsOk s effect) :
    ∃ cs, shutter s counter effect.duration vertical fromEnd = .ok cs := by
  obtain ⟨h2, hdur, h16, _, hw, hh⟩ := hd
  simp only [shutter, EFFECT_STRIPE_WIDTH, cdiv_ok _ _ h2, cdiv_ok _ _ hdur, cdiv_ok _ _ h16,
    bind, Except.bind]
  exact forEach_ok _ _ (fun i _ => ⟨_, rfl⟩)

theorem curtain_ok (s : Engine) (effect : Effect) (counter : Int) (vertical fromEnd : Bool)
    (hd : DivisorsOk s effect) :
    ∃ cs, curtain s counter effect.duration vertical fromEnd = .ok cs := by
  obtain ⟨h2, hdur, _, h24, hw, hh⟩ := hd
  have hext : (if vertical = true then s.screen_width else s.screen_height) ≠ 0 := by
    cases vertical <;> simp [hw, hh]
  simp only [curtain, EFFECT_STRIPE_CURTAIN_WIDTH, cdiv_ok _ _ h2, cdiv_ok _ _ hdur,
    cdiv_ok _ _ h24, bind, Except.bind]
  apply forEach_ok
  intro i _
  simp only [cdiv_ok _ _ hext]
  exact ⟨_, rfl⟩

theorem crossFade_ok (s : Engine) (effect : Effect) (counter : Int)
    (hd : DivisorsOk s effect) : ∃ cs, crossFade s counter effect.duration = .ok cs := by
  obtain ⟨_, hdur, _⟩ := hd
  simp only [crossFade, cdiv_ok _ _ hdur, bind, Except.bind]
  exact ⟨_, rfl⟩

theorem scroll_ok (s : Engine) (effect : Effect) (counter n : Int)
    (hd : DivisorsOk s effect) : ∃ cs, scroll s counter effect.duration n = .ok cs := by
  obtain ⟨_, hdur, _⟩ := hd
  simp only [scroll, cdiv_ok _ _ hdur, bind, Except.bind]
  split_ifs <;> exact ⟨_, rfl⟩

theorem keepResolution_ok (resolution : Int) (calls : Except EffectError (List EngineCall))
    (h : ∃ cs, calls = .ok cs) : ∃ cs, keepResolution resolution calls = .ok (cs, resolution) := by
  obtain ⟨cs, rfl⟩ := h
  exact ⟨cs, rfl⟩

theorem maskFade_ok (s : Engine) (effect : Effect) (counter : Int) (cross : Bool)
    (hd : DivisorsOk s effect) : ∃ cs, maskFade s effect counter cross = .ok cs := by
  obtain ⟨_, hdur, _⟩ := hd
  cases cross <;> simp only [maskFade, cdiv_ok _ _ hdur] <;> exact ⟨_, rfl⟩

theorem mosaic_ok (s : Engine) (effect : Effect) (counter : Int) (out : Bool)
    (hd : DivisorsOk s effect) : ∃ cs, mosaic effect counter out = .ok cs := by
  obtain ⟨_, hdur, _⟩ := hd
  simp only [mosaic, cdiv_ok _ _ hdur]
  exact ⟨_, rfl⟩

theorem dllEffect_ok (s : Engine) (effect : Effect) (counter resolution n : Int)
    (first_time : Bool) (hd : DivisorsOk s effect) :
    ∃ cs, dllEffect s effect counter resolution n first_time = .ok (cs, resolution) := by
  obtain ⟨cf, hcf⟩ := crossFade_ok s effect counter hd
  unfold dllEffect
  cases s.dll with
  | none => exact ⟨_, by simp only [hcf]; rfl⟩
  | some dll =>
    simp only []
    split_ifs
    · exact ⟨_, rfl⟩
    · exact ⟨_, rfl⟩
    · exact ⟨_, rfl⟩
    · exact ⟨_, rfl⟩
    · exact ⟨_, by simp only [hcf]; rfl⟩

theorem effectSwitch_ok (env : StepEnv) (s : Engine) (effect : Effect)
    (counter resolution n : Int) (first_time : Bool)
    (hd : DivisorsOk s effect) (hq : NotSineQuake s n) :
    ∃ calls, effectSwitch env s effect counter resolution n first_time =
      .ok (calls, resolution) := by
  obtain ⟨hq0, hq1⟩ := hq
  obtain ⟨cf, hcf⟩ := crossFade_ok s effect counter hd
  unfold effectSwitch
  by_cases c0 : n = 0 ∨ n = 1
  · rw [if_pos c0]; exact ⟨_, rfl⟩
  rw [if_neg c0]
  by_cases c1 : n = 2
  · rw [if_pos c1]; exact keepResolution_ok _ _ (shutter_ok s effect counter _ _ hd)
  rw [if_neg c1]
  by_cases c2 : n = 3
  · rw [if_pos c2]; exact keepResolution_ok _ _ (shutter_ok s effect counter _ _ hd)
  rw [if_neg c2]
  by_cases c3 : n = 4
  · rw [if_pos c3]; exact keepResolution_ok _ _ (shutter_ok s effect counter _ _ hd)
  rw [if_neg c3]
  by_cases c4 : n = 5
  · rw [if_pos c4]; exact keepResolution_ok _ _ (shutter_ok s effect counter _ _ hd)
  rw [if_neg c4]
  by_cases c5 : n = 6
  · rw [if_pos c5]; exact keepResolution_ok _ _ (curtain_ok s effect counter _ _ hd)
  rw [if_neg c5]
  by_cases c6 : n = 7
  · rw [if_pos c6]; exact keepResolution_ok _ _ (curtain_ok s effect counter _ _ hd)
  rw [if_neg c6]
  by_cases c7 : n = 8
  · rw [if_pos c7]; exact keepResolution_ok _ _ (curtain_ok s effect counter _ _ hd)
  rw [if_neg c7]
  by_cases c8 : n = 9
  · rw [if_pos c8]; exact keepResolution_ok _ _ (curtain_ok s effect counter _ _ hd)
  rw [if_neg c8]
  by_cases c9 : n = 10
  · rw [if_pos c9]; exact keepResolution_ok _ _ (crossFade_ok s effect counter hd)
  rw [if_neg c9]
  by_cases c10 : 11 ≤ n ∧ n ≤ 14
  · rw [if_pos c10]; exact keepResolution_ok _ _ (scroll_ok s effect counter _ hd)
  rw [if_neg c10]
  by_cases c11 : n = 15
  · rw [if_pos c11]; exact keepResolution_ok _ _ (maskFade_ok s effect counter _ hd)
  rw [if_neg c11]
  by_cases c12 : n = 16
  · rw [if_pos c12]; exact keepResolution_ok _ _ (mosaic_ok s effect counter _ hd)
  rw [if_neg c12]
  by_cases c13 : n = 17
  · rw [if_pos c13]; exact keepResolution_ok _ _ (mosaic_ok s effect counter _ hd)
  rw [if_neg c13]
  by_cases c14 : n = 18
  · rw [if_pos c14]; exact keepResolution_ok _ _ (maskFade_ok s effect counter _ hd)
  rw [if_neg c14]
  by_cases c15 : n = 99
  · rw [if_pos c15]; exact dllEffect_ok s effect counter resolution n first_time hd
  rw [if_neg c15]
  rw [if_neg hq0, if_neg hq1]
  by_cases cq : n = s.CUSTOM_EFFECT_NO + 2
  · rw [if_pos cq]; exact ⟨_, rfl⟩
  rw [if_neg cq]
  exact keepResolution_ok _ _ ⟨_, by rw [hcf]; rfl⟩
theorem SDL_BlitSurface_rect_committed (src : SDL_Surface) (r : SDL_Rect) (acc : SDL_Surface) :
    CommittedInside r src (SDL_BlitSurface_rect src r acc) := by
  intro x y hr hs ha
  have ha' : acc.covers x y := ha
  simp [SDL_BlitSurface_rect, hr, hs, ha']

/-- A step without skip input that stays below the duration: it waits, adds
the elapsed ticks, and keeps the event mode and the setup. -/
theorem doEffect_wait (env : StepEnv) (s : Engine) (effect : Effect) (cdr : Bool)
    (hskip : NoSkipInput s) (hd : DivisorsOk s effect)
    (hq : NotSineQuake s (effectNo s effect)) (hno : effectNo s effect ≠ 1)
    (hlt : s.effect_counter + (env.ticks - s.effect_start_time_old) < effect.duration) :
    ∃ s', doEffect env s effect cdr = .ok (.RET_WAIT_REREAD, s', effect) ∧
      s'.effect_counter = s.effect_counter + (env.ticks - s.effect_start_time_old) ∧
      s'.event_mode = s.event_mode ∧ s'.effect_start_time_old = env.ticks ∧
      SameSetup s s' := by
  obtain ⟨hc, hw⟩ := hskip
  obtain ⟨calls, hsw⟩ := effectSwitch_ok env s effect s.effect_counter
    (env.ticks - s.effect_start_time_old) (effectNo s effect) (decide (s.effect_counter = 0)) hd hq
  unfold effectNo at hsw hno
  simp only [doEffect, hc, hw, Bool.or_self, Bool.false_eq_true, if_false, hsw, hlt, hno,
    ne_eq, not_false_eq_true, and_self, if_true]
  exact ⟨_, rfl, rfl, rfl, rfl, by simp [SameSetup, hc, hw]⟩

/-- A step without skip input that reaches the duration, or whose effect
number is 1: it completes. -/
theorem doEffect_done (env : StepEnv) (s : Engine) (effect : Effect) (cdr : Bool)
    (hskip : NoSkipInput s) (hd : DivisorsOk s effect)
    (hq : NotSineQuake s (effectNo s effect))
    (hge : ¬ (s.effect_counter + (env.ticks - s.effect_start_time_old) < effect.duration ∧
      effectNo s effect ≠ 1)) :
    ∃ s', doEffect env s effect cdr = .ok (.RET_CONTINUE, s', effect) ∧
      s'.effect_counter = (if effectNo s effect = 1 then 0
        else s.effect_counter + (env.ticks - s.effect_start_time_old)) ∧
      s'.event_mode = .IDLE_EVENT_MODE ∧ s'.effect_start_time_old = env.ticks ∧
      CommittedInside s.dirty_rect s.effect_dst_surface s'.accumulation_surface ∧
      SameSetup s s' := by
  obtain ⟨hc, hw⟩ := hskip
  obtain ⟨calls, hsw⟩ := effectSwitch_ok env s effect s.effect_counter
    (env.ticks - s.effect_start_time_old) (effectNo s effect) (decide (s.effect_counter = 0)) hd hq
  unfold effectNo at hsw hge
  simp only [doEffect, hc, hw, Bool.or_self, Bool.false_eq_true, if_false, hsw, hge, if_false]
  exact ⟨_, rfl, rfl, rfl, rfl, SDL_BlitSurface_rect_committed _ _ _, by simp [SameSetup, hc, hw]⟩

/-- C3 (as stated, refuted): effect 1 with duration 100, counter 0 and 10
elapsed ticks.  The claim asks for a wait with the counter at 10; the step
continues, goes idle and leaves the counter at 0. -/
theorem doEffect_step_counterexample :
    (doEffect (clockEnv 10) runningEngine (request 1 100) false).map
        (fun r => (r.1, r.2.1.effect_counter, r.2.1.event_mode)) =
      .ok (.RET_CONTINUE, 0, .IDLE_EVENT_MODE) ∧
    ¬ StepAsClaimed (clockEnv 10) runningEngine (request 1 100) false := by
  have h : doEffect (clockEnv 10) runningEngine (request 1 100) false =
      .ok (.RET_CONTINUE,
        { runningEngine with
          effect_start_time := 10, effect_start_time_old := 10, effect_timer_resolution := 10,
          effect_counter := 0,
          accumulation_surface :=
            SDL_BlitSurface_rect runningEngine.effect_dst_surface runningEngine.dirty_rect
              runningEngine.accumulation_surface,
          log := [.flush false], event_mode := .IDLE_EVENT_MODE },
        request 1 100) := rfl
  refine ⟨by rw [h]; rfl, ?_⟩
  rintro ⟨r, s', e', hs, hc, _⟩
  rw [h] at hs
  injection hs with hs
  injection hs with _ hs
  injection hs with hs _
  subst hs
  revert hc
  decide

/-- C3 (amended): without skip input, for an effect number other than 1 and
other than the two sinusoidal quakes, and with non-zero divisors, one
`doEffect` step adds the elapsed ticks to `effect_counter`, and then waits
with the event mode unchanged if the updated counter is below the duration,
and otherwise copies `effect_dst_surface` into `accumulation_surface` over the
dirty bounding box, sets `event_mode` to idle and continues. -/
theorem doEffect_step (env : StepEnv) (s : Engine) (effect : Effect) (cdr : Bool)
    (hskip : NoSkipInput s) (hd : DivisorsOk s effect)
    (hq : NotSineQuake s (effectNo s effect)) (hno : effectNo s effect ≠ 1) :
    StepAsClaimed env s effect cdr := by
  by_cases hlt : s.effect_counter + (env.ticks - s.effect_start_time_old) < effect.duration
  · obtain ⟨s', h, hc, hm, _⟩ := doEffect_wait env s effect cdr hskip hd hq hno hlt
    refine ⟨_, s', effect, h, hc, fun _ => ⟨rfl, hm⟩, fun hn => ?_⟩
    rw [hc] at hn
    exact absurd hlt hn
  · obtain ⟨s', h, hc, hm, _, hcm, _⟩ :=
      doEffect_done env s effect cdr hskip hd hq (fun hh => hlt hh.1)
    rw [if_neg hno] at hc
    refine ⟨_, s', effect, h, hc, fun hl => ?_, fun _ => ⟨rfl, hm, hcm⟩⟩
    rw [hc] at hl
    exact absurd hl hlt

/-- Witness for C3 (amended): a cross fade of 100 ticks after 10 ticks. -/
theorem doEffect_step_witness :
    NoSkipInput runningEngine ∧ DivisorsOk runningEngine (request 10 100) ∧
      NotSineQuake runningEngine (effectNo runningEngine (request 10 100)) ∧
      effectNo runningEngine (request 10 100) ≠ 1 ∧
      StepAsClaimed (clockEnv 10) runningEngine (request 10 100) false :=
  ⟨by decide, by decide, by decide, by decide,
    doEffect_step (clockEnv 10) runningEngine (request 10 100) false
      (by decide) (by decide) (by decide) (by decide)⟩
/-- C4 (as stated, refuted): effect 0 with duration 100, counter 0 and 10
elapsed ticks.  The step waits and the event mode stays in effect mode. -/
theorem doEffect_instant_counterexample :
    (doEffect (clockEnv 10) runningEngine (request 0 100) false).map
        (fun r => (r.1, r.2.1.effect_counter, r.2.1.event_mode)) =
      .ok (.RET_WAIT_REREAD, 10, .EFFECT_EVENT_MODE) := by
  rfl

theorem effectSwitch_one (env : StepEnv) (s : Engine) (effect : Effect)
    (counter resolution : Int) (first_time : Bool) :
    effectSwitch env s effect counter resolution 1 first_time = .ok ([], resolution) := by
  unfold effectSwitch
  rw [if_pos (Or.inr rfl)]

/-- A step whose effect number is 1 completes, whatever the rest of the state. -/
theorem doEffect_of_effectNo_one (env : StepEnv) (s : Engine) (effect : Effect) (cdr : Bool)
    (h : effectNo s effect = 1) :
    ∃ s', doEffect env s effect cdr = .ok (.RET_CONTINUE, s', effect) ∧
      s'.event_mode = .IDLE_EVENT_MODE ∧ s'.effect_counter = 0 ∧
      CommittedInside s.dirty_rect s.effect_dst_surface s'.accumulation_surface := by
  unfold effectNo at h
  have h1 : (if (s.effect_cut_flag && s.skip_flag) = true then (1 : Int)
      else ({ effect with duration := 1 } : Effect).effect) = 1 := h
  cases hk : (s.ctrl_pressed_status || s.skip_to_wait)
  · simp only [doEffect, hk, Bool.false_eq_true, if_false, h, effectSwitch_one, ne_eq,
      not_true_eq_false, and_false, if_true]
    exact ⟨_, rfl, rfl, rfl, SDL_BlitSurface_rect_committed _ _ _⟩
  · simp only [doEffect, hk, if_true, h1, effectSwitch_one, ne_eq,
      not_true_eq_false, and_false, if_false]
    exact ⟨_, rfl, rfl, rfl, SDL_BlitSurface_rect_committed _ _ _⟩

/-- C4 (amended): for effect number 1, whatever the duration, the elapsed
ticks and the rest of the state, a single `doEffect` step returns
`RET_CONTINUE`, leaves `event_mode` idle and leaves the request as it was; a
request with effect number 0 is completed by `setEffect`, which returns
`RET_CONTINUE` at once and leaves the state and the request as they were. -/
theorem doEffect_instant (env : StepEnv) (aenv : ArmEnv) (s : Engine)
    (duration no : Int) (mask : Option Nat) (cdr generate_effect_dst update_backup : Bool) :
    (∃ s', doEffect env s ⟨1, duration, no, mask⟩ cdr =
        .ok (.RET_CONTINUE, s', ⟨1, duration, no, mask⟩) ∧
      s'.event_mode = .IDLE_EVENT_MODE ∧
      CommittedInside s.dirty_rect s.effect_dst_surface s'.accumulation_surface) ∧
    setEffect aenv s ⟨0, duration, no, mask⟩ generate_effect_dst update_backup =
      (.RET_CONTINUE, s, ⟨0, duration, no, mask⟩) := by
  refine ⟨?_, rfl⟩
  have hno : effectNo s ⟨1, duration, no, mask⟩ = 1 := by
    unfold effectNo; split <;> rfl
  obtain ⟨s', h, hm, _, hc⟩ := doEffect_of_effectNo_one env s ⟨1, duration, no, mask⟩ cdr hno
  exact ⟨s', h, hm, hc⟩

/-- C9 (the failing input): a cross fade (effect 10) whose duration is 0,
without skip input.  The step evaluates `256 * effect_counter /
effect.duration` with divisor 0 before it reaches the completion test. -/
theorem doEffect_zero_duration_divides :
    doEffect (clockEnv 10) runningEngine (request 10 0) false = .error .divisionByZero := by
  rfl
/-! ## Transition engine: a whole transition -/

theorem ceilDiv_spec (D t : Int) (ht : 0 < t) :
    (ceilDiv D t - 1) * t < D ∧ D ≤ ceilDiv D t * t := by
  unfold ceilDiv
  have h1 : (D + t - 1) / t * t ≤ D + t - 1 := Int.ediv_mul_le _ (ne_of_gt ht)
  have h2 : D + t - 1 < ((D + t - 1) / t + 1) * t := Int.lt_ediv_add_one_mul_self _ ht
  constructor
  · have : ((D + t - 1) / t - 1) * t = (D + t - 1) / t * t - t := by ring
    rw [this]; omega
  · have : ((D + t - 1) / t + 1) * t = (D + t - 1) / t * t + t := by ring
    rw [this] at h2; omega

theorem ceilDiv_pos (D t : Int) (hD : 0 < D) (ht : 0 < t) : 1 ≤ ceilDiv D t := by
  unfold ceilDiv
  exact Int.le_ediv_of_mul_le ht (by omega)

/-- The number `ceilDiv D t` is the ceiling of the quotient `D / t`. -/
theorem ceilDiv_eq_ceil (D t : Int) (ht : 0 < t) : ceilDiv D t = ⌈(D : ℚ) / (t : ℚ)⌉ := by
  obtain ⟨h1, h2⟩ := ceilDiv_spec D t ht
  have htq : (0 : ℚ) < (t : ℚ) := by exact_mod_cast ht
  symm
  rw [Int.ceil_eq_iff]
  constructor
  · rw [lt_div_iff₀ htq]
    have : (((ceilDiv D t - 1) * t : Int) : ℚ) < (D : ℚ) := by exact_mod_cast h1
    push_cast at this
    exact this
  · rw [div_le_iff₀ htq]
    have : ((D : Int) : ℚ) ≤ ((ceilDiv D t * t : Int) : ℚ) := by exact_mod_cast h2
    push_cast at this
    exact this

theorem SameSetup.noSkip {s s' : Engine} (h : SameSetup s s') (hs : NoSkipInput s) :
    NoSkipInput s' := by
  obtain ⟨_, h1, h2, _⟩ := h
  exact ⟨h1.trans hs.1, h2.trans hs.2⟩

theorem SameSetup.divisors {s s' : Engine} (h : SameSetup s s') (effect : Effect)
    (hd : DivisorsOk s effect) : DivisorsOk s' effect := by
  obtain ⟨_, _, _, _, _, hw, hh, h1, h2, _⟩ := h
  unfold DivisorsOk at *
  rw [hw, hh, h1, h2]
  exact hd

theorem SameSetup.effectNo {s s' : Engine} (h : SameSetup s s') (effect : Effect) :
    effectNo s' effect = effectNo s effect := by
  obtain ⟨_, _, _, hc, hf, _⟩ := h
  unfold Ponscripter.effectNo
  rw [hc, hf]

theorem SameSetup.notSineQuake {s s' : Engine} (h : SameSetup s s') (effect : Effect)
    (hq : NotSineQuake s (Ponscripter.effectNo s effect)) :
    NotSineQuake s' (Ponscripter.effectNo s' effect) := by
  rw [h.effectNo effect]
  obtain ⟨hc, _⟩ := h
  unfold NotSineQuake at *
  rw [hc]
  exact hq

/-- From a state whose counter needs `k + 1` steps of `t` ticks to reach the
duration, `k` steps wait and the next one completes. -/
theorem runSteps_complete (env : StepEnv) (t : Int) (cdr : Bool) (effect : Effect)
    (ht : 0 < t) (k : Nat) :
    ∀ s : Engine, NoSkipInput s → DivisorsOk s effect →
      NotSineQuake s (effectNo s effect) → effectNo s effect ≠ 1 →
      s.effect_counter + (k : Int) * t < effect.duration →
      effect.duration ≤ s.effect_counter + ((k : Int) + 1) * t →
      ∃ s', runSteps env t cdr (k + 1) s effect =
          .ok (List.replicate k .RET_WAIT_REREAD ++ [.RET_CONTINUE], s', effect) ∧
        s'.event_mode = .IDLE_EVENT_MODE ∧
        CommittedInside s.dirty_rect s.effect_dst_surface s'.accumulation_surface := by
  induction k with
  | zero =>
    intro s hskip hd hq hno _ hge
    have hnot : ¬ (s.effect_counter +
        (({ env with ticks := s.effect_start_time_old + t } : StepEnv).ticks -
          s.effect_start_time_old) < effect.duration ∧ effectNo s effect ≠ 1) := by
      intro hh
      have := hh.1
      simp only at this
      omega
    obtain ⟨s', h, _, hm, _, hcm, _⟩ := doEffect_done
      { env with ticks := s.effect_start_time_old + t } s effect cdr hskip hd hq hnot
    exact ⟨s', by simp [runSteps, h], hm, hcm⟩
  | succ k ih =>
    intro s hskip hd hq hno hlt hge
    have hkt : 0 ≤ (k : Int) * t := mul_nonneg (Int.ofNat_nonneg k) (le_of_lt ht)
    have hexp : ((k + 1 : Nat) : Int) * t = (k : Int) * t + t := by push_cast; ring
    have hexp2 : (((k + 1 : Nat) : Int) + 1) * t = (k : Int) * t + t + t := by push_cast; ring
    rw [hexp] at hlt
    rw [hexp2] at hge
    have hlt1 : s.effect_counter +
        (({ env with ticks := s.effect_start_time_old + t } : StepEnv).ticks -
          s.effect_start_time_old) < effect.duration := by
      simp only
      omega
    obtain ⟨s1, h, hc, _, _, hsame⟩ := doEffect_wait
      { env with ticks := s.effect_start_time_old + t } s effect cdr hskip hd hq hno hlt1
    simp only at hc
    have hno1 : effectNo s1 effect ≠ 1 := by rw [hsame.effectNo effect]; exact hno
    have hexp3 : ((k : Int) + 1) * t = (k : Int) * t + t := by ring
    obtain ⟨s', hrun, hm, hcm⟩ := ih s1 (hsame.noSkip hskip) (hsame.divisors effect hd)
      (hsame.notSineQuake effect hq) hno1 (by rw [hc]; omega) (by rw [hc, hexp3]; omega)
    refine ⟨s', ?_, hm, ?_⟩
    · rw [runSteps, h]
      simp only [hrun, List.replicate_succ, List.cons_append]
    · obtain ⟨_, _, _, _, _, _, _, _, _, hdst, hdirty, _⟩ := hsame
      rw [hdst, hdirty] at hcm
      exact hcm
/-- What arming leaves behind for a request whose effect number is not 0. -/
theorem setEffect_armed (aenv : ArmEnv) (s : Engine) (effect : Effect) (g u : Bool)
    (h0 : effect.effect ≠ 0) :
    (setEffect aenv s effect g u).1 = .RET_WAIT_REREAD ∧
    (setEffect aenv s effect g u).2.1.effect_counter = 0 ∧
    (setEffect aenv s effect g u).2.1.event_mode = .EFFECT_EVENT_MODE ∧
    (setEffect aenv s effect g u).2.1.effect_start_time_old = aenv.ticks ∧
    (setEffect aenv s effect g u).2.2.effect = effect.effect ∧
    (setEffect aenv s effect g u).2.2.duration = effect.duration ∧
    (setEffect aenv s effect g u).2.1.CUSTOM_EFFECT_NO = s.CUSTOM_EFFECT_NO ∧
    (setEffect aenv s effect g u).2.1.ctrl_pressed_status = s.ctrl_pressed_status ∧
    (setEffect aenv s effect g u).2.1.skip_to_wait = s.skip_to_wait ∧
    (setEffect aenv s effect g u).2.1.effect_cut_flag = s.effect_cut_flag ∧
    (setEffect aenv s effect g u).2.1.skip_flag = s.skip_flag ∧
    (setEffect aenv s effect g u).2.1.screen_width = s.screen_width ∧
    (setEffect aenv s effect g u).2.1.screen_height = s.screen_height ∧
    (setEffect aenv s effect g u).2.1.screen_ratio1 = s.screen_ratio1 ∧
    (setEffect aenv s effect g u).2.1.screen_ratio2 = s.screen_ratio2 := by
  unfold setEffect
  rw [if_neg h0]
  refine ⟨rfl, rfl, rfl, rfl, ?_, ?_, rfl, rfl, rfl, rfl, rfl, rfl, rfl, rfl, rfl⟩
  · simp only []; split_ifs <;> rfl
  · simp only []; split_ifs <;> rfl

/-- C8 (as stated, refuted): effect 1 armed with duration 100 and driven with
steps of 10 ticks.  `ceil(100 / 10) - 1 = 9` waits are claimed before the
completion; the first step already continues. -/
theorem runSteps_counterexample :
    (doEffect (clockEnv 10) (setEffect armEnv idleEngine (request 1 100) true true).2.1
        (setEffect armEnv idleEngine (request 1 100) true true).2.2 false).map Prod.fst =
      .ok .RET_CONTINUE ∧
    ¬ RunAsClaimed armEnv (clockEnv 0) idleEngine (request 1 100) true true 10 false := by
  refine ⟨rfl, ?_⟩
  rintro ⟨s', h, _⟩
  have h3 : (runSteps (clockEnv 0) 10 false (ceilDiv (request 1 100).duration 10).toNat
      (setEffect armEnv idleEngine (request 1 100) true true).2.1
      (setEffect armEnv idleEngine (request 1 100) true true).2.2).map Prod.fst =
      .ok (List.replicate 10 .RET_CONTINUE) := rfl
  have h4 : (Except.ok (List.replicate 10 RetCode.RET_CONTINUE) :
      Except EffectError (List RetCode)) =
      .ok (List.replicate ((ceilDiv (request 1 100).duration 10).toNat - 1)
        RetCode.RET_WAIT_REREAD ++ [RetCode.RET_CONTINUE]) := by
    rw [← h3, h]; rfl
  injection h4 with h5
  revert h5
  decide

/-- C8 (amended): for a request whose effect number is not 0 (so that
`setEffect` arms it), not 1 and not a sinusoidal quake, with duration `D > 0`,
no skip input, non-zero divisors, and every step observing the same elapsed
tick size `t > 0`: the first `ceil(D / t) - 1` `doEffect` calls return
wait-and-re-poll, and call number `ceil(D / t)` returns continue with
`event_mode` idle and the accumulation surface equal to the target frame
inside the dirty rectangle. -/
theorem runSteps_transition (aenv : ArmEnv) (env : StepEnv) (s : Engine) (effect : Effect)
    (g u : Bool) (t : Int) (cdr : Bool)
    (h0 : effect.effect ≠ 0) (hD : 0 < effect.duration) (ht : 0 < t)
    (hskip : NoSkipInput s) (hd : DivisorsOk s effect)
    (hq : NotSineQuake s (effectNo s effect)) (hno : effectNo s effect ≠ 1) :
    RunAsClaimed aenv env s effect g u t cdr := by
  obtain ⟨_, hc, _, _, he, hdur, hC, hk1, hk2, hf1, hf2, hw, hh, hr1, hr2⟩ :=
    setEffect_armed aenv s effect g u h0
  obtain ⟨hs1, hs2⟩ := ceilDiv_spec effect.duration t ht
  have hpos := ceilDiv_pos effect.duration t hD ht
  have hn : (((ceilDiv effect.duration t).toNat - 1 : Nat) : Int) = ceilDiv effect.duration t - 1 := by
    omega
  have hn1 : (ceilDiv effect.duration t).toNat = ((ceilDiv effect.duration t).toNat - 1) + 1 := by
    omega
  have heno : effectNo (setEffect aenv s effect g u).2.1 (setEffect aenv s effect g u).2.2 =
      effectNo s effect := by
    unfold effectNo
    rw [hf1, hf2, he]
  have hskip' : NoSkipInput (setEffect aenv s effect g u).2.1 :=
    ⟨hk1.trans hskip.1, hk2.trans hskip.2⟩
  have hd' : DivisorsOk (setEffect aenv s effect g u).2.1 (setEffect aenv s effect g u).2.2 := by
    unfold DivisorsOk at *
    rw [hw, hh, hr1, hr2, hdur]
    exact hd
  have hq' : NotSineQuake (setEffect aenv s effect g u).2.1
      (effectNo (setEffect aenv s effect g u).2.1 (setEffect aenv s effect g u).2.2) := by
    rw [heno]
    unfold NotSineQuake at *
    rw [hC]
    exact hq
  obtain ⟨s', hrun, hm, hcm⟩ := runSteps_complete env t cdr (setEffect aenv s effect g u).2.2 ht
    ((ceilDiv effect.duration t).toNat - 1) (setEffect aenv s effect g u).2.1 hskip' hd' hq'
    (by rw [heno]; exact hno)
    (by rw [hc, hdur, hn]; omega)
    (by rw [hc, hdur, hn]; simpa using hs2)
  unfold RunAsClaimed
  simp only
  rw [hn1]
  exact ⟨s', by simpa using hrun, hm, hcm⟩

/-- Witness for C8 (amended): a cross fade of 95 ticks driven with steps of 10
ticks. -/
theorem runSteps_transition_witness :
    (request 10 95).effect ≠ 0 ∧ 0 < (request 10 95).duration ∧ (0 : Int) < 10 ∧
      NoSkipInput idleEngine ∧ DivisorsOk idleEngine (request 10 95) ∧
      NotSineQuake idleEngine (effectNo idleEngine (request 10 95)) ∧
      effectNo idleEngine (request 10 95) ≠ 1 ∧
      RunAsClaimed armEnv (clockEnv 0) idleEngine (request 10 95) true true 10 false :=
  ⟨by decide, by decide, by decide, by decide, by decide, by decide, by decide,
    runSteps_transition armEnv (clockEnv 0) idleEngine (request 10 95) true true 10 false
      (by decide) (by decide) (by decide) (by decide) (by decide) (by decide) (by decide)⟩

/-! ## Transition engine: a duration of 0 -/

theorem cdiv_zero (a : Int) : cdiv a 0 = .error .divisionByZero := by
  simp [cdiv]

theorem shutter_zero (s : Engine) (counter : Int) (vertical fromEnd : Bool) :
    shutter s counter 0 vertical fromEnd = .error .divisionByZero := by
  unfold shutter EFFECT_STRIPE_WIDTH
  by_cases h2 : s.screen_ratio2 = 0
  · rw [h2, cdiv_zero]; rfl
  · rw [cdiv_ok _ _ h2]
    simp only [bind, Except.bind, cdiv_zero]

theorem curtain_zero (s : Engine) (counter : Int) (vertical fromEnd : Bool) :
    curtain s counter 0 vertical fromEnd = .error .divisionByZero := by
  unfold curtain EFFECT_STRIPE_CURTAIN_WIDTH
  by_cases h2 : s.screen_ratio2 = 0
  · rw [h2, cdiv_zero]; rfl
  · rw [cdiv_ok _ _ h2]
    simp only [bind, Except.bind, cdiv_zero]

theorem crossFade_zero (s : Engine) (counter : Int) :
    crossFade s counter 0 = .error .divisionByZero := by
  simp only [crossFade, cdiv_zero, bind, Except.bind]

theorem scroll_zero (s : Engine) (counter n : Int) :
    scroll s counter 0 n = .error .divisionByZero := by
  unfold scroll
  split_ifs <;> simp only [cdiv_zero, bind, Except.bind]

theorem effectSwitch_zero_duration (env : StepEnv) (s : Engine) (effect : Effect)
    (counter resolution n : Int) (first_time : Bool) (hdur : effect.duration = 0)
    (hlo : 2 ≤ n) (hhi : n ≤ 18) :
    effectSwitch env s effect counter resolution n first_time = .error .divisionByZero := by
  unfold effectSwitch
  rw [hdur]
  have e01 : ¬ (n = 0 ∨ n = 1) := by omega
  rw [if_neg e01]
  by_cases c0 : n = 2
  · rw [if_pos c0]; simp only [keepResolution, shutter_zero, Except.map]
  rw [if_neg c0]
  by_cases c1 : n = 3
  · rw [if_pos c1]; simp only [keepResolution, shutter_zero, Except.map]
  rw [if_neg c1]
  by_cases c2 : n = 4
  · rw [if_pos c2]; simp only [keepResolution, shutter_zero, Except.map]
  rw [if_neg c2]
  by_cases c3 : n = 5
  · rw [if_pos c3]; simp only [keepResolution, shutter_zero, Except.map]
  rw [if_neg c3]
  by_cases c4 : n = 6
  · rw [if_pos c4]; simp only [keepResolution, curtain_zero, Except.map]
  rw [if_neg c4]
  by_cases c5 : n = 7
  · rw [if_pos c5]; simp only [keepResolution, curtain_zero, Except.map]
  rw [if_neg c5]
  by_cases c6 : n = 8
  · rw [if_pos c6]; simp only [keepResolution, curtain_zero, Except.map]
  rw [if_neg c6]
  by_cases c7 : n = 9
  · rw [if_pos c7]; simp only [keepResolution, curtain_zero, Except.map]
  rw [if_neg c7]
  by_cases c8 : n = 10
  · rw [if_pos c8]; simp only [keepResolution, crossFade_zero, Except.map]
  rw [if_neg c8]
  by_cases c9 : 11 ≤ n ∧ n ≤ 14
  · rw [if_pos c9]; simp only [keepResolution, scroll_zero, Except.map]
  rw [if_neg c9]
  by_cases c10 : n = 15
  · rw [if_pos c10]; simp only [keepResolution, maskFade, hdur, cdiv_zero, Except.map, Bool.false_eq_true, if_false]
  rw [if_neg c10]
  by_cases c11 : n = 16
  · rw [if_pos c11]; simp only [keepResolution, mosaic, hdur, cdiv_zero, Except.map]
  rw [if_neg c11]
  by_cases c12 : n = 17
  · rw [if_pos c12]; simp only [keepResolution, mosaic, hdur, cdiv_zero, Except.map]
  rw [if_neg c12]
  by_cases c13 : n = 18
  · rw [if_pos c13]; simp only [keepResolution, maskFade, hdur, cdiv_zero, Except.map, if_true]
  rw [if_neg c13]
  exfalso; omega

/-- Every case from 2 to 18 of the switch divides by `effect.duration`: with
duration 0 and no skip input the step ends in a division by zero, whatever
the rest of the state. -/
theorem doEffect_zero_duration (env : StepEnv) (s : Engine) (effect : Effect) (cdr : Bool)
    (hskip : NoSkipInput s) (hdur : effect.duration = 0)
    (hlo : 2 ≤ effectNo s effect) (hhi : effectNo s effect ≤ 18) :
    doEffect env s effect cdr = .error .divisionByZero := by
  obtain ⟨hc, hw⟩ := hskip
  have hsw := effectSwitch_zero_duration env s effect s.effect_counter
    (env.ticks - s.effect_start_time_old) (effectNo s effect) (decide (s.effect_counter = 0))
    hdur hlo hhi
  unfold effectNo at hsw
  simp only [doEffect, hc, hw, Bool.or_self, Bool.false_eq_true, if_false, hsw]

/-! ## Compositing kernels: the mean -/

/-- The byte loop stops because its guard fails, not because of the bound. -/
theorem meanBytes_exit (src1 src2 : Buffer) (length : Int) (fuel : Nat) :
    ∀ (i : Nat) (dst : Buffer), length - (i : Int) ≤ (fuel : Int) →
      ¬ ((meanBytes src1 src2 length fuel i dst).1 : Int) < length := by
  induction fuel with
  | zero => intro i dst h; simp only [meanBytes]; omega
  | succ fuel ih =>
    intro i dst h
    unfold meanBytes
    split
    · exact ih (i + 1) _ (by push_cast at h ⊢; omega)
    · assumption

/-- The alignment loop stops because its guard fails. -/
theorem meanHead_exit (dstAddr : Nat) (src1 src2 : Buffer) (length : Int) (fuel : Nat) :
    ∀ (i : Nat) (dst : Buffer), length - (i : Int) ≤ (fuel : Int) →
      ¬ ((!is_aligned (dstAddr + (meanHead dstAddr src1 src2 length fuel i dst).1) 16) = true ∧
        ((meanHead dstAddr src1 src2 length fuel i dst).1 : Int) < length) := by
  induction fuel with
  | zero => intro i dst h; simp only [meanHead]; omega
  | succ fuel ih =>
    intro i dst h
    unfold meanHead
    split
    · exact ih (i + 1) _ (by push_cast at h ⊢; omega)
    · assumption

/-- The block loop stops because its guard fails. -/
theorem meanBlocks_exit (src1 src2 : Buffer) (length : Int) (fuel : Nat) :
    ∀ (i : Nat) (dst : Buffer), length - (i : Int) ≤ (fuel : Int) →
      ¬ ((meanBlocks src1 src2 length fuel i dst).1 : Int) < length - 15 := by
  induction fuel with
  | zero => intro i dst h; simp only [meanBlocks]; omega
  | succ fuel ih =>
    intro i dst h
    unfold meanBlocks
    split
    · exact ih (i + 16) _ (by push_cast at h ⊢; omega)
    · assumption

/-- The reference kernel writes `floor((src1[i] + src2[i]) / 2)` at every
index below the length and nothing else. -/
theorem meanBytes_get (src1 src2 : Buffer) (length : Int) (fuel : Nat) :
    ∀ (i : Nat) (dst : Buffer) (j : Nat), length - (i : Int) ≤ (fuel : Int) →
      (meanBytes src1 src2 length fuel i dst).2 j =
        if i ≤ j ∧ (j : Int) < length then (src1.load j + src2.load j) / 2 else dst j := by
  induction fuel with
  | zero =>
    intro i dst j h
    have : ¬ (i ≤ j ∧ (j : Int) < length) := by omega
    simp only [meanBytes, this, if_false]
  | succ fuel ih =>
    intro i dst j h
    unfold meanBytes
    split
    · rename_i hlt
      rw [ih (i + 1) _ j (by push_cast at h ⊢; omega)]
      by_cases hj : j = i
      · subst hj
        have h1 : ¬ (j + 1 ≤ j ∧ (j : Int) < length) := by omega
        have h2 : (j ≤ j ∧ (j : Int) < length) := ⟨le_refl _, hlt⟩
        have hb : (src1.load j + src2.load j) / 2 < 256 := by
          unfold Buffer.load; omega
        rw [if_neg h1, if_pos h2]
        simp only [Buffer.store, mean_pixel, if_true, Nat.mod_eq_of_lt hb]
      · by_cases hc : i + 1 ≤ j ∧ (j : Int) < length
        · have h2 : i ≤ j ∧ (j : Int) < length := ⟨by omega, hc.2⟩
          rw [if_pos hc, if_pos h2]
        · have h2 : ¬ (i ≤ j ∧ (j : Int) < length) := by omega
          rw [if_neg hc, if_neg h2]
          simp only [Buffer.store, hj, if_false]
    · rename_i hge
      have : ¬ (i ≤ j ∧ (j : Int) < length) := by omega
      simp only [this, if_false]

theorem imageFilterMean_Basic_get (src1 src2 dst : Buffer) (length : Int) (j : Nat) :
    imageFilterMean_Basic src1 src2 dst length j =
      if (j : Int) < length then (src1.load j + src2.load j) / 2 else dst j := by
  unfold imageFilterMean_Basic
  rw [meanBytes_get src1 src2 length length.toNat 0 dst j (by omega)]
  simp

/-- C10 (the failing input): two source buffers filled with the byte 1, a
`dst` on a 16-byte boundary and length 16.  The reference kernel writes
`(1 + 1) / 2 = 1` at index 0; the SSE2 kernel handles the index in its block
loop and writes `(1 >> 1) + (1 >> 1) = 0`. -/
theorem imageFilterMean_SSE2_differs :
    imageFilterMean_Basic (constBuffer 1) (constBuffer 1) (constBuffer 0) 16 0 = 1 ∧
    imageFilterMean_SSE2 0 (constBuffer 1) (constBuffer 1) (constBuffer 0) 16 0 = 0 ∧
    ((constBuffer 1).load 0 + (constBuffer 1).load 0) / 2 = 1 := by
  decide

/-! ## Compositing kernels: what the SSE2 mean writes -/

theorem lane_low_byte (lo hi : Nat) (hlo : lo < 256) :
    Nat.land (((lo + 256 * hi) >>> 1) % 256) 127 = lo / 2 := by
  have h1 : Nat.land (((lo + 256 * hi) >>> 1) % 256) 127 =
      (((lo + 256 * hi) >>> 1) % 256) % 2 ^ 7 := Nat.and_pow_two_sub_one_eq_mod _ 7
  rw [h1, Nat.shiftRight_eq_div_pow]
  omega

theorem lane_high_byte (lo hi : Nat) (hlo : lo < 256) (hhi : hi < 256) :
    Nat.land (((lo + 256 * hi) >>> 1) / 256) 127 = hi / 2 := by
  have h1 : Nat.land (((lo + 256 * hi) >>> 1) / 256) 127 =
      (((lo + 256 * hi) >>> 1) / 256) % 2 ^ 7 := Nat.and_pow_two_sub_one_eq_mod _ 7
  rw [h1, Nat.shiftRight_eq_div_pow]
  omega

theorem halved_register (buf : Buffer) (i k : Nat) (hk : k < 16) :
    (_mm_and_si128 (_mm_srli_epi16 (_mm_loadu_si128 buf i) 1) (_mm_set1_epi8 0x7F)).getD k 0 =
      buf.load (i + k) / 2 := by
  have hr : List.range 16 = [0, 1, 2, 3, 4, 5, 6, 7, 8, 9, 10, 11, 12, 13, 14, 15] := rfl
  have hb : ∀ n, buf.load n < 256 := fun n => Nat.mod_lt _ (by decide)
  have hm : _mm_set1_epi8 0x7F =
      [127, 127, 127, 127, 127, 127, 127, 127, 127, 127, 127, 127, 127, 127, 127, 127] := rfl
  simp only [_mm_loadu_si128, hr, List.map_cons, List.map_nil, _mm_srli_epi16, _mm_and_si128, hm,
    List.zipWith_cons_cons, List.zipWith_nil_left, lane_low_byte _ _ (hb _),
    lane_high_byte _ _ (hb _) (hb _)]
  interval_cases k <;> rfl
theorem mean_block_byte (src1 src2 : Buffer) (i k : Nat) (hk : k < 16) :
    (_mm_adds_epu8
        (_mm_and_si128 (_mm_srli_epi16 (_mm_loadu_si128 src1 i) 1) (_mm_set1_epi8 0x7F))
        (_mm_and_si128 (_mm_srli_epi16 (_mm_loadu_si128 src2 i) 1) (_mm_set1_epi8 0x7F))).getD
        k 0 % 256 =
      src1.load (i + k) / 2 + src2.load (i + k) / 2 := by
  have hr : List.range 16 = [0, 1, 2, 3, 4, 5, 6, 7, 8, 9, 10, 11, 12, 13, 14, 15] := rfl
  have hb1 : ∀ n, src1.load n < 256 := fun n => Nat.mod_lt _ (by decide)
  have hb2 : ∀ n, src2.load n < 256 := fun n => Nat.mod_lt _ (by decide)
  have hm : _mm_set1_epi8 0x7F =
      [127, 127, 127, 127, 127, 127, 127, 127, 127, 127, 127, 127, 127, 127, 127, 127] := rfl
  simp only [_mm_loadu_si128, hr, List.map_cons, List.map_nil, _mm_srli_epi16, _mm_and_si128, hm,
    _mm_adds_epu8, List.zipWith_cons_cons, List.zipWith_nil_left,
    lane_low_byte _ _ (hb1 _), lane_high_byte _ _ (hb1 _) (hb1 _),
    lane_low_byte _ _ (hb2 _), lane_high_byte _ _ (hb2 _) (hb2 _)]
  have b1 := hb1 (i + k)
  have b2 := hb2 (i + k)
  interval_cases k <;> simp only [List.getD_cons_zero, List.getD_cons_succ] <;> omega

/-- The block loop writes `src1[j] / 2 + src2[j] / 2` at the indices it passes
and nothing else; it ends at or before the length. -/
theorem meanBlocks_get (src1 src2 : Buffer) (length : Int) (fuel : Nat) :
    ∀ (i : Nat) (dst : Buffer),
      i ≤ (meanBlocks src1 src2 length fuel i dst).1 ∧
      ((meanBlocks src1 src2 length fuel i dst).1 = i ∨
        ((meanBlocks src1 src2 length fuel i dst).1 : Int) ≤ length) ∧
      ∀ j : Nat, (meanBlocks src1 src2 length fuel i dst).2 j =
        if i ≤ j ∧ j < (meanBlocks src1 src2 length fuel i dst).1 then
          src1.load j / 2 + src2.load j / 2
        else dst j := by
  induction fuel with
  | zero =>
    intro i dst
    refine ⟨le_refl _, Or.inl rfl, fun j => ?_⟩
    have : ¬ (i ≤ j ∧ j < i) := by omega
    simp only [meanBlocks, this, if_false]
  | succ fuel ih =>
    intro i dst
    unfold meanBlocks
    split
    · rename_i hlt
      obtain ⟨h1, h2, h3⟩ := ih (i + 16) (_mm_store_si128 dst i
        (_mm_adds_epu8
          (_mm_and_si128 (_mm_srli_epi16 (_mm_loadu_si128 src1 i) 1) (_mm_set1_epi8 0x7F))
          (_mm_and_si128 (_mm_srli_epi16 (_mm_loadu_si128 src2 i) 1) (_mm_set1_epi8 0x7F))))
      dsimp only
      refine ⟨by omega, Or.inr (by omega), fun j => ?_⟩
      rw [h3 j]
      by_cases hj : i + 16 ≤ j ∧
          j < (meanBlocks src1 src2 length fuel (i + 16) (_mm_store_si128 dst i
            (_mm_adds_epu8
              (_mm_and_si128 (_mm_srli_epi16 (_mm_loadu_si128 src1 i) 1) (_mm_set1_epi8 0x7F))
              (_mm_and_si128 (_mm_srli_epi16 (_mm_loadu_si128 src2 i) 1)
                (_mm_set1_epi8 0x7F))))).1
      · rw [if_pos hj, if_pos ⟨by omega, hj.2⟩]
      · rw [if_neg hj]
        by_cases hin : i ≤ j ∧ j < i + 16
        · rw [if_pos ⟨hin.1, by omega⟩]
          have hk : j - i < 16 := by omega
          have hb := mean_block_byte src1 src2 i (j - i) hk
          have hji : i + (j - i) = j := by omega
          rw [hji] at hb
          simp only [_mm_store_si128, hin, and_self, if_true]
          exact hb
        · have hout : ¬ (i ≤ j ∧ j < (meanBlocks src1 src2 length fuel (i + 16)
              (_mm_store_si128 dst i
                (_mm_adds_epu8
                  (_mm_and_si128 (_mm_srli_epi16 (_mm_loadu_si128 src1 i) 1)
                    (_mm_set1_epi8 0x7F))
                  (_mm_and_si128 (_mm_srli_epi16 (_mm_loadu_si128 src2 i) 1)
                    (_mm_set1_epi8 0x7F))))).1) := by
            omega
          rw [if_neg hout]
          simp only [_mm_store_si128, hin, if_false]
    · refine ⟨le_refl _, Or.inl rfl, fun j => ?_⟩
      have : ¬ (i ≤ j ∧ j < i) := by omega
      simp only [this, if_false]

/-- The alignment loop writes the exact mean at the indices it passes and
nothing else; it ends at or before the length. -/
theorem meanHead_get (dstAddr : Nat) (src1 src2 : Buffer) (length : Int) (fuel : Nat) :
    ∀ (i : Nat) (dst : Buffer),
      i ≤ (meanHead dstAddr src1 src2 length fuel i dst).1 ∧
      ((meanHead dstAddr src1 src2 length fuel i dst).1 = i ∨
        ((meanHead dstAddr src1 src2 length fuel i dst).1 : Int) ≤ length) ∧
      ∀ j : Nat, (meanHead dstAddr src1 src2 length fuel i dst).2 j =
        if i ≤ j ∧ j < (meanHead dstAddr src1 src2 length fuel i dst).1 then
          (src1.load j + src2.load j) / 2
        else dst j := by
  induction fuel with
  | zero =>
    intro i dst
    refine ⟨le_refl _, Or.inl rfl, fun j => ?_⟩
    have : ¬ (i ≤ j ∧ j < i) := by omega
    simp only [meanHead, this, if_false]
  | succ fuel ih =>
    intro i dst
    unfold meanHead
    split
    · rename_i hg
      obtain ⟨h1, h2, h3⟩ := ih (i + 1)
        (dst.store i (mean_pixel (src1.load i) (src2.load i)))
      have hlt : (i : Int) < length := hg.2
      refine ⟨by omega, Or.inr (by omega), fun j => ?_⟩
      rw [h3 j]
      by_cases hj : i + 1 ≤ j ∧
          j < (meanHead dstAddr src1 src2 length fuel (i + 1)
            (dst.store i (mean_pixel (src1.load i) (src2.load i)))).1
      · rw [if_pos hj, if_pos ⟨by omega, hj.2⟩]
      · rw [if_neg hj]
        by_cases hji : j = i
        · subst hji
          rw [if_pos ⟨le_refl _, by omega⟩]
          have hb : (src1.load j + src2.load j) / 2 < 256 := by
            unfold Buffer.load; omega
          simp only [Buffer.store, mean_pixel, if_true, Nat.mod_eq_of_lt hb]
        · have hout : ¬ (i ≤ j ∧ j < (meanHead dstAddr src1 src2 length fuel (i + 1)
              (dst.store i (mean_pixel (src1.load i) (src2.load i)))).1) := by
            omega
          rw [if_neg hout]
          simp only [Buffer.store, hji, if_false]
    · refine ⟨le_refl _, Or.inl rfl, fun j => ?_⟩
      have : ¬ (i ≤ j ∧ j < i) := by omega
      simp only [this, if_false]
/-- What `imageFilterMean_SSE2` leaves in `dst`: below the length, the sum of
the halves `src1[j] / 2 + src2[j] / 2` at the indices of the block loop (from
the end of the alignment loop to the end of the block loop) and the exact mean
at the other indices; from the length on, the old contents. -/
theorem imageFilterMean_SSE2_get (dstAddr : Nat) (src1 src2 dst : Buffer) (length : Int)
    (j : Nat) :
    imageFilterMean_SSE2 dstAddr src1 src2 dst length j =
      if (j : Int) < length then
        if (meanHead dstAddr src1 src2 length length.toNat 0 dst).1 ≤ j ∧
            j < (meanBlocks src1 src2 length length.toNat
              (meanHead dstAddr src1 src2 length length.toNat 0 dst).1
              (meanHead dstAddr src1 src2 length length.toNat 0 dst).2).1 then
          src1.load j / 2 + src2.load j / 2
        else (src1.load j + src2.load j) / 2
      else dst j := by
  obtain ⟨_, hh2, hh3⟩ := meanHead_get dstAddr src1 src2 length length.toNat 0 dst
  obtain ⟨hb1, hb2, hb3⟩ := meanBlocks_get src1 src2 length length.toNat
    (meanHead dstAddr src1 src2 length length.toNat 0 dst).1
    (meanHead dstAddr src1 src2 length length.toNat 0 dst).2
  unfold imageFilterMean_SSE2
  rw [meanBytes_get src1 src2 length length.toNat _ _ j (by omega), hb3 j, hh3 j]
  generalize (meanBlocks src1 src2 length length.toNat
    (meanHead dstAddr src1 src2 length length.toNat 0 dst).1
    (meanHead dstAddr src1 src2 length length.toNat 0 dst).2).1 = e at *
  generalize (meanHead dstAddr src1 src2 length length.toNat 0 dst).1 = h at *
  split_ifs <;> first | rfl | omega

/-- The SSE2 mean is never above the reference mean and at most 1 below it. -/
theorem imageFilterMean_SSE2_close (dstAddr : Nat) (src1 src2 dst : Buffer) (length : Int)
    (j : Nat) :
    imageFilterMean_SSE2 dstAddr src1 src2 dst length j ≤
        imageFilterMean_Basic src1 src2 dst length j ∧
      imageFilterMean_Basic src1 src2 dst length j ≤
        imageFilterMean_SSE2 dstAddr src1 src2 dst length j + 1 := by
  rw [imageFilterMean_SSE2_get, imageFilterMean_Basic_get]
  by_cases hj : (j : Int) < length
  · rw [if_pos hj, if_pos hj]
    split <;> omega
  · rw [if_neg hj, if_neg hj]
    omega

/-! ## Compositing kernels: the saturating add and subtract -/

theorem range'_snoc_step (i n : Nat) : [i] ++ List.range' (i + 1) n = List.range' i (n + 1) := by
  simp [List.range'_succ]

/-- The byte loop of a saturating kernel: it ends with its guard false, writes
`op (dst[j]) (src[j])` at the indices it passes, touches nothing else, and
processes the indices from its start to its end in order. -/
theorem accumBytes_get (op : Nat → Nat → Nat) (hop : ∀ d s, d < 256 → op d s < 256)
    (src : Buffer) (length : Int) (fuel : Nat) :
    ∀ (i : Nat) (dst : Buffer) (touched : List Nat), length - (i : Int) ≤ (fuel : Int) →
      i ≤ (accumBytes op src length fuel i dst touched).1 ∧
      ¬ ((accumBytes op src length fuel i dst touched).1 : Int) < length ∧
      ((accumBytes op src length fuel i dst touched).1 = i ∨
        ((accumBytes op src length fuel i dst touched).1 : Int) ≤ length) ∧
      (accumBytes op src length fuel i dst touched).2.2 =
        touched ++ List.range' i ((accumBytes op src length fuel i dst touched).1 - i) ∧
      ∀ j : Nat, (accumBytes op src length fuel i dst touched).2.1 j =
        if i ≤ j ∧ j < (accumBytes op src length fuel i dst touched).1 then
          op (dst.load j) (src.load j)
        else dst j := by
  induction fuel with
  | zero =>
    intro i dst touched h
    refine ⟨le_refl _, by simp only [accumBytes]; omega, Or.inl rfl, by simp [accumBytes],
      fun j => ?_⟩
    have : ¬ (i ≤ j ∧ j < i) := by omega
    simp only [accumBytes, this, if_false]
  | succ fuel ih =>
    intro i dst touched h
    unfold accumBytes
    split
    · rename_i hlt
      obtain ⟨h1, h2, h3, h4, h5⟩ := ih (i + 1)
        (dst.store i (op (dst.load i) (src.load i))) (touched ++ [i])
        (by push_cast at h ⊢; omega)
      refine ⟨by omega, h2, Or.inr (by omega), ?_, fun j => ?_⟩
      · rw [h4, List.append_assoc, range'_snoc_step]
        congr 2
        omega
      · rw [h5 j]
        by_cases hj : i + 1 ≤ j ∧ j < (accumBytes op src length fuel (i + 1)
            (dst.store i (op (dst.load i) (src.load i))) (touched ++ [i])).1
        · rw [if_pos hj, if_pos ⟨by omega, hj.2⟩]
          have hne : ¬ j = i := by omega
          simp only [Buffer.load, Buffer.store, hne, if_false]
        · rw [if_neg hj]
          by_cases hji : j = i
          · subst hji
            rw [if_pos ⟨le_refl _, by omega⟩]
            have hb : op (dst.load j) (src.load j) < 256 :=
              hop _ _ (Nat.mod_lt _ (by decide))
            simp only [Buffer.store, if_true, Nat.mod_eq_of_lt hb]
          · rw [if_neg (by omega)]
            simp only [Buffer.store, hji, if_false]
    · rename_i hge
      refine ⟨le_refl _, hge, Or.inl rfl, by simp, fun j => ?_⟩
      have : ¬ (i ≤ j ∧ j < i) := by omega
      simp only [this, if_false]

/-- The alignment loop of a saturating SSE2 kernel: the same, and it ends on a
16-byte boundary or at the length. -/
theorem accumHead_get (op : Nat → Nat → Nat) (hop : ∀ d s, d < 256 → op d s < 256)
    (dstAddr : Nat) (src : Buffer) (length : Int) (fuel : Nat) :
    ∀ (i : Nat) (dst : Buffer) (touched : List Nat), length - (i : Int) ≤ (fuel : Int) →
      i ≤ (accumHead op dstAddr src length fuel i dst touched).1 ∧
      (is_aligned (dstAddr + (accumHead op dstAddr src length fuel i dst touched).1) 16 = true ∨
        ¬ ((accumHead op dstAddr src length fuel i dst touched).1 : Int) < length) ∧
      ((accumHead op dstAddr src length fuel i dst touched).1 = i ∨
        ((accumHead op dstAddr src length fuel i dst touched).1 : Int) ≤ length) ∧
      (accumHead op dstAddr src length fuel i dst touched).2.2 =
        touched ++ List.range' i ((accumHead op dstAddr src length fuel i dst touched).1 - i) ∧
      ∀ j : Nat, (accumHead op dstAddr src length fuel i dst touched).2.1 j =
        if i ≤ j ∧ j < (accumHead op dstAddr src length fuel i dst touched).1 then
          op (dst.load j) (src.load j)
        else dst j := by
  induction fuel with
  | zero =>
    intro i dst touched h
    refine ⟨le_refl _, Or.inr (by simp only [accumHead]; omega), Or.inl rfl,
      by simp [accumHead], fun j => ?_⟩
    have : ¬ (i ≤ j ∧ j < i) := by omega
    simp only [accumHead, this, if_false]
  | succ fuel ih =>
    intro i dst touched h
    unfold accumHead
    split
    · rename_i hg
      have hlt : (i : Int) < length := hg.2
      obtain ⟨h1, h2, h3, h4, h5⟩ := ih (i + 1)
        (dst.store i (op (dst.load i) (src.load i))) (touched ++ [i])
        (by push_cast at h ⊢; omega)
      refine ⟨by omega, h2, Or.inr (by omega), ?_, fun j => ?_⟩
      · rw [h4, List.append_assoc, range'_snoc_step]
        congr 2
        omega
      · rw [h5 j]
        by_cases hj : i + 1 ≤ j ∧ j < (accumHead op dstAddr src length fuel (i + 1)
            (dst.store i (op (dst.load i) (src.load i))) (touched ++ [i])).1
        · rw [if_pos hj, if_pos ⟨by omega, hj.2⟩]
          have hne : ¬ j = i := by omega
          simp only [Buffer.load, Buffer.store, hne, if_false]
        · rw [if_neg hj]
          by_cases hji : j = i
          · subst hji
            rw [if_pos ⟨le_refl _, by omega⟩]
            have hb : op (dst.load j) (src.load j) < 256 :=
              hop _ _ (Nat.mod_lt _ (by decide))
            simp only [Buffer.store, if_true, Nat.mod_eq_of_lt hb]
          · rw [if_neg (by omega)]
            simp only [Buffer.store, hji, if_false]
    · rename_i hg
      refine ⟨le_refl _, ?_, Or.inl rfl, by simp, fun j => ?_⟩
      · by_cases ha : is_aligned (dstAddr + i) 16 = true
        · exact Or.inl ha
        · right
          intro hlt
          exact hg ⟨by simp [ha], hlt⟩
      · have : ¬ (i ≤ j ∧ j < i) := by omega
        simp only [this, if_false]
theorem is_aligned_add_16 (addr : Nat) (h : is_aligned addr 16 = true) :
    is_aligned (addr + 16) 16 = true := by
  unfold is_aligned at *
  simp only [beq_iff_eq] at *
  omega

/-- The block loop of a saturating SSE2 kernel, entered on a 16-byte boundary
(or with its guard false): no aligned access fails, it ends at or before the
length, processes its indices in order and writes `op (dst[j]) (src[j])`
there. -/
theorem accumBlocks_get (op : Nat → Nat → Nat) (vop : M128 → M128 → M128)
    (hvop : ∀ (src dst : Buffer) (i k : Nat), k < 16 →
      (vop (_mm_loadu_si128 src i) (_mm_load_si128 dst i)).getD k 0 % 256 =
        op (dst.load (i + k)) (src.load (i + k)))
    (dstAddr : Nat) (src : Buffer) (length : Int) (fuel : Nat) :
    ∀ (i : Nat) (dst : Buffer) (touched : List Nat),
      (is_aligned (dstAddr + i) 16 = true ∨ ¬ (i : Int) < length - 15) →
      ∃ e dst' touched', accumBlocks vop dstAddr src length fuel i dst touched =
          some (e, dst', touched') ∧
        i ≤ e ∧ (e = i ∨ (e : Int) ≤ length) ∧
        touched' = touched ++ List.range' i (e - i) ∧
        ∀ j : Nat, dst' j =
          if i ≤ j ∧ j < e then op (dst.load j) (src.load j) else dst j := by
  induction fuel with
  | zero =>
    intro i dst touched _
    refine ⟨i, dst, touched, rfl, le_refl _, Or.inl rfl, by simp, fun j => ?_⟩
    have : ¬ (i ≤ j ∧ j < i) := by omega
    rw [if_neg this]
  | succ fuel ih =>
    intro i dst touched hal
    unfold accumBlocks
    by_cases hg : (i : Int) < length - 15
    · have ha : is_aligned (dstAddr + i) 16 = true := by
        rcases hal with h | h
        · exact h
        · exact absurd hg h
      rw [if_pos hg, if_pos ha]
      dsimp only
      obtain ⟨e, dst', touched', hrun, h1, h2, h3, h4⟩ := ih (i + 16)
        (_mm_store_si128 dst i (vop (_mm_loadu_si128 src i) (_mm_load_si128 dst i)))
        (touched ++ (List.range 16).map (fun k => i + k))
        (Or.inl (by
          have := is_aligned_add_16 _ ha
          rwa [Nat.add_assoc] at this))
      refine ⟨e, dst', touched', hrun, by omega, Or.inr (by omega), ?_, fun j => ?_⟩
      · rw [h3, List.append_assoc, ← List.range'_eq_map_range, List.range'_append_1]
        congr 2
        omega
      · rw [h4 j]
        by_cases hj : i + 16 ≤ j ∧ j < e
        · rw [if_pos hj, if_pos ⟨by omega, hj.2⟩]
          have hout : ¬ (i ≤ j ∧ j < i + 16) := by omega
          simp only [Buffer.load, _mm_store_si128, hout, if_false]
        · rw [if_neg hj]
          by_cases hin : i ≤ j ∧ j < i + 16
          · rw [if_pos ⟨hin.1, by omega⟩]
            have hk : j - i < 16 := by omega
            have hb := hvop src dst i (j - i) hk
            have hji : i + (j - i) = j := by omega
            rw [hji] at hb
            simp only [_mm_store_si128, hin, and_self, if_true]
            exact hb
          · rw [if_neg (by omega)]
            simp only [_mm_store_si128, hin, if_false]
    · rw [if_neg hg]
      refine ⟨i, dst, touched, rfl, le_refl _, Or.inl rfl, by simp, fun j => ?_⟩
      have : ¬ (i ≤ j ∧ j < i) := by omega
      rw [if_neg this]
theorem range'_three (h e f : Nat) (length : Int) (h1 : h ≤ e) (h2 : e ≤ f)
    (h3 : ¬ (f : Int) < length) (h4 : f = e ∨ (f : Int) ≤ length)
    (h5 : e = h ∨ (e : Int) ≤ length) (h6 : h = 0 ∨ (h : Int) ≤ length) :
    List.range' 0 (h - 0) ++ List.range' h (e - h) ++ List.range' e (f - e) =
      List.range length.toNat := by
  obtain ⟨a, rfl⟩ := Nat.exists_eq_add_of_le h1
  obtain ⟨b, rfl⟩ := Nat.exists_eq_add_of_le h2
  have e1 : h - 0 = h := by omega
  have e2 : h + a - h = a := by omega
  have e3 : h + a + b - (h + a) = b := by omega
  rw [e1, e2, e3, List.range_eq_range']
  have e4 : List.range' 0 h ++ List.range' h a = List.range' 0 (h + a) := by
    have := List.range'_append_1 0 h a
    rwa [Nat.zero_add, Nat.add_comm a h] at this
  have e5 : List.range' 0 (h + a) ++ List.range' (h + a) b = List.range' 0 (b + (h + a)) := by
    have := List.range'_append_1 0 (h + a) b
    rwa [Nat.zero_add] at this
  rw [e4, e5]
  congr 1
  omega

/-- The three loops of a saturating SSE2 kernel together: for every length
and every address of `dst` the kernel returns, has processed the indices
`0, 1, ..., length - 1` once each and in this order, has left
`op (dst[j]) (src[j])` at every index below the length, and has changed no
other cell of `dst` and nothing of `src`. -/
theorem accumSSE2_get (op : Nat → Nat → Nat) (hop : ∀ d s, d < 256 → op d s < 256)
    (vop : M128 → M128 → M128)
    (hvop : ∀ (src dst : Buffer) (i k : Nat), k < 16 →
      (vop (_mm_loadu_si128 src i) (_mm_load_si128 dst i)).getD k 0 % 256 =
        op (dst.load (i + k)) (src.load (i + k)))
    (dstAddr : Nat) (dst src : Buffer) (length : Int) :
    ∃ r, accumSSE2 op vop dstAddr dst src length = some r ∧ r.second = src ∧
      r.touched = List.range length.toNat ∧
      ∀ j : Nat, r.first j =
        if (j : Int) < length then op (dst.load j) (src.load j) else dst j := by
  obtain ⟨_, hh2, hh3, hh4, hh5⟩ :=
    accumHead_get op hop dstAddr src length length.toNat 0 dst [] (by omega)
  obtain ⟨e, dst2, t2, hrun, hb1, hb2, hb3, hb4⟩ :=
    accumBlocks_get op vop hvop dstAddr src length length.toNat
      (accumHead op dstAddr src length length.toNat 0 dst []).1
      (accumHead op dstAddr src length length.toNat 0 dst []).2.1
      (accumHead op dstAddr src length length.toNat 0 dst []).2.2
      (by rcases hh2 with h | h
          · exact Or.inl h
          · exact Or.inr (by omega))
  obtain ⟨ht1, ht2, ht3, ht4, ht5⟩ :=
    accumBytes_get op hop src length length.toNat e dst2 t2 (by omega)
  simp only [accumSSE2, hrun]
  refine ⟨_, rfl, rfl, ?_, fun j => ?_⟩
  · simp only
    rw [ht4]
    generalize (accumBytes op src length length.toNat e dst2 t2).1 = f at ht1 ht2 ht3 ⊢
    rw [hb3, hh4, List.nil_append]
    exact range'_three _ _ _ length hb1 ht1 ht2 ht3 hb2 hh3
  · simp only
    rw [ht5 j]
    generalize (accumBytes op src length length.toNat e dst2 t2).1 = f at *
    have hl2 : dst2.load j = if
        (accumHead op dstAddr src length length.toNat 0 dst []).1 ≤ j ∧ j < e then
          op ((accumHead op dstAddr src length length.toNat 0 dst []).2.1.load j) (src.load j) % 256
        else (accumHead op dstAddr src length length.toNat 0 dst []).2.1.load j := by
      unfold Buffer.load
      rw [hb4 j]
      split <;> rfl
    have hl1 : (accumHead op dstAddr src length length.toNat 0 dst []).2.1.load j =
        if 0 ≤ j ∧ j < (accumHead op dstAddr src length length.toNat 0 dst []).1 then
          op (dst.load j) (src.load j) % 256
        else dst.load j := by
      unfold Buffer.load
      rw [hh5 j]
      split <;> rfl
    rw [hl2, hb4 j, hl1, hh5 j]
    generalize (accumHead op dstAddr src length length.toNat 0 dst []).1 = h at *
    split_ifs <;> first | rfl | (exfalso; omega)
theorem adds_block_byte (src dst : Buffer) (i k : Nat) (hk : k < 16) :
    (_mm_adds_epu8 (_mm_loadu_si128 src i) (_mm_load_si128 dst i)).getD k 0 % 256 =
      addto_pixel (dst.load (i + k)) (src.load (i + k)) := by
  have hr : List.range 16 = [0, 1, 2, 3, 4, 5, 6, 7, 8, 9, 10, 11, 12, 13, 14, 15] := rfl
  have b1 : src.load (i + k) < 256 := Nat.mod_lt _ (by decide)
  have b2 : dst.load (i + k) < 256 := Nat.mod_lt _ (by decide)
  simp only [_mm_loadu_si128, _mm_load_si128, hr, List.map_cons, List.map_nil, _mm_adds_epu8,
    List.zipWith_cons_cons, List.zipWith_nil_left, addto_pixel]
  interval_cases k <;> simp only [List.getD_cons_zero, List.getD_cons_succ] <;> omega

theorem subs_block_byte (src dst : Buffer) (i k : Nat) (hk : k < 16) :
    (_mm_subs_epu8 (_mm_load_si128 dst i) (_mm_loadu_si128 src i)).getD k 0 % 256 =
      subfrom_pixel (dst.load (i + k)) (src.load (i + k)) := by
  have hr : List.range 16 = [0, 1, 2, 3, 4, 5, 6, 7, 8, 9, 10, 11, 12, 13, 14, 15] := rfl
  have b1 : src.load (i + k) < 256 := Nat.mod_lt _ (by decide)
  have b2 : dst.load (i + k) < 256 := Nat.mod_lt _ (by decide)
  simp only [_mm_loadu_si128, _mm_load_si128, hr, List.map_cons, List.map_nil, _mm_subs_epu8,
    List.zipWith_cons_cons, List.zipWith_nil_left, subfrom_pixel]
  interval_cases k <;> simp only [List.getD_cons_zero, List.getD_cons_succ] <;> omega

theorem addto_pixel_byte (d s : Nat) (_h : d < 256) : addto_pixel d s < 256 := by
  unfold addto_pixel; omega

theorem subfrom_pixel_byte (d s : Nat) (h : d < 256) : subfrom_pixel d s < 256 := by
  unfold subfrom_pixel; omega

/-- The reference kernels write their second argument: `imageFilterAddTo_Basic`
leaves `min(255, dst[j] + src[j])` and `imageFilterSubFrom_Basic` leaves
`dst[j] - src[j]`, cut off at 0, at every index below the length of its second
buffer `dst`, and nothing else changes. -/
theorem imageFilter_Basic_get (src dst : Buffer) (length : Int) :
    (imageFilterAddTo_Basic src dst length).first = src ∧
    (imageFilterAddTo_Basic src dst length).touched = List.range length.toNat ∧
    (∀ j : Nat, (imageFilterAddTo_Basic src dst length).second j =
      if (j : Int) < length then min 255 (dst.load j + src.load j) else dst j) ∧
    (imageFilterSubFrom_Basic src dst length).first = src ∧
    (imageFilterSubFrom_Basic src dst length).touched = List.range length.toNat ∧
    (∀ j : Nat, (imageFilterSubFrom_Basic src dst length).second j =
      if (j : Int) < length then dst.load j - src.load j else dst j) := by
  obtain ⟨_, a2, a3, a4, a5⟩ :=
    accumBytes_get addto_pixel addto_pixel_byte src length length.toNat 0 dst [] (by omega)
  obtain ⟨_, s2, s3, s4, s5⟩ :=
    accumBytes_get subfrom_pixel subfrom_pixel_byte src length length.toNat 0 dst [] (by omega)
  refine ⟨rfl, ?_, fun j => ?_, rfl, ?_, fun j => ?_⟩
  · simp only [imageFilterAddTo_Basic]
    rw [a4, List.nil_append, List.range_eq_range']
    congr 1
    omega
  · simp only [imageFilterAddTo_Basic]
    rw [a5 j]
    generalize (accumBytes addto_pixel src length length.toNat 0 dst []).1 = f at a2 a3 ⊢
    simp only [addto_pixel]
    split_ifs <;> first | rfl | (exfalso; omega)
  · simp only [imageFilterSubFrom_Basic]
    rw [s4, List.nil_append, List.range_eq_range']
    congr 1
    omega
  · simp only [imageFilterSubFrom_Basic]
    rw [s5 j]
    generalize (accumBytes subfrom_pixel src length length.toNat 0 dst []).1 = f at s2 s3 ⊢
    simp only [subfrom_pixel]
    split_ifs <;> first | rfl | (exfalso; omega)

/-- C11 (the failing input): two one-byte buffers holding 10 and 20, handed
to each kernel as first and second argument with length 1.  The SSE2 kernels
write the first buffer (30 for the sum, 0 for the difference) and keep the
second; the reference kernels keep the first buffer and write the second (30
for the sum, 10 for the difference). -/
theorem imageFilter_argument_order :
    (imageFilterAddTo_SSE2 0 (constBuffer 10) (constBuffer 20) 1).map
        (fun r => (r.first 0, r.second 0)) = some (30, 20) ∧
    ((imageFilterAddTo_Basic (constBuffer 10) (constBuffer 20) 1).first 0,
      (imageFilterAddTo_Basic (constBuffer 10) (constBuffer 20) 1).second 0) = (10, 30) ∧
    (imageFilterSubFrom_SSE2 0 (constBuffer 10) (constBuffer 20) 1).map
        (fun r => (r.first 0, r.second 0)) = some (0, 20) ∧
    ((imageFilterSubFrom_Basic (constBuffer 10) (constBuffer 20) 1).first 0,
      (imageFilterSubFrom_Basic (constBuffer 10) (constBuffer 20) 1).second 0) = (10, 10) := by
  decide

/-- C12: for every length, every address of the written buffer and all
contents, `imageFilterAddTo_SSE2` and `imageFilterSubFrom_SSE2` return without
a failing aligned access, process the indices `0, 1, ..., length - 1` once
each (`touched`), leave `min(255, d + s)`, respectively `max(0, d - s)`, at
every index below the length of the written buffer (`d` its old byte, `s` the
byte of the other buffer), and change no cell from the length on and nothing
of the other buffer. -/
theorem imageFilter_saturating_SSE2 (dstAddr : Nat) (dst src : Buffer) (length : Int) :
    (∃ r, imageFilterAddTo_SSE2 dstAddr dst src length = some r ∧ r.second = src ∧
      r.touched = List.range length.toNat ∧
      ∀ j : Nat, r.first j =
        if (j : Int) < length then min 255 (dst.load j + src.load j) else dst j) ∧
    (∃ r, imageFilterSubFrom_SSE2 dstAddr dst src length = some r ∧ r.second = src ∧
      r.touched = List.range length.toNat ∧
      ∀ j : Nat, (r.first j : Int) =
        if (j : Int) < length then max 0 ((dst.load j : Int) - (src.load j : Int))
        else (dst j : Int)) := by
  constructor
  · obtain ⟨r, h1, h2, h3, h4⟩ := accumSSE2_get addto_pixel addto_pixel_byte
      (fun s d => _mm_adds_epu8 s d) adds_block_byte dstAddr dst src length
    exact ⟨r, h1, h2, h3, fun j => by rw [h4 j]; rfl⟩
  · obtain ⟨r, h1, h2, h3, h4⟩ := accumSSE2_get subfrom_pixel subfrom_pixel_byte
      (fun s d => _mm_subs_epu8 d s) subs_block_byte dstAddr dst src length
    refine ⟨r, h1, h2, h3, fun j => ?_⟩
    rw [h4 j]
    unfold subfrom_pixel
    split_ifs <;> omega

/-! ## The box filter `downscale4x` -/

theorem channel_lt (k p : Nat) : channel k p < 256 := Nat.mod_lt _ (by decide)

theorem channel_three (p : Nat) (hp : p < 4294967296) : p >>> 24 = channel 3 p := by
  unfold channel
  rw [Nat.shiftRight_eq_div_pow]
  omega

theorem channel_two (p : Nat) : (p >>> 16) &&& 0xff = channel 2 p := by
  have h : (p >>> 16) &&& 0xff = (p >>> 16) % 2 ^ 8 := Nat.and_pow_two_sub_one_eq_mod _ 8
  rw [h]; rfl

theorem channel_one (p : Nat) : (p >>> 8) &&& 0xff = channel 1 p := by
  have h : (p >>> 8) &&& 0xff = (p >>> 8) % 2 ^ 8 := Nat.and_pow_two_sub_one_eq_mod _ 8
  rw [h]; rfl

theorem channel_zero (p : Nat) : p &&& 0xff = channel 0 p := by
  have h : p &&& 0xff = p % 2 ^ 8 := Nat.and_pow_two_sub_one_eq_mod _ 8
  rw [h]; rfl

theorem channel_sum_le (k : Nat) (l : List Nat) : (l.map (channel k)).sum ≤ 255 * l.length := by
  induction l with
  | nil => simp
  | cons p rest ih =>
    have := channel_lt k p
    simp only [List.map_cons, List.sum_cons, List.length_cons]
    omega

/-- The running sums after a list of pixels: every sum is the sum of its own
channel, as long as it stays inside a `Uint32`. -/
theorem AddPx_foldl (l : List Nat) :
    ∀ s : ChannelSums, (∀ p ∈ l, p < 4294967296) →
      s.a + 255 * l.length < 4294967296 → s.b + 255 * l.length < 4294967296 →
      s.c + 255 * l.length < 4294967296 → s.d + 255 * l.length < 4294967296 →
      (l.foldl AddPx s).a = s.a + (l.map (channel 3)).sum ∧
      (l.foldl AddPx s).b = s.b + (l.map (channel 2)).sum ∧
      (l.foldl AddPx s).c = s.c + (l.map (channel 1)).sum ∧
      (l.foldl AddPx s).d = s.d + (l.map (channel 0)).sum := by
  induction l with
  | nil => intro s _ _ _ _ _; simp
  | cons p rest ih =>
    intro s hp ha hb hc hd
    have hp0 : p < 4294967296 := hp p (List.mem_cons_self _ _)
    have h3 := channel_lt 3 p
    have h2 := channel_lt 2 p
    have h1 := channel_lt 1 p
    have h0 := channel_lt 0 p
    simp only [List.length_cons] at ha hb hc hd
    have ea : (AddPx s p).a = s.a + channel 3 p := by
      simp only [AddPx, channel_three p hp0, u32]; omega
    have eb : (AddPx s p).b = s.b + channel 2 p := by
      simp only [AddPx, channel_two, u32]; omega
    have ec : (AddPx s p).c = s.c + channel 1 p := by
      simp only [AddPx, channel_one, u32]; omega
    have ed : (AddPx s p).d = s.d + channel 0 p := by
      simp only [AddPx, channel_zero, u32]; omega
    obtain ⟨i1, i2, i3, i4⟩ := ih (AddPx s p) (fun q hq => hp q (List.mem_cons_of_mem _ hq))
      (by rw [ea]; omega) (by rw [eb]; omega) (by rw [ec]; omega) (by rw [ed]; omega)
    simp only [List.foldl_cons, List.map_cons, List.sum_cons]
    rw [i1, i2, i3, i4, ea, eb, ec, ed]
    omega

/-- The packed pixel holds the four sums, divided by 16, each in its own
channel. -/
theorem packPx_channels (s : ChannelSums) (ha : s.a < 4096) (hb : s.b < 4096)
    (hc : s.c < 4096) (hd : s.d < 4096) :
    channel 3 (packPx s) = s.a / 16 ∧ channel 2 (packPx s) = s.b / 16 ∧
    channel 1 (packPx s) = s.c / 16 ∧ channel 0 (packPx s) = s.d / 16 := by
  have e : packPx s =
      2 ^ 24 * (s.a / 16) + 2 ^ 16 * (s.b / 16) + 2 ^ 8 * (s.c / 16) + s.d / 16 := by
    unfold packPx u32
    simp only [Nat.shiftRight_eq_div_pow, Nat.shiftLeft_eq]
    have e1 : s.a / 2 ^ 4 * 2 ^ 24 % 4294967296 = 2 ^ 24 * (s.a / 16) := by omega
    have e2 : s.b / 2 ^ 4 * 2 ^ 16 % 4294967296 = 2 ^ 16 * (s.b / 16) := by omega
    have e3 : s.c / 2 ^ 4 * 2 ^ 8 % 4294967296 = 2 ^ 8 * (s.c / 16) := by omega
    have e4 : s.d / 2 ^ 4 = s.d / 16 := by omega
    rw [e1, e2, e3, e4]
    rw [← Nat.mul_add_lt_is_or (by omega) (s.a / 16)]
    have f1 : 2 ^ 24 * (s.a / 16) + 2 ^ 16 * (s.b / 16) =
        2 ^ 16 * (2 ^ 8 * (s.a / 16) + s.b / 16) := by omega
    rw [f1, ← Nat.mul_add_lt_is_or (by omega)]
    have f2 : 2 ^ 16 * (2 ^ 8 * (s.a / 16) + s.b / 16) + 2 ^ 8 * (s.c / 16) =
        2 ^ 8 * (2 ^ 8 * (2 ^ 8 * (s.a / 16) + s.b / 16) + s.c / 16) := by omega
    rw [f2, ← Nat.mul_add_lt_is_or (by omega)]
  rw [e]
  unfold channel
  simp only [Nat.shiftRight_eq_div_pow]
  refine ⟨?_, ?_, ?_, ?_⟩ <;> omega

theorem channel_u32 (k v : Nat) (hk : k < 4) : channel k (u32 v) = channel k v := by
  unfold channel u32
  rw [Nat.shiftRight_eq_div_pow, Nat.shiftRight_eq_div_pow]
  have : k = 0 ∨ k = 1 ∨ k = 2 ∨ k = 3 := by omega
  rcases this with h | h | h | h <;> subst h <;> simp only [Nat.reducePow, Nat.reduceMul] <;> omega

/-- One output pixel of `downscale4x`: every channel is the sum of that
channel over the 16 words of the block, divided by 16. -/
theorem downscalePixel_channel (src : Int → Nat) (sp base : Int) (k : Nat) (hk : k < 4) :
    channel k (downscalePixel src sp base) =
      ((blockWords src sp base).map (channel k)).sum / 16 := by
  have hw : ∀ q ∈ blockWords src sp base, q < 4294967296 := by
    intro q hq
    simp only [blockWords, List.mem_cons, List.mem_singleton, List.not_mem_nil, or_false] at hq
    rcases hq with h | h | h | h | h | h | h | h | h | h | h | h | h | h | h | h <;>
      (rw [h]; exact Nat.mod_lt _ (by decide))
  have hlen : (blockWords src sp base).length = 16 := rfl
  unfold downscalePixel
  generalize blockWords src sp base = l at hw hlen
  match l, hlen with
  | p :: rest, hlen =>
    have hr : rest.length = 15 := by simpa using hlen
    have hp : p < 4294967296 := hw p (List.mem_cons_self _ _)
    have c3 := channel_lt 3 p
    have c2 := channel_lt 2 p
    have c1 := channel_lt 1 p
    have c0 := channel_lt 0 p
    have fa : (firstPx p).a = channel 3 p := channel_three p hp
    have fb : (firstPx p).b = channel 2 p := channel_two p
    have fc : (firstPx p).c = channel 1 p := channel_one p
    have fd : (firstPx p).d = channel 0 p := channel_zero p
    obtain ⟨s3, s2, s1, s0⟩ := AddPx_foldl rest (firstPx p)
      (fun q hq => hw q (List.mem_cons_of_mem _ hq))
      (by rw [fa, hr]; omega) (by rw [fb, hr]; omega) (by rw [fc, hr]; omega)
      (by rw [fd, hr]; omega)
    have b3 := channel_sum_le 3 rest
    have b2 := channel_sum_le 2 rest
    have b1 := channel_sum_le 1 rest
    have b0 := channel_sum_le 0 rest
    rw [hr] at b3 b2 b1 b0
    obtain ⟨p3, p2, p1, p0⟩ := packPx_channels (rest.foldl AddPx (firstPx p))
      (by rw [s3, fa]; omega) (by rw [s2, fb]; omega) (by rw [s1, fc]; omega)
      (by rw [s0, fd]; omega)
    simp only [List.map_cons, List.sum_cons]
    have : k = 0 ∨ k = 1 ∨ k = 2 ∨ k = 3 := by omega
    rcases this with h | h | h | h <;> subst h
    · rw [p0, s0, fd]
    · rw [p1, s1, fc]
    · rw [p2, s2, fb]
    · rw [p3, s3, fa]

theorem downscaleRow_frame (src : Int → Nat) (sp : Int) :
    ∀ (cols : Nat) (srcOff dstOff : Int) (dst : Int → Nat) (o : Int),
      (∀ c : Nat, c < cols → o ≠ dstOff + 4 * c) →
      downscaleRow src sp cols srcOff dstOff dst o = dst o := by
  intro cols
  induction cols with
  | zero => intro _ _ _ _ _; rfl
  | succ n ih =>
    intro srcOff dstOff dst o h
    rw [downscaleRow, ih]
    · have h0 := h 0 (by omega)
      rw [if_neg (by simpa using h0)]
    · intro c hc e
      exact h (c + 1) (by omega) (by push_cast; omega)

theorem downscaleRow_get (src : Int → Nat) (sp : Int) :
    ∀ (cols : Nat) (srcOff dstOff : Int) (dst : Int → Nat) (c : Nat), c < cols →
      downscaleRow src sp cols srcOff dstOff dst (dstOff + 4 * c) =
        downscalePixel src sp (srcOff + 16 * c) := by
  intro cols
  induction cols with
  | zero => intro _ _ _ c hc; omega
  | succ n ih =>
    intro srcOff dstOff dst c hc
    rw [downscaleRow]
    cases c with
    | zero =>
      rw [downscaleRow_frame]
      · simp
      · intro c _; push_cast; omega
    | succ c =>
      have e1 : dstOff + 4 * ((c + 1 : Nat) : Int) = dstOff + 4 + 4 * (c : Int) := by
        push_cast; omega
      have e2 : srcOff + 16 * ((c + 1 : Nat) : Int) = srcOff + 16 + 16 * (c : Int) := by
        push_cast; omega
      rw [e1, e2]
      exact ih _ _ _ c (by omega)

theorem downscaleRows_frame (src : Int → Nat) (sp dp : Int) (cols : Nat) :
    ∀ (rows : Nat) (src_scan dst_scan : Int) (dst : Int → Nat) (o : Int),
      (∀ r c : Nat, r < rows → c < cols → o ≠ dst_scan + dp * r + 4 * c) →
      downscaleRows src sp dp cols rows src_scan dst_scan dst o = dst o := by
  intro rows
  induction rows with
  | zero => intro _ _ _ _ _; rfl
  | succ n ih =>
    intro src_scan dst_scan dst o h
    rw [downscaleRows, ih, downscaleRow_frame]
    · intro c hc e
      exact h 0 c (by omega) hc (by simpa using e)
    · intro r c hr hc e
      have e1 : dp * ((r + 1 : Nat) : Int) = dp * r + dp := by push_cast; ring
      exact h (r + 1) c (by omega) hc (by rw [e1]; omega)

theorem downscaleRows_get (src : Int → Nat) (sp dp : Int) (cols : Nat)
    (hfit : 4 * (cols : Int) ≤ dp) :
    ∀ (rows : Nat) (src_scan dst_scan : Int) (dst : Int → Nat) (r c : Nat),
      r < rows → c < cols →
      downscaleRows src sp dp cols rows src_scan dst_scan dst (dst_scan + dp * r + 4 * c) =
        downscalePixel src sp (src_scan + sp * 4 * r + 16 * c) := by
  intro rows
  induction rows with
  | zero => intro _ _ _ r _ hr; omega
  | succ n ih =>
    intro src_scan dst_scan dst r c hr hc
    rw [downscaleRows]
    cases r with
    | zero =>
      rw [downscaleRows_frame]
      · simp only [Nat.cast_zero, mul_zero, add_zero]
        exact downscaleRow_get src sp cols _ _ _ c hc
      · intro r2 c2 _ hc2
        have : 0 ≤ dp * (r2 : Int) := mul_nonneg (by omega) (by omega)
        simp only [Nat.cast_zero, mul_zero, add_zero]
        omega
    | succ r =>
      have e1 : dst_scan + dp * ((r + 1 : Nat) : Int) + 4 * (c : Int) =
          dst_scan + dp + dp * r + 4 * c := by push_cast; ring
      have e2 : src_scan + sp * 4 * ((r + 1 : Nat) : Int) + 16 * (c : Int) =
          src_scan + sp * 4 + sp * 4 * r + 16 * c := by push_cast; ring
      rw [e1, e2]
      exact ih _ _ _ r c (by omega) hc

theorem toNat_tdiv4 (w : Int) : (((w.tdiv 4).toNat : Nat) : Int) = max 0 (w / 4) := by
  by_cases h : 0 ≤ w
  · rw [Int.tdiv_eq_ediv h (by decide)]
    omega
  · have h1 : 0 ≤ (-w).tdiv 4 := Int.tdiv_nonneg (by omega) (by decide)
    rw [Int.neg_tdiv] at h1
    omega

/-- The words of a block are the 16 pixels of the 4x4 source block. -/
theorem blockWords_boxSum (src : Surface32) (x y : Int) (k : Nat) :
    ((blockWords src.mem src.pitch (y * src.pitch + x * 4)).map (channel k)).sum =
      boxSum src x y k := by
  simp only [boxSum, blockWords, Surface32.pixel, List.range, List.range.loop, List.map_cons,
    List.map_nil, List.sum_cons, List.sum_nil]
  ring_nf

/-- C13: `downscale4x` leaves the size and pitch of the destination alone and
writes a region of `floor(w/4)` by `floor(h/4)` pixels; each of the four 8-bit
channels of an output pixel is the sum of that channel over the 16 pixels of
its 4x4 source block, divided by 16 and rounded down (no sum carries into
another channel), and every destination word outside the region is unchanged.
The output row is taken to fit in the destination pitch. -/
theorem downscale4x_box_filter (src : Surface32) (srcpos : Option SDL_Rect) (dst : Surface32)
    (dstpos : Option SDL_Rect)
    (hfit : 4 * ((downscaleSrcRect src srcpos).w / 4) ≤ dst.pitch) :
    ((downscale4x src srcpos dst dstpos).w = dst.w ∧
      (downscale4x src srcpos dst dstpos).h = dst.h ∧
      (downscale4x src srcpos dst dstpos).pitch = dst.pitch) ∧
    (∀ r c : Int, 0 ≤ r → r < (downscaleSrcRect src srcpos).h / 4 →
      0 ≤ c → c < (downscaleSrcRect src srcpos).w / 4 → ∀ k : Nat, k < 4 →
      channel k ((downscale4x src srcpos dst dstpos).pixel
          ((downscaleDstCorner dstpos).1 + c) ((downscaleDstCorner dstpos).2 + r)) =
        boxSum src ((downscaleSrcRect src srcpos).x + 4 * c)
          ((downscaleSrcRect src srcpos).y + 4 * r) k / 16) ∧
    (∀ o : Int,
      (∀ r c : Int, 0 ≤ r → r < (downscaleSrcRect src srcpos).h / 4 →
        0 ≤ c → c < (downscaleSrcRect src srcpos).w / 4 →
        o ≠ ((downscaleDstCorner dstpos).2 + r) * dst.pitch +
          ((downscaleDstCorner dstpos).1 + c) * 4) →
      (downscale4x src srcpos dst dstpos).mem o = dst.mem o) := by
  generalize hsr : downscaleSrcRect src srcpos = sr at hfit
  generalize hco : downscaleDstCorner dstpos = corner
  have hw := toNat_tdiv4 sr.w
  have hh := toNat_tdiv4 sr.h
  refine ⟨⟨rfl, rfl, rfl⟩, ?_, ?_⟩
  · intro r c hr0 hr hc0 hc k hk
    obtain ⟨rn, rfl⟩ := Int.eq_ofNat_of_zero_le hr0
    obtain ⟨cn, rfl⟩ := Int.eq_ofNat_of_zero_le hc0
    have hcols : 4 * (((sr.w.tdiv 4).toNat : Nat) : Int) ≤ dst.pitch := by omega
    have key := downscaleRows_get src.mem src.pitch dst.pitch (sr.w.tdiv 4).toNat hcols
      (sr.h.tdiv 4).toNat (sr.y * src.pitch + sr.x * 4) (corner.2 * dst.pitch + corner.1 * 4)
      dst.mem rn cn (by omega) (by omega)
    have ea : (corner.2 + (rn : Int)) * dst.pitch + (corner.1 + (cn : Int)) * 4 =
        corner.2 * dst.pitch + corner.1 * 4 + dst.pitch * rn + 4 * cn := by ring
    have eb : sr.y * src.pitch + sr.x * 4 + src.pitch * 4 * (rn : Int) + 16 * (cn : Int) =
        (sr.y + 4 * rn) * src.pitch + (sr.x + 4 * cn) * 4 := by ring
    simp only [Surface32.pixel, downscale4x, hsr, hco]
    rw [channel_u32 _ _ hk, ea, key, downscalePixel_channel _ _ _ _ hk, eb, blockWords_boxSum]
  · intro o ho
    simp only [downscale4x, hsr, hco]
    apply downscaleRows_frame
    intro r c hr hc e
    refine ho r c (by omega) (by omega) (by omega) (by omega) ?_
    rw [e]; ring

theorem downscale4x_box_filter_witness :
    4 * ((downscaleSrcRect ⟨4, 4, 16, fun o => (o.toNat * 2654435761) % 4294967296⟩ none).w / 4)
      ≤ (4 : Int) ∧
    channel 2 ((downscale4x ⟨4, 4, 16, fun o => (o.toNat * 2654435761) % 4294967296⟩ none
      ⟨1, 1, 4, fun _ => 0⟩ none).pixel 0 0) = 111 := by
  refine ⟨by decide, ?_⟩
  have h := (downscale4x_box_filter ⟨4, 4, 16, fun o => (o.toNat * 2654435761) % 4294967296⟩
    none ⟨1, 1, 4, fun _ => 0⟩ none (by decide)).2.1 0 0 (by decide) (by decide) (by decide)
    (by decide) 2 (by decide)
  exact h.trans (by decide)

/-! ## The sprite descriptor reader `parseTaggedString` -/

/-- The fields that the block `if (buffer[0] == ':')` never writes. -/
theorem parseStringSprite_frame (env : ParseEnv) (m : Int) (a : TaggedAnimation)
    (b : List Char) :
    (parseStringSprite env m a b).1.current_cell = a.current_cell ∧
    (parseStringSprite env m a b).1.duration_list = a.duration_list ∧
    (parseStringSprite env m a b).1.loop_mode = a.loop_mode ∧
    (parseStringSprite env m a b).1.is_animatable = a.is_animatable ∧
    (parseStringSprite env m a b).1.file_name = a.file_name := by
  unfold parseStringSprite
  dsimp only
  split_ifs <;> exact ⟨rfl, rfl, rfl, rfl, rfl⟩

theorem prefixTwox_frame (p : TaggedAnimation × List Char) :
    (prefixTwox p).1.current_cell = p.1.current_cell ∧
    (prefixTwox p).1.duration_list = p.1.duration_list ∧
    (prefixTwox p).1.loop_mode = p.1.loop_mode ∧
    (prefixTwox p).1.is_animatable = p.1.is_animatable ∧
    (prefixTwox p).1.file_name = p.1.file_name := by
  unfold prefixTwox
  split_ifs <;> exact ⟨rfl, rfl, rfl, rfl, rfl⟩

theorem prefixFlipped_frame (p : TaggedAnimation × List Char) :
    (prefixFlipped p).1.current_cell = p.1.current_cell ∧
    (prefixFlipped p).1.duration_list = p.1.duration_list ∧
    (prefixFlipped p).1.loop_mode = p.1.loop_mode ∧
    (prefixFlipped p).1.is_animatable = p.1.is_animatable ∧
    (prefixFlipped p).1.file_name = p.1.file_name := by
  unfold prefixFlipped
  split_ifs <;> exact ⟨rfl, rfl, rfl, rfl, rfl⟩

theorem prefixMode_frame (env : ParseEnv) (m : Int) (p : TaggedAnimation × List Char) :
    (prefixMode env m p).1.current_cell = p.1.current_cell ∧
    (prefixMode env m p).1.duration_list = p.1.duration_list ∧
    (prefixMode env m p).1.loop_mode = p.1.loop_mode ∧
    (prefixMode env m p).1.is_animatable = p.1.is_animatable ∧
    (prefixMode env m p).1.file_name = p.1.file_name := by
  unfold prefixMode
  split_ifs <;>
    first
    | exact ⟨rfl, rfl, rfl, rfl, rfl⟩
    | exact parseStringSprite_frame env m p.1 p.2

theorem prefixSkip_frame (p : TaggedAnimation × List Char) :
    (prefixSkip p).1 = p.1 := by
  unfold prefixSkip
  split_ifs <;> rfl

theorem parsePrefix_frame (env : ParseEnv) (m : Int) (a : TaggedAnimation) (b : List Char) :
    (parsePrefix env m a b).1.current_cell = a.current_cell ∧
    (parsePrefix env m a b).1.duration_list = a.duration_list ∧
    (parsePrefix env m a b).1.loop_mode = a.loop_mode ∧
    (parsePrefix env m a b).1.is_animatable = a.is_animatable ∧
    (parsePrefix env m a b).1.file_name = a.file_name := by
  unfold parsePrefix
  rw [prefixSkip_frame]
  obtain ⟨a1, a2, a3, a4, a5⟩ := prefixMode_frame env m
    (prefixFlipped (prefixTwox (a, skipSpaces b.tail)))
  obtain ⟨b1, b2, b3, b4, b5⟩ := prefixFlipped_frame (prefixTwox (a, skipSpaces b.tail))
  obtain ⟨c1, c2, c3, c4, c5⟩ := prefixTwox_frame (a, skipSpaces b.tail)
  exact ⟨a1.trans (b1.trans c1), a2.trans (b2.trans c2), a3.trans (b3.trans c3),
    a4.trans (b4.trans c4), a5.trans (b5.trans c5)⟩

/-- At the test `buffer[0] == '/'` the current cell is 0 and the durations,
the loop mode, the animatable flag and the file name are those that
`removeTag` left. -/
theorem parseHead_frame (env : ParseEnv) (anim a : TaggedAnimation) (is_mask : Bool)
    (buffer : List Char) (h : parseHead env anim is_mask = .ok (a, buffer)) :
    a.current_cell = 0 ∧
    a.duration_list = (env.removeTag anim).duration_list ∧
    a.loop_mode = (env.removeTag anim).loop_mode ∧
    a.is_animatable = (env.removeTag anim).is_animatable ∧
    a.file_name = (env.removeTag anim).file_name := by
  unfold parseHead at h
  dsimp only at h
  split at h
  · cases h
  · split_ifs at h <;> injection h with h <;> first
      | (obtain ⟨f1, f2, f3, f4, f5⟩ := parsePrefix_frame env _ _ _
         rw [h] at f1 f2 f3 f4 f5
         exact ⟨f1, f2, f3, f4, f5⟩)
      | (injection h with h1 h2
         subst h1
         exact ⟨rfl, rfl, rfl, rfl, rfl⟩)

/-- C14 (the counterexample): with a `removeTag` that changes nothing, a
sprite with 3 cells, showing cell 2 in copy mode, is given the descriptor
`:a/0,100,0;img.png`; the call prints the diagnostic and returns with
`num_of_cells = 0`, `current_cell = 0` and the alpha mode. -/
theorem parseTaggedString_zero_cells_counterexample :
    ((exampleSprite ":a/0,100,0;img.png").num_of_cells,
      (exampleSprite ":a/0,100,0;img.png").current_cell,
      (exampleSprite ":a/0,100,0;img.png").trans_mode) = (3, 2, TransMode.TRANS_COPY) ∧
    (parseTaggedString exampleParseEnv (exampleSprite ":a/0,100,0;img.png") false).toOption.map
      (fun r => (r.1.num_of_cells, r.1.current_cell, r.1.trans_mode, r.2)) =
      some (0, 0, TransMode.TRANS_ALPHA, [zeroCellsMessage]) := by
  decide

/-- C14 (amended): when the cell count read after the slash is 0,
`parseTaggedString` prints the diagnostic and returns at once; the sprite
then has `num_of_cells = 0` and `current_cell = 0`, the compositing mode and
the flags read so far, and the durations, loop mode, animatable flag and
file name that `removeTag` left. -/
theorem parseTaggedString_zero_cells (env : ParseEnv) (anim a : TaggedAnimation)
    (is_mask : Bool) (buffer : List Char)
    (hname : anim.image_name ≠ none)
    (hhead : parseHead env anim is_mask = .ok (a, buffer))
    (hslash : charAt buffer 0 = '/')
    (hzero : (env.getNumberFromBuffer buffer.tail).1 = 0) :
    parseTaggedString env anim is_mask =
      .ok ({ a with num_of_cells := 0 }, [zeroCellsMessage]) ∧
    a.current_cell = 0 ∧
    a.duration_list = (env.removeTag anim).duration_list ∧
    a.loop_mode = (env.removeTag anim).loop_mode ∧
    a.is_animatable = (env.removeTag anim).is_animatable ∧
    a.file_name = (env.removeTag anim).file_name := by
  refine ⟨?_, parseHead_frame env anim a is_mask buffer hhead⟩
  unfold parseTaggedString
  split
  · rename_i hn; exact absurd hn hname
  · simp only [hhead, hslash, if_true, parseCells, hzero]

theorem parseTaggedString_zero_cells_witness :
    parseTaggedString exampleParseEnv (exampleSprite ": bc/0,100,0;img.png") false =
      .ok ({ exampleSprite ": bc/0,100,0;img.png" with
              num_of_cells := 0, current_cell := 0, twox := true },
            [zeroCellsMessage]) :=
  (parseTaggedString_zero_cells exampleParseEnv (exampleSprite ": bc/0,100,0;img.png")
    { exampleSprite ": bc/0,100,0;img.png" with num_of_cells := 1, current_cell := 0, twox := true }
    false "/0,100,0;img.png".toList (by decide) rfl (by decide) (by decide)).1

/-! ## Transition engine: steps under skip input -/

theorem sineQuake_ok (env : StepEnv) (s : Engine) (effect : Effect) (counter resolution : Int)
    (vertical : Bool) (h2 : s.screen_ratio2 ≠ 0) (hno : effect.no ≠ 0) :
    ∃ calls, sineQuake env s effect counter resolution vertical =
      .ok (calls, if resolution > (effect.duration.tdiv 4).tdiv effect.no
        then (effect.duration.tdiv 4).tdiv effect.no else resolution) := by
  simp only [sineQuake, EFFECT_QUAKE_AMP, cdiv_ok _ _ h2, cdiv_ok _ _ hno, bind, Except.bind]
  cases vertical
  · exact ⟨_, rfl⟩
  · exact ⟨_, rfl⟩

/-- The switch returns for every effect number when the divisors are not 0
and the sinusoidal quakes have an intensity other than 0; the timer
resolution is kept, or lowered to `duration / 4 / no` by a quake. -/
theorem effectSwitch_returns (env : StepEnv) (s : Engine) (effect : Effect)
    (counter resolution n : Int) (first_time : Bool)
    (hd : DivisorsOk s effect) (hno : NotSineQuake s n ∨ effect.no ≠ 0) :
    ∃ calls r, effectSwitch env s effect counter resolution n first_time = .ok (calls, r) ∧
      (r = resolution ∨
        r = (if resolution > (effect.duration.tdiv 4).tdiv effect.no
          then (effect.duration.tdiv 4).tdiv effect.no else resolution)) := by
  obtain ⟨cf, hcf⟩ := crossFade_ok s effect counter hd
  unfold effectSwitch
  by_cases c0 : n = 0 ∨ n = 1
  · rw [if_pos c0]; exact ⟨_, _, rfl, Or.inl rfl⟩
  rw [if_neg c0]
  by_cases c1 : n = 2
  · rw [if_pos c1]
    obtain ⟨cs, h⟩ := keepResolution_ok resolution _ (shutter_ok s effect counter _ _ hd)
    exact ⟨cs, _, h, Or.inl rfl⟩
  rw [if_neg c1]
  by_cases c2 : n = 3
  · rw [if_pos c2]
    obtain ⟨cs, h⟩ := keepResolution_ok resolution _ (shutter_ok s effect counter _ _ hd)
    exact ⟨cs, _, h, Or.inl rfl⟩
  rw [if_neg c2]
  by_cases c3 : n = 4
  · rw [if_pos c3]
    obtain ⟨cs, h⟩ := keepResolution_ok resolution _ (shutter_ok s effect counter _ _ hd)
    exact ⟨cs, _, h, Or.inl rfl⟩
  rw [if_neg c3]
  by_cases c4 : n = 5
  · rw [if_pos c4]
    obtain ⟨cs, h⟩ := keepResolution_ok resolution _ (shutter_ok s effect counter _ _ hd)
    exact ⟨cs, _, h, Or.inl rfl⟩
  rw [if_neg c4]
  by_cases c5 : n = 6
  · rw [if_pos c5]
    obtain ⟨cs, h⟩ := keepResolution_ok resolution _ (curtain_ok s effect counter _ _ hd)
    exact ⟨cs, _, h, Or.inl rfl⟩
  rw [if_neg c5]
  by_cases c6 : n = 7
  · rw [if_pos c6]
    obtain ⟨cs, h⟩ := keepResolution_ok resolution _ (curtain_ok s effect counter _ _ hd)
    exact ⟨cs, _, h, Or.inl rfl⟩
  rw [if_neg c6]
  by_cases c7 : n = 8
  · rw [if_pos c7]
    obtain ⟨cs, h⟩ := keepResolution_ok resolution _ (curtain_ok s effect counter _ _ hd)
    exact ⟨cs, _, h, Or.inl rfl⟩
  rw [if_neg c7]
  by_cases c8 : n = 9
  · rw [if_pos c8]
    obtain ⟨cs, h⟩ := keepResolution_ok resolution _ (curtain_ok s effect counter _ _ hd)
    exact ⟨cs, _, h, Or.inl rfl⟩
  rw [if_neg c8]
  by_cases c9 : n = 10
  · rw [if_pos c9]
    obtain ⟨cs, h⟩ := keepResolution_ok resolution _ (crossFade_ok s effect counter hd)
    exact ⟨cs, _, h, Or.inl rfl⟩
  rw [if_neg c9]
  by_cases c10 : 11 ≤ n ∧ n ≤ 14
  · rw [if_pos c10]
    obtain ⟨cs, h⟩ := keepResolution_ok resolution _ (scroll_ok s effect counter _ hd)
    exact ⟨cs, _, h, Or.inl rfl⟩
  rw [if_neg c10]
  by_cases c11 : n = 15
  · rw [if_pos c11]
    obtain ⟨cs, h⟩ := keepResolution_ok resolution _ (maskFade_ok s effect counter _ hd)
    exact ⟨cs, _, h, Or.inl rfl⟩
  rw [if_neg c11]
  by_cases c12 : n = 16
  · rw [if_pos c12]
    obtain ⟨cs, h⟩ := keepResolution_ok resolution _ (mosaic_ok s effect counter _ hd)
    exact ⟨cs, _, h, Or.inl rfl⟩
  rw [if_neg c12]
  by_cases c13 : n = 17
  · rw [if_pos c13]
    obtain ⟨cs, h⟩ := keepResolution_ok resolution _ (mosaic_ok s effect counter _ hd)
    exact ⟨cs, _, h, Or.inl rfl⟩
  rw [if_neg c13]
  by_cases c14 : n = 18
  · rw [if_pos c14]
    obtain ⟨cs, h⟩ := keepResolution_ok resolution _ (maskFade_ok s effect counter _ hd)
    exact ⟨cs, _, h, Or.inl rfl⟩
  rw [if_neg c14]
  by_cases c15 : n = 99
  · rw [if_pos c15]
    obtain ⟨cs, h⟩ := dllEffect_ok s effect counter resolution n first_time hd
    exact ⟨cs, _, h, Or.inl rfl⟩
  rw [if_neg c15]
  by_cases q0 : n = s.CUSTOM_EFFECT_NO + 0
  · rw [if_pos q0]
    have hn : effect.no ≠ 0 := hno.resolve_left (fun hq => hq.1 q0)
    obtain ⟨cs, h⟩ := sineQuake_ok env s effect counter resolution true hd.1 hn
    exact ⟨cs, _, h, Or.inr rfl⟩
  rw [if_neg q0]
  by_cases q1 : n = s.CUSTOM_EFFECT_NO + 1
  · rw [if_pos q1]
    have hn : effect.no ≠ 0 := hno.resolve_left (fun hq => hq.2 q1)
    obtain ⟨cs, h⟩ := sineQuake_ok env s effect counter resolution false hd.1 hn
    exact ⟨cs, _, h, Or.inr rfl⟩
  rw [if_neg q1]
  by_cases cq : n = s.CUSTOM_EFFECT_NO + 2
  · rw [if_pos cq]; exact ⟨_, _, rfl, Or.inl rfl⟩
  rw [if_neg cq]
  obtain ⟨cs, h⟩ := keepResolution_ok resolution
    ((crossFade s counter effect.duration).map (fun cs =>
      warnOnce first_time (.printf_not_implemented n) ++ cs)) ⟨_, by rw [hcf]; rfl⟩
  exact ⟨cs, _, h, Or.inl rfl⟩

/-- C15: when `ctrl_pressed_status` or `skip_to_wait` is set, a `doEffect`
step that finds a non-negative number of elapsed ticks completes, whatever
the effect number and the duration: it returns `RET_CONTINUE`, sets
`event_mode` to idle and hands the request back as it was.  The screen
divisors are taken to be different from 0, and so is the intensity `no` of a
sinusoidal quake. -/
theorem doEffect_skip_completes (env : StepEnv) (s : Engine) (effect : Effect) (cdr : Bool)
    (hskip : s.ctrl_pressed_status = true ∨ s.skip_to_wait = true)
    (ht : 0 ≤ env.ticks - s.effect_start_time_old)
    (hd : DivisorsOk s { effect with duration := 1 })
    (hno : NotSineQuake s (effectNo s effect) ∨ effect.no ≠ 0) :
    ∃ s', doEffect env s effect cdr = .ok (.RET_CONTINUE, s', effect) ∧
      s'.event_mode = .IDLE_EVENT_MODE := by
  have hk : (s.ctrl_pressed_status || s.skip_to_wait) = true := by
    rcases hskip with h | h <;> simp [h]
  obtain ⟨calls, r, hsw, hr⟩ := effectSwitch_returns env s { effect with duration := 1 } 1
    (env.ticks - s.effect_start_time_old) (effectNo s effect) (decide (s.effect_counter = 0))
    hd hno
  have hr0 : 0 ≤ r := by
    rcases hr with h | h
    · rw [h]; exact ht
    · rw [h]
      have hz : ((1 : Int).tdiv 4).tdiv effect.no = 0 := by
        have : (1 : Int).tdiv 4 = 0 := by decide
        rw [this, Int.zero_tdiv]
      show 0 ≤ (if env.ticks - s.effect_start_time_old > ((1 : Int).tdiv 4).tdiv effect.no
        then ((1 : Int).tdiv 4).tdiv effect.no else env.ticks - s.effect_start_time_old)
      rw [hz]
      split_ifs <;> omega
  have hnot : ¬ ((1 : Int) + r < 1 ∧ effectNo s effect ≠ 1) := fun h => by omega
  unfold effectNo at hsw hnot
  have hnot1 : ¬ ((1 : Int) + r < 1 ∧
      ¬ (if (s.effect_cut_flag && s.skip_flag) = true then (1 : Int) else effect.effect) = 1) :=
    hnot
  simp only [doEffect, hk, if_true, hsw, hnot1, if_false]
  exact ⟨_, rfl, rfl⟩

theorem doEffect_skip_completes_witness :
    ∃ s', doEffect (clockEnv 10) skipEngine (request 10 100) false =
        .ok (.RET_CONTINUE, s', request 10 100) ∧ s'.event_mode = .IDLE_EVENT_MODE :=
  doEffect_skip_completes (clockEnv 10) skipEngine (request 10 100) false
    (Or.inl rfl) (by decide) (by decide) (Or.inl (by decide))

/-- C16: whatever a `doEffect` step returns, on the waiting path and on the
completing path, with or without skip input, the request it hands back is
the request it was given: `effect.duration` has its value from before the
call. -/
theorem doEffect_restores_duration (env : StepEnv) (s : Engine) (effect : Effect) (cdr : Bool)
    (r : RetCode) (s' : Engine) (effect' : Effect)
    (h : doEffect env s effect cdr = .ok (r, s', effect')) :
    effect'.duration = effect.duration ∧ effect' = effect := by
  unfold doEffect at h
  dsimp only at h
  split at h
  · cases h
  · split_ifs at h <;> injection h with h <;> injection h with _ h <;> injection h with _ h <;>
      subst h <;> exact ⟨rfl, rfl⟩

theorem doEffect_restores_duration_witness :
    ∃ r s' effect', doEffect (clockEnv 10) skipEngine (request 10 100) false =
        .ok (r, s', effect') ∧ effect'.duration = 100 := by
  have h1 : doEffect (clockEnv 10) skipEngine (request 10 100) false =
      .ok (.RET_CONTINUE,
        { skipEngine with
          effect_start_time := 10, effect_start_time_old := 10, effect_timer_resolution := 10,
          effect_counter := 11,
          accumulation_surface :=
            SDL_BlitSurface_rect skipEngine.effect_dst_surface skipEngine.dirty_rect
              skipEngine.accumulation_surface,
          log := [.alphaMaskBlend none .ALPHA_BLEND_CONST 256 skipEngine.dirty_rect,
            .flush false],
          event_mode := .IDLE_EVENT_MODE },
        request 10 100) := rfl
  exact ⟨_, _, _, h1, (doEffect_restores_duration _ _ _ _ _ _ _ h1).1⟩

/-! ## Transition engine: the range of the counter -/

/-- C17 (as stated, refuted): a cross fade armed with duration 95 and driven
with steps of 10 ticks.  The tenth step completes the transition and leaves
`effect_counter = 100`, above the duration. -/
theorem effect_counter_counterexample :
    (runSteps (clockEnv 0) 10 false 10 (setEffect armEnv idleEngine (request 10 95) true true).2.1
        (setEffect armEnv idleEngine (request 10 95) true true).2.2).map
      (fun r => (r.1.getLast?, r.2.1.effect_counter, r.2.2.duration)) =
      .ok (some .RET_CONTINUE, 100, 95) := by
  rfl

theorem runTicks_bounds (env : StepEnv) (cdr : Bool) (effect : Effect) (ticks : List Int) :
    ∀ s : Engine, (∀ t ∈ ticks, 0 ≤ t) → NoSkipInput s → DivisorsOk s effect →
      NotSineQuake s (effectNo s effect) → effectNo s effect ≠ 1 → 0 ≤ s.effect_counter →
      ∃ trace, runTicks env cdr ticks s effect = .ok trace ∧
        ∀ step ∈ trace, CounterBounds effect.duration step := by
  induction ticks with
  | nil => intro s _ _ _ _ _ _; exact ⟨[], rfl, fun _ h => by cases h⟩
  | cons t rest ih =>
    intro s hts hskip hd hq hno hc
    have ht : 0 ≤ t := hts t (List.mem_cons_self _ _)
    by_cases hlt : s.effect_counter +
        (({ env with ticks := s.effect_start_time_old + t } : StepEnv).ticks -
          s.effect_start_time_old) < effect.duration
    · obtain ⟨s1, h, hc1, _, _, hsame⟩ := doEffect_wait
        { env with ticks := s.effect_start_time_old + t } s effect cdr hskip hd hq hno hlt
      simp only at hc1 hlt
      have hno1 : effectNo s1 effect ≠ 1 := by rw [hsame.effectNo effect]; exact hno
      obtain ⟨trace, hrun, hall⟩ := ih s1 (fun u hu => hts u (List.mem_cons_of_mem _ hu))
        (hsame.noSkip hskip) (hsame.divisors effect hd) (hsame.notSineQuake effect hq) hno1
        (by rw [hc1]; omega)
      refine ⟨(.RET_WAIT_REREAD, s1) :: trace, by simp only [runTicks, h, hrun], ?_⟩
      intro step hstep
      rcases List.mem_cons.mp hstep with h0 | h0
      · rw [h0]
        exact ⟨by rw [hc1]; omega, fun _ => by rw [hc1]; omega, fun hh => by cases hh⟩
      · exact hall step h0
    · obtain ⟨s1, h, hc1, _, _, _, _⟩ := doEffect_done
        { env with ticks := s.effect_start_time_old + t } s effect cdr hskip hd hq
        (fun hh => hlt hh.1)
      rw [if_neg hno] at hc1
      simp only at hc1 hlt
      refine ⟨[(.RET_CONTINUE, s1)], by simp only [runTicks, h], ?_⟩
      intro step hstep
      rw [List.mem_singleton.mp hstep]
      exact ⟨by rw [hc1]; omega, fun hh => (by cases hh), fun _ => by rw [hc1]; omega⟩

/-- C17 (amended): for a request whose effect number is not 0 (so that
`setEffect` arms it), not 1 and not a sinusoidal quake, without skip input and
with non-zero divisors, a transition armed by `setEffect` and driven by
`doEffect` steps with non-negative elapsed ticks runs without error, and after
every step `0 <= effect_counter`; after a step that waits `effect_counter <
effect.duration`; after the step that completes `effect.duration <=
effect_counter` (the counter is not clamped to the duration). -/
theorem runTicks_counter_bounds (aenv : ArmEnv) (env : StepEnv) (s : Engine) (effect : Effect)
    (g u cdr : Bool) (ticks : List Int)
    (h0 : effect.effect ≠ 0) (hts : ∀ t ∈ ticks, 0 ≤ t)
    (hskip : NoSkipInput s) (hd : DivisorsOk s effect)
    (hq : NotSineQuake s (effectNo s effect)) (hno : effectNo s effect ≠ 1) :
    ∃ trace, runTicks env cdr ticks (setEffect aenv s effect g u).2.1
        (setEffect aenv s effect g u).2.2 = .ok trace ∧
      ∀ step ∈ trace, CounterBounds effect.duration step := by
  obtain ⟨_, hc, _, _, he, hdur, hC, hk1, hk2, hf1, hf2, hw, hh, hr1, hr2⟩ :=
    setEffect_armed aenv s effect g u h0
  have heno : effectNo (setEffect aenv s effect g u).2.1 (setEffect aenv s effect g u).2.2 =
      effectNo s effect := by
    unfold effectNo
    rw [hf1, hf2, he]
  have hskip' : NoSkipInput (setEffect aenv s effect g u).2.1 :=
    ⟨hk1.trans hskip.1, hk2.trans hskip.2⟩
  have hd' : DivisorsOk (setEffect aenv s effect g u).2.1 (setEffect aenv s effect g u).2.2 := by
    unfold DivisorsOk at *
    rw [hw, hh, hr1, hr2, hdur]
    exact hd
  have hq' : NotSineQuake (setEffect aenv s effect g u).2.1
      (effectNo (setEffect aenv s effect g u).2.1 (setEffect aenv s effect g u).2.2) := by
    rw [heno]
    unfold NotSineQuake at *
    rw [hC]
    exact hq
  have key := runTicks_bounds env cdr (setEffect aenv s effect g u).2.2 ticks
    (setEffect aenv s effect g u).2.1 hts hskip' hd' hq' (by rw [heno]; exact hno)
    (by rw [hc])
  rw [hdur] at key
  exact key

theorem runTicks_counter_bounds_witness :
    ∃ trace, runTicks (clockEnv 0) false [10, 0, 40, 50, 7]
        (setEffect armEnv idleEngine (request 10 95) true true).2.1
        (setEffect armEnv idleEngine (request 10 95) true true).2.2 = .ok trace ∧
      ∀ step ∈ trace, CounterBounds (request 10 95).duration step :=
  runTicks_counter_bounds armEnv (clockEnv 0) idleEngine (request 10 95) true true false
    [10, 0, 40, 50, 7] (by decide) (by decide) (by decide) (by decide) (by decide) (by decide)

/-! ## Transition engine: effect numbers outside the catalog -/

/-- C18 (the failing input): a request with the unknown effect number 50 and
duration 100 is armed, then two `doEffect` steps each find 0 elapsed ticks.
Both steps wait, both see `effect_counter == 0` and take it for the first
step, and the warning is printed twice. -/
theorem warning_printed_twice :
    (runSteps (clockEnv 0) 0 false 2 (setEffect armEnv idleEngine (request 50 100) true true).2.1
        (setEffect armEnv idleEngine (request 50 100) true true).2.2).map
      (fun r => (r.1, r.2.1.log.filter isWarning)) =
      .ok ([.RET_WAIT_REREAD, .RET_WAIT_REREAD],
        [.printf_not_implemented 50, .printf_not_implemented 50]) := by
  rfl

theorem effectSwitch_ten (env : StepEnv) (s : Engine) (effect : Effect)
    (counter resolution : Int) (first_time : Bool) :
    effectSwitch env s effect counter resolution 10 first_time =
      keepResolution resolution (crossFade s counter effect.duration) := by
  unfold effectSwitch
  have d0 : ¬ ((10 : Int) = 0 ∨ (10 : Int) = 1) := by decide
  have d2 : (10 : Int) ≠ 2 := by decide
  have d3 : (10 : Int) ≠ 3 := by decide
  have d4 : (10 : Int) ≠ 4 := by decide
  have d5 : (10 : Int) ≠ 5 := by decide
  have d6 : (10 : Int) ≠ 6 := by decide
  have d7 : (10 : Int) ≠ 7 := by decide
  have d8 : (10 : Int) ≠ 8 := by decide
  have d9 : (10 : Int) ≠ 9 := by decide
  rw [if_neg d0, if_neg d2, if_neg d3, if_neg d4, if_neg d5, if_neg d6, if_neg d7, if_neg d8, if_neg d9,
    if_pos rfl]

/-- An effect number outside `0 .. 18` passes all the cases up to 18. -/
theorem effectSwitch_tail (env : StepEnv) (s : Engine) (effect : Effect)
    (counter resolution n : Int) (first_time : Bool) (hr : ¬ (0 ≤ n ∧ n ≤ 18)) :
    effectSwitch env s effect counter resolution n first_time =
      (if n = 99 then dllEffect s effect counter resolution n first_time
      else if n = s.CUSTOM_EFFECT_NO + 0 then sineQuake env s effect counter resolution true
      else if n = s.CUSTOM_EFFECT_NO + 1 then sineQuake env s effect counter resolution false
      else if n = s.CUSTOM_EFFECT_NO + 2 then
        .ok ([.fillBlack,
              .drawEffect ⟨effect.no * env.rnd_x * 2, effect.no * env.rnd_y * 2, s.screen_width,
                s.screen_height⟩ (screenRect s) false .effect_dst_surface], resolution)
      else
        keepResolution resolution ((crossFade s counter effect.duration).map (fun cs =>
          warnOnce first_time (.printf_not_implemented n) ++ cs))) := by
  unfold effectSwitch
  have e0 : ¬ (n = 0 ∨ n = 1) := by omega
  have e11 : ¬ (11 ≤ n ∧ n ≤ 14) := by omega
  have e2 : n ≠ 2 := by omega
  have e3 : n ≠ 3 := by omega
  have e4 : n ≠ 4 := by omega
  have e5 : n ≠ 5 := by omega
  have e6 : n ≠ 6 := by omega
  have e7 : n ≠ 7 := by omega
  have e8 : n ≠ 8 := by omega
  have e9 : n ≠ 9 := by omega
  have e10 : n ≠ 10 := by omega
  have e15 : n ≠ 15 := by omega
  have e16 : n ≠ 16 := by omega
  have e17 : n ≠ 17 := by omega
  have e18 : n ≠ 18 := by omega
  rw [if_neg e0, if_neg e2, if_neg e3, if_neg e4, if_neg e5, if_neg e6, if_neg e7, if_neg e8, if_neg e9, if_neg e10,
    if_neg e11, if_neg e15, if_neg e16, if_neg e17, if_neg e18]

/-- A substituted effect number runs the statements of the cross fade after
its warnings. -/
theorem effectSwitch_substituted (env : StepEnv) (s : Engine) (effect : Effect)
    (counter resolution n : Int) (h : isSubstituted s n = true) :
    effectSwitch env s effect counter resolution n (decide (s.effect_counter = 0)) =
      keepResolution resolution ((crossFade s counter effect.duration).map (fun cs =>
        substitutionWarnings s n ++ cs)) := by
  unfold isSubstituted at h
  unfold substitutionWarnings
  by_cases c99 : n = 99
  · rw [if_pos c99] at h
    rw [effectSwitch_tail _ _ _ _ _ _ _ (by omega), if_pos c99, if_pos c99]
    unfold dllEffect
    cases hdll : s.dll with
    | none =>
      simp only [if_true]
      by_cases hc : s.effect_counter = 0 <;> simp [warnOnce, hc]
    | some dll =>
      rw [hdll] at h
      simp only [Bool.not_eq_true', Bool.or_eq_false_iff] at h
      obtain ⟨⟨⟨h1, h2⟩, h3⟩, h4⟩ := h
      simp only [h1, h2, h3, h4, Bool.false_eq_true, if_false, if_true]
      by_cases hc : s.effect_counter = 0 <;> simp [warnOnce, hc]
  · rw [if_neg c99] at h
    simp only [decide_eq_true_eq] at h
    obtain ⟨hr, q0, q1, q2⟩ := h
    rw [effectSwitch_tail _ _ _ _ _ _ _ hr, if_neg c99, if_neg q0, if_neg q1, if_neg q2,
      if_neg c99]
    by_cases hc : s.effect_counter = 0 <;> simp [warnOnce, hc]

theorem substitutionWarnings_isWarning (s : Engine) (n : Int) :
    ∀ c ∈ substitutionWarnings s n, isWarning c = true := by
  intro c hc
  unfold substitutionWarnings at hc
  split_ifs at hc
  · cases hdll : s.dll <;> rw [hdll] at hc <;> simp at hc <;> rcases hc with h | h <;>
      rw [h] <;> rfl
  · simp at hc; rw [hc]; rfl
  · cases hc

theorem foldl_render_warnings (env : StepEnv) (s : Engine) (w : List EngineCall)
    (hrender : ∀ c acc, isWarning c = true → env.render s c acc = acc)
    (hw : ∀ c ∈ w, isWarning c = true) (acc : SDL_Surface) :
    w.foldl (fun acc c => env.render s c acc) acc = acc := by
  induction w generalizing acc with
  | nil => rfl
  | cons c rest ih =>
    rw [List.foldl_cons, hrender c acc (hw c (List.mem_cons_self _ _))]
    exact ih (fun d hd => hw d (List.mem_cons_of_mem _ hd)) acc

theorem drop_log (before calls : List EngineCall) :
    (before ++ calls).drop before.length = calls := by
  simp

/-- C19: a `doEffect` step on an effect number outside the catalog, or on 99
with a missing or unrecognised DLL name, is the step of the cross fade (effect
10) in the same state: the same error or the same return code, the same
constant-alpha blend call at level `256 * counter / duration` over the dirty
bounding box followed by the same flush, and the same resulting state, with
the warnings of the first step as the only addition to the recorded calls. -/
theorem doEffect_substitutes_crossFade (env : StepEnv) (s : Engine) (effect : Effect)
    (cdr : Bool) (n : Int)
    (hsub : isSubstituted s n = true)
    (hrender : ∀ c acc, isWarning c = true → env.render s c acc = acc) :
    doEffect env s { effect with effect := n } cdr =
      (doEffect env s { effect with effect := 10 } cdr).map (fun r =>
        (r.1, withWarnings s.log (stepWarnings s n) r.2.1, { r.2.2 with effect := n })) := by
  have hw := foldl_render_warnings env s (substitutionWarnings s n) hrender
    (substitutionWarnings_isWarning s n)
  have hn1 : n ≠ 1 := by
    intro h
    rw [h] at hsub
    revert hsub
    simp [isSubstituted]
  have hn0 : n ≠ 0 := by
    intro h
    rw [h] at hsub
    revert hsub
    simp [isSubstituted]
  cases hcut : (s.effect_cut_flag && s.skip_flag)
  · cases hk : (s.ctrl_pressed_status || s.skip_to_wait)
    · simp only [doEffect, hk, hcut, Bool.false_eq_true, if_false, effectSwitch_ten,
        effectSwitch_substituted env s _ _ _ n hsub, stepWarnings]
      cases hcf : crossFade s s.effect_counter effect.duration with
      | error e => rfl
      | ok cs =>
        simp only [keepResolution, Except.map, List.foldl_append, hw]
        by_cases hlt : s.effect_counter + (env.ticks - s.effect_start_time_old) < effect.duration
        · simp only [hlt, hn1, hn0, ne_eq, not_false_eq_true, and_self, if_true, withWarnings,
            List.append_assoc, drop_log, (by decide : ¬ (10 : Int) = 1),
            (by decide : ¬ (10 : Int) = 0)]
        · simp only [hlt, hn1, hn0, ne_eq, not_false_eq_true, false_and, if_false, if_true,
            withWarnings, List.append_assoc, drop_log, (by decide : ¬ (10 : Int) = 1),
            (by decide : ¬ (10 : Int) = 0)]
    · simp only [doEffect, hk, hcut, Bool.false_eq_true, if_false, if_true, effectSwitch_ten,
        effectSwitch_substituted env s _ _ _ n hsub, stepWarnings]
      cases hcf : crossFade s 1 1 with
      | error e => rfl
      | ok cs =>
        simp only [keepResolution, Except.map, List.foldl_append, hw]
        by_cases hlt : (1 : Int) + (env.ticks - s.effect_start_time_old) < 1
        · simp only [hlt, hn1, hn0, ne_eq, not_false_eq_true, and_self, if_true, withWarnings,
            List.append_assoc, drop_log, (by decide : ¬ (10 : Int) = 1),
            (by decide : ¬ (10 : Int) = 0)]
        · simp only [hlt, hn1, hn0, ne_eq, not_false_eq_true, false_and, if_false, if_true,
            withWarnings, List.append_assoc, drop_log, (by decide : ¬ (10 : Int) = 1),
            (by decide : ¬ (10 : Int) = 0)]
  · cases hk : (s.ctrl_pressed_status || s.skip_to_wait) <;>
      simp only [doEffect, hk, hcut, Bool.false_eq_true, if_false, if_true, effectSwitch_one,
        stepWarnings, Except.map, ne_eq, not_true_eq_false, and_false, withWarnings,
        List.append_nil, List.foldl_nil, one_ne_zero, not_false_eq_true, drop_log]

theorem doEffect_substitutes_crossFade_witness :
    isSubstituted runningEngine 50 = true ∧ isSubstituted runningEngine 99 = true ∧
    doEffect (clockEnv 10) runningEngine { request 10 100 with effect := 50 } false =
      (doEffect (clockEnv 10) runningEngine { request 10 100 with effect := 10 } false).map
        (fun r => (r.1, withWarnings runningEngine.log (stepWarnings runningEngine 50)
          r.2.1, { r.2.2 with effect := 50 })) ∧
    doEffect (clockEnv 10) runningEngine { request 10 100 with effect := 99 } false =
      (doEffect (clockEnv 10) runningEngine { request 10 100 with effect := 10 } false).map
        (fun r => (r.1, withWarnings runningEngine.log (stepWarnings runningEngine 99)
          r.2.1, { r.2.2 with effect := 99 })) :=
  ⟨by decide, by decide,
    doEffect_substitutes_crossFade (clockEnv 10) runningEngine (request 10 100) false 50
      (by decide) (fun _ _ _ => rfl),
    doEffect_substitutes_crossFade (clockEnv 10) runningEngine (request 10 100) false 99
      (by decide) (fun _ _ _ => rfl)⟩

/-! ## Transition engine: the level of the cross fade -/

/-- One step of the cross fade without skip input: the blend gets the level
computed from the counter the step starts with, then the elapsed ticks are
added. -/
theorem crossFade_step (env : StepEnv) (s : Engine) (effect : Effect) (cdr : Bool)
    (hskip : NoSkipInput s) (h10 : effectNo s effect = 10)
    (hD : 0 < effect.duration) (hc : 0 ≤ s.effect_counter) :
    ∃ r s', doEffect env s effect cdr = .ok (r, s', effect) ∧
      s'.log = s.log ++
        [.alphaMaskBlend none .ALPHA_BLEND_CONST (256 * s.effect_counter / effect.duration)
            s.dirty_rect,
          .flush (if r = .RET_CONTINUE then cdr else false)] ∧
      s'.effect_counter = s.effect_counter + (env.ticks - s.effect_start_time_old) ∧
      s'.effect_start_time_old = env.ticks ∧ SameSetup s s' := by
  obtain ⟨hcp, hsw⟩ := hskip
  unfold effectNo at h10
  have hdiv : (256 * s.effect_counter).tdiv effect.duration =
      256 * s.effect_counter / effect.duration :=
    Int.tdiv_eq_ediv (by omega) (by omega)
  have hcf : crossFade s s.effect_counter effect.duration =
      .ok [.alphaMaskBlend none .ALPHA_BLEND_CONST (256 * s.effect_counter / effect.duration)
        s.dirty_rect] := by
    simp only [crossFade, cdiv_ok _ _ (ne_of_gt hD), bind, Except.bind, hdiv]
    rfl
  by_cases hlt : s.effect_counter + (env.ticks - s.effect_start_time_old) < effect.duration
  · simp only [doEffect, hcp, hsw, Bool.or_self, Bool.false_eq_true, if_false, h10,
      effectSwitch_ten, hcf, keepResolution, Except.map, hlt, ne_eq,
      (by decide : ¬ (10 : Int) = 1), (by decide : ¬ (10 : Int) = 0), not_false_eq_true,
      and_self, if_true]
    exact ⟨_, _, rfl, by simp, rfl, rfl, by simp [SameSetup, hcp, hsw]⟩
  · simp only [doEffect, hcp, hsw, Bool.or_self, Bool.false_eq_true, if_false, h10,
      effectSwitch_ten, hcf, keepResolution, Except.map, hlt, ne_eq,
      (by decide : ¬ (10 : Int) = 1), (by decide : ¬ (10 : Int) = 0), not_false_eq_true,
      false_and, if_true]
    exact ⟨_, _, rfl, by simp, rfl, rfl, by simp [SameSetup, hcp, hsw]⟩

theorem blendLevels_step (log : List EngineCall) (level : Int) (clip : SDL_Rect) (b : Bool) :
    blendLevels (log ++ [.alphaMaskBlend none .ALPHA_BLEND_CONST level clip, .flush b]) =
      blendLevels log ++ [level] := by
  simp [blendLevels, blendLevel, List.filterMap_append]

/-- The levels of `k` consecutive steps of a cross fade that each find `t`
elapsed ticks. -/
theorem runSteps_crossFade (env : StepEnv) (effect : Effect) (cdr : Bool) (t : Int)
    (hD : 0 < effect.duration) (ht : 0 ≤ t) (k : Nat) :
    ∀ s : Engine, NoSkipInput s → effectNo s effect = 10 → 0 ≤ s.effect_counter →
      ∃ rs s', runSteps env t cdr k s effect = .ok (rs, s', effect) ∧
        blendLevels s'.log = blendLevels s.log ++
          (List.range k).map (fun i : Nat => 256 * (s.effect_counter + (i : Int) * t) /
            effect.duration) ∧
        s'.effect_counter = s.effect_counter + (k : Int) * t := by
  induction k with
  | zero => intro s _ _ _; exact ⟨[], s, rfl, by simp, by simp⟩
  | succ k ih =>
    intro s hskip h10 hc
    obtain ⟨r, s1, h, hlog, hc1, _, hsame⟩ := crossFade_step
      { env with ticks := s.effect_start_time_old + t } s effect cdr hskip h10 hD hc
    simp only at hc1
    have hc1' : s1.effect_counter = s.effect_counter + t := by rw [hc1]; omega
    obtain ⟨rs, s2, hrun, hl2, hc2⟩ := ih s1 (hsame.noSkip hskip)
      (by rw [hsame.effectNo effect]; exact h10) (by rw [hc1']; omega)
    refine ⟨r :: rs, s2, by simp only [runSteps, h, hrun], ?_, ?_⟩
    · rw [hl2, hlog, blendLevels_step, List.range_succ_eq_map, List.map_cons, List.map_map,
        List.append_assoc, List.singleton_append]
      congr 2
      · simp
      · apply List.map_congr_left
        intro i _
        simp only [Function.comp, hc1']
        congr 2
        push_cast
        ring
    · rw [hc2, hc1']
      push_cast
      ring

/-- C20 (as stated, refuted): a cross fade armed with duration 256 and
driven with steps of 1 tick.  The 128 steps hand the levels 0, 1, ..., 127 to
the blend: the level of step 128 is 127, and 128 is not among them. -/
theorem crossFade_level_counterexample :
    (runSteps (clockEnv 0) 1 false 128
        (setEffect armEnv idleEngine (request 10 256) true true).2.1
        (setEffect armEnv idleEngine (request 10 256) true true).2.2).map
      (fun r => (r.2.1.effect_counter, blendLevels r.2.1.log)) =
      .ok (128, (List.range 128).map Int.ofNat) := by
  obtain ⟨rs, s', h, hl, hc⟩ := runSteps_crossFade (clockEnv 0)
    (setEffect armEnv idleEngine (request 10 256) true true).2.2 false 1 (by decide)
    (by decide) 128 (setEffect armEnv idleEngine (request 10 256) true true).2.1 (by decide)
    (by decide) (by decide)
  rw [h]
  have e0 : (setEffect armEnv idleEngine (request 10 256) true true).2.1.effect_counter = 0 :=
    rfl
  have e1 : blendLevels (setEffect armEnv idleEngine (request 10 256) true true).2.1.log = [] :=
    rfl
  have e2 : (setEffect armEnv idleEngine (request 10 256) true true).2.2.duration = 256 := rfl
  rw [e0, e1, e2] at hl
  rw [e0] at hc
  show Except.ok (s'.effect_counter, blendLevels s'.log) = _
  rw [hl, hc]
  have e3 : (List.range 128).map (fun i : Nat => 256 * (0 + (i : Int) * 1) / 256) =
      (List.range 128).map Int.ofNat :=
    List.map_congr_left (fun i _ => by
      show 256 * (0 + (i : Int) * 1) / 256 = (i : Int)
      omega)
  rw [List.nil_append, e3]
  rfl

/-- C20 (amended): without skip input, with a positive duration `D` and a
non-negative counter, a cross-fade step hands to the constant-alpha blend the
level `floor(256 * c / D)`, where `c` is `effect_counter` at the start of the
step, before the elapsed ticks of this step are added.  So `k` steps that each
find `t` elapsed ticks hand over the levels `floor(256 * (c + i * t) / D)` for
`i = 0, ..., k - 1`: for a cross fade armed with duration 256 and driven with
steps of 1 tick, step 128 hands over 127 and step 129 hands over 128. -/
theorem crossFade_level (env : StepEnv) (s : Engine) (effect : Effect) (cdr : Bool)
    (t : Int) (k : Nat)
    (hskip : NoSkipInput s) (h10 : effectNo s effect = 10)
    (hD : 0 < effect.duration) (ht : 0 ≤ t) (hc : 0 ≤ s.effect_counter) :
    ∃ rs s', runSteps env t cdr k s effect = .ok (rs, s', effect) ∧
      blendLevels s'.log = blendLevels s.log ++
        (List.range k).map (fun i : Nat => 256 * (s.effect_counter + (i : Int) * t) /
          effect.duration) ∧
      s'.effect_counter = s.effect_counter + (k : Int) * t :=
  runSteps_crossFade env effect cdr t hD ht k s hskip h10 hc

theorem crossFade_level_witness :
    ∃ rs s', runSteps (clockEnv 0) 1 false 129
        (setEffect armEnv idleEngine (request 10 256) true true).2.1 (request 10 256) =
        .ok (rs, s', request 10 256) ∧
      blendLevels s'.log = [] ++ (List.range 129).map (fun i : Nat => 256 * (0 + (i : Int) * 1) / 256) ∧
      s'.effect_counter = 0 + ((129 : Nat) : Int) * 1 :=
  crossFade_level (clockEnv 0) (setEffect armEnv idleEngine (request 10 256) true true).2.1
    (request 10 256) false 1 129 (by decide) (by decide) (by decide) (by decide) (by decide)

/-! ## Arming a transition: `setEffect` -/

/-- C23 (as stated, refuted): a scroll request (effect 11) armed while
`effect_cut_flag` and `skip_flag` are set, and a request with effect 99 whose
DLL name string is a null pointer.  In both cases the dirty rectangle after
`setEffect` is the one from before, not the screen. -/
theorem setEffect_dirty_counterexample :
    (setEffect armEnv cutEngine (request 11 100) true true).2.1.dirty_rect =
        ⟨100, 100, 200, 100⟩ ∧
    (setEffect armEnv idleEngine (request 99 100) true true).2.1.dirty_rect =
        ⟨100, 100, 200, 100⟩ ∧
    DirtyRect_fill idleEngine.screen_width idleEngine.screen_height = ⟨0, 0, 640, 480⟩ := by
  decide

/-- C23 (amended): when the effect number that `setEffect` dispatches on
(the number of the request, unless `effect_cut_flag` and `skip_flag` replace it
by 1) is one of 11, 12, 13, 14, 16, 17, or is 99 and the DLL name string is not
a null pointer, the dirty rectangle after arming is the whole screen,
`screen_width` by `screen_height` at the origin. -/
theorem setEffect_dirty_full (aenv : ArmEnv) (s : Engine) (effect : Effect) (g u : Bool)
    (h : effectNo s effect = 11 ∨ effectNo s effect = 12 ∨ effectNo s effect = 13 ∨
      effectNo s effect = 14 ∨ effectNo s effect = 16 ∨ effectNo s effect = 17 ∨
      (effectNo s effect = 99 ∧ aenv.image_name_cstr ≠ none)) :
    (setEffect aenv s effect g u).2.1.dirty_rect = ⟨0, 0, s.screen_width, s.screen_height⟩ := by
  have h0 : effect.effect ≠ 0 := by
    intro h0
    unfold effectNo at h
    rw [h0] at h
    split_ifs at h <;> omega
  unfold effectNo at h
  unfold setEffect
  rw [if_neg h0]
  dsimp only
  by_cases h99 : (if (s.effect_cut_flag && s.skip_flag) = true then (1 : Int)
      else effect.effect) = 99
  · rw [if_pos h99]
    cases hn : aenv.image_name_cstr with
    | none =>
      rw [h99, hn] at h
      simp at h
    | some dll =>
      dsimp only
      split_ifs <;> rfl
  · rw [if_neg h99]
    have h6 : (if (s.effect_cut_flag && s.skip_flag) = true then (1 : Int)
        else effect.effect) = 11 ∨
      (if (s.effect_cut_flag && s.skip_flag) = true then (1 : Int) else effect.effect) = 12 ∨
      (if (s.effect_cut_flag && s.skip_flag) = true then (1 : Int) else effect.effect) = 13 ∨
      (if (s.effect_cut_flag && s.skip_flag) = true then (1 : Int) else effect.effect) = 14 ∨
      (if (s.effect_cut_flag && s.skip_flag) = true then (1 : Int) else effect.effect) = 16 ∨
      (if (s.effect_cut_flag && s.skip_flag) = true then (1 : Int) else effect.effect) = 17 := by
      rcases h with h | h | h | h | h | h | h
      all_goals first
        | exact absurd h.1 h99
        | (rw [h]; decide)
    dsimp only
    rw [if_pos h6]
    rfl

theorem setEffect_dirty_full_witness :
    (setEffect armEnv idleEngine (request 16 100) true true).2.1.dirty_rect =
        ⟨0, 0, idleEngine.screen_width, idleEngine.screen_height⟩ ∧
    (setEffect { armEnv with image_name_cstr := some "whirl.dll/3" } idleEngine (request 99 100)
        true true).2.1.dirty_rect = ⟨0, 0, idleEngine.screen_width, idleEngine.screen_height⟩ :=
  ⟨setEffect_dirty_full armEnv idleEngine (request 16 100) true true (by decide),
    setEffect_dirty_full { armEnv with image_name_cstr := some "whirl.dll/3" } idleEngine
      (request 99 100) true true (by decide)⟩

/-- C24 (as stated, refuted): a request with effect number 0, given to
`setEffect` in a state whose counter is 7.  The call returns `RET_CONTINUE`,
not wait-and-re-poll, and leaves the counter, the event mode and the source
surface as they were. -/
theorem setEffect_arms_counterexample :
    (setEffect armEnv { idleEngine with effect_counter := 7 } (request 0 100) true true).1 =
        .RET_CONTINUE ∧
    (setEffect armEnv { idleEngine with effect_counter := 7 } (request 0 100) true
        true).2.1.effect_counter = 7 ∧
    (setEffect armEnv { idleEngine with effect_counter := 7 } (request 0 100) true
        true).2.1.event_mode = .IDLE_EVENT_MODE ∧
    (setEffect armEnv { idleEngine with effect_counter := 7 } (request 0 100) true
        true).2.1.effect_src_surface.pixels 0 0 = 2 := by
  decide

/-- C24 (amended): for every request whose effect number is not 0,
`setEffect` copies the whole accumulation surface into `effect_src_surface`
(every pixel that both surfaces have), sets `effect_counter` to 0 and
`event_mode` to the effect mode, and returns wait-and-re-poll; for effect
number 0 it returns `RET_CONTINUE` and changes nothing. -/
theorem setEffect_arms (aenv : ArmEnv) (s : Engine) (effect : Effect) (g u : Bool) :
    (effect.effect ≠ 0 →
      (setEffect aenv s effect g u).1 = .RET_WAIT_REREAD ∧
      (setEffect aenv s effect g u).2.1.effect_src_surface =
        SDL_BlitSurface_all s.accumulation_surface s.effect_src_surface ∧
      (∀ x y : Int, s.accumulation_surface.covers x y → s.effect_src_surface.covers x y →
        (setEffect aenv s effect g u).2.1.effect_src_surface.pixels x y =
          s.accumulation_surface.pixels x y) ∧
      (setEffect aenv s effect g u).2.1.effect_counter = 0 ∧
      (setEffect aenv s effect g u).2.1.event_mode = .EFFECT_EVENT_MODE) ∧
    (effect.effect = 0 → setEffect aenv s effect g u = (.RET_CONTINUE, s, effect)) := by
  constructor
  · intro h0
    unfold setEffect
    rw [if_neg h0]
    refine ⟨rfl, rfl, ?_, rfl, rfl⟩
    intro x y ha hs
    simp [SDL_BlitSurface_all, ha, hs]
  · intro h0
    unfold setEffect
    rw [if_pos h0]

theorem setEffect_arms_witness :
    (setEffect armEnv idleEngine (request 10 100) true true).1 = .RET_WAIT_REREAD ∧
      (setEffect armEnv idleEngine (request 10 100) true true).2.1.effect_src_surface =
        SDL_BlitSurface_all idleEngine.accumulation_surface idleEngine.effect_src_surface ∧
      (∀ x y : Int, idleEngine.accumulation_surface.covers x y →
        idleEngine.effect_src_surface.covers x y →
        (setEffect armEnv idleEngine (request 10 100) true true).2.1.effect_src_surface.pixels
          x y = idleEngine.accumulation_surface.pixels x y) ∧
      (setEffect armEnv idleEngine (request 10 100) true true).2.1.effect_counter = 0 ∧
      (setEffect armEnv idleEngine (request 10 100) true true).2.1.event_mode =
        .EFFECT_EVENT_MODE :=
  (setEffect_arms armEnv idleEngine (request 10 100) true true).1 (by decide)

/-! ## Transition engine: the calls of one step -/

/-- The calls recorded by a step without skip input: those of the switch,
then the flush. -/
theorem doEffect_log (env : StepEnv) (s : Engine) (effect : Effect) (cdr : Bool)
    (calls : List EngineCall) (res : Int) (hskip : NoSkipInput s)
    (hsw : effectSwitch env s effect s.effect_counter (env.ticks - s.effect_start_time_old)
      (effectNo s effect) (decide (s.effect_counter = 0)) = .ok (calls, res)) :
    ∃ r s', doEffect env s effect cdr = .ok (r, s', effect) ∧
      s'.log = s.log ++ calls ++
        (if effectNo s effect ≠ 0 then [.flush (if r = .RET_CONTINUE then cdr else false)]
         else []) := by
  obtain ⟨hc, hw⟩ := hskip
  unfold effectNo at hsw ⊢
  by_cases hlt : s.effect_counter + res < effect.duration ∧
      ¬ (if (s.effect_cut_flag && s.skip_flag) = true then (1 : Int) else effect.effect) = 1
  · simp only [doEffect, hc, hw, Bool.or_self, Bool.false_eq_true, if_false, hsw, ne_eq, hlt,
      not_false_eq_true, and_self, if_true]
    exact ⟨_, _, rfl, by simp⟩
  · simp only [doEffect, hc, hw, Bool.or_self, Bool.false_eq_true, if_false, hsw, ne_eq, hlt]
    exact ⟨_, _, rfl, by simp⟩

theorem forEach_eq (body : Int → Except EffectError (List EngineCall))
    (f : Int → List EngineCall) (l : List Int) (h : ∀ i ∈ l, body i = .ok (f i)) :
    forEach body l = .ok (l.flatMap f) := by
  induction l with
  | nil => rfl
  | cons i rest ih =>
    rw [forEach, h i (List.mem_cons_self _ _), ih (fun j hj => h j (List.mem_cons_of_mem _ hj))]
    rfl

theorem effectSwitch_two (env : StepEnv) (s : Engine) (effect : Effect)
    (counter resolution : Int) (first_time : Bool) :
    effectSwitch env s effect counter resolution 2 first_time =
      keepResolution resolution (shutter s counter effect.duration true false) := by
  simp [effectSwitch]

theorem effectSwitch_curtain (env : StepEnv) (s : Engine) (effect : Effect)
    (counter resolution n : Int) (first_time : Bool) (h : n = 6 ∨ n = 7 ∨ n = 8 ∨ n = 9) :
    effectSwitch env s effect counter resolution n first_time =
      keepResolution resolution (curtain s counter effect.duration (decide (n = 6 ∨ n = 7))
        (decide (n = 7 ∨ n = 9))) := by
  rcases h with h | h | h | h <;> subst h <;> simp [effectSwitch]

theorem effectSwitch_scroll (env : StepEnv) (s : Engine) (effect : Effect)
    (counter resolution n : Int) (first_time : Bool) (h : 11 ≤ n ∧ n ≤ 14) :
    effectSwitch env s effect counter resolution n first_time =
      keepResolution resolution (scroll s counter effect.duration n) := by
  unfold effectSwitch
  have e0 : ¬ (n = 0 ∨ n = 1) := by omega
  have e2 : n ≠ 2 := by omega
  have e3 : n ≠ 3 := by omega
  have e4 : n ≠ 4 := by omega
  have e5 : n ≠ 5 := by omega
  have e6 : n ≠ 6 := by omega
  have e7 : n ≠ 7 := by omega
  have e8 : n ≠ 8 := by omega
  have e9 : n ≠ 9 := by omega
  have e10 : n ≠ 10 := by omega
  rw [if_neg e0, if_neg e2, if_neg e3, if_neg e4, if_neg e5, if_neg e6, if_neg e7, if_neg e8,
    if_neg e9, if_neg e10, if_pos h]

theorem indicesFrom_eq (first : Int) (n : Nat) :
    indicesFrom first n = (List.range n).map (fun k : Nat => first + (k : Int)) := by
  unfold indicesFrom
  induction (List.range n) with
  | nil => rfl
  | cons k rest ih =>
    rw [List.map_cons, ← ih]
    rfl

theorem flatMap_singleton_range (n : Nat) (g : Int → EngineCall) :
    (indicesFrom 0 n).flatMap (fun i => [g i]) = (List.range n).map (fun k : Nat => g (k : Int)) := by
  rw [indicesFrom_eq]
  simp only [zero_add]
  induction (List.range n) with
  | nil => rfl
  | cons k rest ih =>
    simp only [List.map_cons, List.flatMap_cons, ih, List.singleton_append]

theorem keepResolution_eq (resolution : Int) (calls : List EngineCall) :
    keepResolution resolution (.ok calls) = .ok (calls, resolution) := rfl

/-- The calls of the left shutter: one stripe for every index below
`screen_width / stripe`, all of the same width. -/
theorem shutter_left (s : Engine) (c D : Int) (h2 : s.screen_ratio2 ≠ 0)
    (hS : 0 < (16 * s.screen_ratio1).tdiv s.screen_ratio2) (hD : 0 < D) (hc : 0 ≤ c)
    (hw : 0 ≤ s.screen_width) :
    shutter s c D true false =
      .ok ((List.range
          (s.screen_width / (16 * s.screen_ratio1).tdiv s.screen_ratio2).toNat).map
        (fun i : Nat => .drawEffect
          ⟨(i : Int) * (16 * s.screen_ratio1).tdiv s.screen_ratio2, 0,
            (16 * s.screen_ratio1).tdiv s.screen_ratio2 * c / D, s.screen_height⟩
          ⟨(i : Int) * (16 * s.screen_ratio1).tdiv s.screen_ratio2, 0,
            (16 * s.screen_ratio1).tdiv s.screen_ratio2 * c / D, s.screen_height⟩
          true .effect_dst_surface)) := by
  have e1 : ((16 * s.screen_ratio1).tdiv s.screen_ratio2 * c).tdiv D =
      (16 * s.screen_ratio1).tdiv s.screen_ratio2 * c / D :=
    Int.tdiv_eq_ediv (mul_nonneg (le_of_lt hS) hc) (le_of_lt hD)
  have e2 : s.screen_width.tdiv ((16 * s.screen_ratio1).tdiv s.screen_ratio2) =
      s.screen_width / (16 * s.screen_ratio1).tdiv s.screen_ratio2 :=
    Int.tdiv_eq_ediv hw (le_of_lt hS)
  simp only [shutter, EFFECT_STRIPE_WIDTH, cdiv_ok _ _ h2, cdiv_ok _ _ (ne_of_gt hD),
    cdiv_ok _ _ (ne_of_gt hS), bind, Except.bind, e1, e2, if_true, Bool.false_eq_true, if_false]
  rw [forEach_eq _ (fun i => [.drawEffect
      ⟨i * (16 * s.screen_ratio1).tdiv s.screen_ratio2, 0,
        (16 * s.screen_ratio1).tdiv s.screen_ratio2 * c / D, s.screen_height⟩
      ⟨i * (16 * s.screen_ratio1).tdiv s.screen_ratio2, 0,
        (16 * s.screen_ratio1).tdiv s.screen_ratio2 * c / D, s.screen_height⟩
      true .effect_dst_surface]) _ (fun i _ => rfl)]
  rw [flatMap_singleton_range]

/-- C21: a step of the left shutter (effect 2) without skip input, at counter
`c` and with stripe width `S = 16 * screen_ratio1 / screen_ratio2`, hands to
`drawEffect`, for every stripe index `i` in `0 .. screen_width / S - 1` in
turn, the rectangle `x = i * S`, `y = 0`, `w = floor(S * c / duration)`,
`h = screen_height` (as destination and as source, from the new frame), and
then flushes.  With screen width 640, `S = 16`, duration 16 and `c = 8` these
are 40 stripes of width 8. -/
theorem doEffect_left_shutter (env : StepEnv) (s : Engine) (effect : Effect) (cdr : Bool)
    (hskip : NoSkipInput s) (hno : effectNo s effect = 2) (h2 : s.screen_ratio2 ≠ 0)
    (hS : 0 < (16 * s.screen_ratio1).tdiv s.screen_ratio2) (hD : 0 < effect.duration)
    (hc : 0 ≤ s.effect_counter) (hw : 0 ≤ s.screen_width) :
    ∃ r s', doEffect env s effect cdr = .ok (r, s', effect) ∧
      s'.log = s.log ++
        (List.range (s.screen_width / (16 * s.screen_ratio1).tdiv s.screen_ratio2).toNat).map
          (fun i : Nat => .drawEffect
            ⟨(i : Int) * (16 * s.screen_ratio1).tdiv s.screen_ratio2, 0,
              (16 * s.screen_ratio1).tdiv s.screen_ratio2 * s.effect_counter / effect.duration,
              s.screen_height⟩
            ⟨(i : Int) * (16 * s.screen_ratio1).tdiv s.screen_ratio2, 0,
              (16 * s.screen_ratio1).tdiv s.screen_ratio2 * s.effect_counter / effect.duration,
              s.screen_height⟩
            true .effect_dst_surface) ++
        [.flush (if r = .RET_CONTINUE then cdr else false)] := by
  have hsw : effectSwitch env s effect s.effect_counter (env.ticks - s.effect_start_time_old)
      (effectNo s effect) (decide (s.effect_counter = 0)) =
      keepResolution (env.ticks - s.effect_start_time_old)
        (shutter s s.effect_counter effect.duration true false) := by
    rw [hno, effectSwitch_two]
  rw [shutter_left s _ _ h2 hS hD hc hw, keepResolution_eq] at hsw
  obtain ⟨r, s', h, hlog⟩ := doEffect_log env s effect cdr _ _ hskip hsw
  refine ⟨r, s', h, ?_⟩
  rw [hlog, hno, if_pos (by decide)]

theorem doEffect_left_shutter_witness :
    ∃ r s', doEffect (clockEnv 1) { runningEngine with effect_counter := 8 } (request 2 16)
        false = .ok (r, s', request 2 16) ∧
      s'.log = [] ++
        (List.range (((640 : Int) / (16 * 1 : Int).tdiv 1).toNat)).map
          (fun i : Nat => .drawEffect
            ⟨(i : Int) * (16 * 1 : Int).tdiv 1, 0, (16 * 1 : Int).tdiv 1 * 8 / 16, 480⟩
            ⟨(i : Int) * (16 * 1 : Int).tdiv 1, 0, (16 * 1 : Int).tdiv 1 * 8 / 16, 480⟩
            true .effect_dst_surface) ++
        [.flush (if r = .RET_CONTINUE then false else false)] ∧
      ((640 : Int) / (16 * 1 : Int).tdiv 1).toNat = 40 ∧ (16 * 1 : Int).tdiv 1 * 8 / 16 = 8 := by
  obtain ⟨r, s', h, hlog⟩ := doEffect_left_shutter (clockEnv 1)
    { runningEngine with effect_counter := 8 } (request 2 16) false (by decide) (by decide)
    (by decide) (by decide) (by decide) (by decide) (by decide)
  exact ⟨r, s', h, hlog, by decide, by decide⟩

/-! ## Transition engine: the curtains -/

theorem flatMap_indicesFrom (n : Nat) (f : Int → List EngineCall) :
    (indicesFrom 0 n).flatMap f = (List.range n).flatMap (fun k : Nat => f (k : Int)) := by
  rw [indicesFrom_eq]
  simp only [zero_add]
  induction (List.range n) with
  | nil => rfl
  | cons k rest ih => simp only [List.map_cons, List.flatMap_cons, ih]

theorem mem_indicesFrom_nonneg (n : Nat) (i : Int) (h : i ∈ indicesFrom 0 n) : 0 ≤ i := by
  rw [indicesFrom_eq] at h
  obtain ⟨k, _, hk⟩ := List.mem_map.mp h
  omega

/-- The width of a curtain stripe does not grow with the stripe index. -/
theorem curtainWidth2_antitone (S counter duration L : Int) (hL : 0 < L) (i j : Int)
    (hij : i ≤ j) :
    curtainWidth2 S counter duration L j ≤ curtainWidth2 S counter duration L i := by
  unfold curtainWidth2
  have hmul : S * S * i ≤ S * S * j := mul_le_mul_of_nonneg_left hij (mul_self_nonneg S)
  have := Int.ediv_le_ediv hL hmul
  omega

/-- The calls of a curtain: for every stripe index up to `L / S`, one call
when the width of the stripe is not negative, and none otherwise. -/
theorem curtain_eq (s : Engine) (c D : Int) (vertical fromEnd : Bool)
    (h2 : s.screen_ratio2 ≠ 0) (hS : 0 < (24 * s.screen_ratio1).tdiv s.screen_ratio2)
    (hL : 0 < (if vertical then s.screen_width else s.screen_height))
    (hD : 0 < D) (hc : 0 ≤ c) :
    curtain s c D vertical fromEnd =
      .ok ((List.range
          ((if vertical then s.screen_width else s.screen_height) /
            (24 * s.screen_ratio1).tdiv s.screen_ratio2 + 1).toNat).flatMap
        (fun i : Nat =>
          if 0 ≤ curtainWidth2 ((24 * s.screen_ratio1).tdiv s.screen_ratio2) c D
              (if vertical then s.screen_width else s.screen_height) i then
            [.drawEffect
              (curtainStripe s vertical fromEnd ((24 * s.screen_ratio1).tdiv s.screen_ratio2) i
                (curtainWidth2 ((24 * s.screen_ratio1).tdiv s.screen_ratio2) c D
                  (if vertical then s.screen_width else s.screen_height) i))
              (curtainStripe s vertical fromEnd ((24 * s.screen_ratio1).tdiv s.screen_ratio2) i
                (curtainWidth2 ((24 * s.screen_ratio1).tdiv s.screen_ratio2) c D
                  (if vertical then s.screen_width else s.screen_height) i))
              true .effect_dst_surface]
          else [])) := by
  generalize hSdef : (24 * s.screen_ratio1).tdiv s.screen_ratio2 = S at hS ⊢
  generalize hLdef : (if vertical then s.screen_width else s.screen_height) = L at hL ⊢
  have e1 : (S * c * 2).tdiv D = S * c * 2 / D :=
    Int.tdiv_eq_ediv (by positivity) (le_of_lt hD)
  have e2 : L.tdiv S = L / S := Int.tdiv_eq_ediv (le_of_lt hL) (le_of_lt hS)
  simp only [curtain, EFFECT_STRIPE_CURTAIN_WIDTH, cdiv_ok _ _ h2, cdiv_ok _ _ (ne_of_gt hD),
    hSdef, hLdef, cdiv_ok _ _ (ne_of_gt hS), cdiv_ok _ _ (ne_of_gt hL), bind, Except.bind, e1, e2]
  rw [← flatMap_indicesFrom _ (fun i : Int =>
    if 0 ≤ curtainWidth2 S c D L i then
      [.drawEffect (curtainStripe s vertical fromEnd S i (curtainWidth2 S c D L i))
        (curtainStripe s vertical fromEnd S i (curtainWidth2 S c D L i)) true
        .effect_dst_surface]
    else [])]
  apply forEach_eq
  intro i hi
  have hi0 := mem_indicesFrom_nonneg _ i hi
  have e3 : (S * S * i).tdiv L = S * S * i / L :=
    Int.tdiv_eq_ediv (mul_nonneg (mul_self_nonneg S) hi0) (le_of_lt hL)
  simp only [Except.map, e3, curtainWidth2, curtainStripe, hLdef, ge_iff_le]

theorem effectSwitch_curtainNumber (env : StepEnv) (s : Engine) (effect : Effect)
    (counter resolution : Int) (first_time vertical fromEnd : Bool) :
    effectSwitch env s effect counter resolution (curtainNumber vertical fromEnd) first_time =
      keepResolution resolution (curtain s counter effect.duration vertical fromEnd) := by
  cases vertical <;> cases fromEnd <;> simp [effectSwitch, curtainNumber]

/-- C30: for the curtains (effects 6 to 9), with stripe width
`S = 24 * screen_ratio1 / screen_ratio2` and screen extent `L` (the width for
6 and 7, the height for 8 and 9), the width of stripe `i`,
`width2(i) = floor(S * counter * 2 / duration) - floor(S * S * i / L)`, does
not grow with `i`; the switch hands stripe `i` to `drawEffect` exactly when
`width2(i) >= 0`, for `i = 0 .. L / S`; and no rectangle handed over has a
negative width or height. -/
theorem curtain_widths (env : StepEnv) (s : Engine) (effect : Effect)
    (counter resolution : Int) (first_time vertical fromEnd : Bool)
    (h2 : s.screen_ratio2 ≠ 0) (hS : 0 < (24 * s.screen_ratio1).tdiv s.screen_ratio2)
    (hw : 0 < s.screen_width) (hh : 0 < s.screen_height)
    (hD : 0 < effect.duration) (hc : 0 ≤ counter) :
    (∀ i j : Nat, i ≤ j →
      curtainWidth2 ((24 * s.screen_ratio1).tdiv s.screen_ratio2) counter effect.duration
          (if vertical then s.screen_width else s.screen_height) j ≤
        curtainWidth2 ((24 * s.screen_ratio1).tdiv s.screen_ratio2) counter effect.duration
          (if vertical then s.screen_width else s.screen_height) i) ∧
    effectSwitch env s effect counter resolution (curtainNumber vertical fromEnd) first_time =
      .ok ((List.range
          ((if vertical then s.screen_width else s.screen_height) /
            (24 * s.screen_ratio1).tdiv s.screen_ratio2 + 1).toNat).flatMap
        (fun i : Nat =>
          if 0 ≤ curtainWidth2 ((24 * s.screen_ratio1).tdiv s.screen_ratio2) counter
              effect.duration (if vertical then s.screen_width else s.screen_height) i then
            [.drawEffect
              (curtainStripe s vertical fromEnd ((24 * s.screen_ratio1).tdiv s.screen_ratio2) i
                (curtainWidth2 ((24 * s.screen_ratio1).tdiv s.screen_ratio2) counter
                  effect.duration (if vertical then s.screen_width else s.screen_height) i))
              (curtainStripe s vertical fromEnd ((24 * s.screen_ratio1).tdiv s.screen_ratio2) i
                (curtainWidth2 ((24 * s.screen_ratio1).tdiv s.screen_ratio2) counter
                  effect.duration (if vertical then s.screen_width else s.screen_height) i))
              true .effect_dst_surface]
          else []), resolution) ∧
    (∀ i width2 : Int, 0 ≤ width2 →
      0 ≤ (curtainStripe s vertical fromEnd ((24 * s.screen_ratio1).tdiv s.screen_ratio2) i
        width2).w ∧
      0 ≤ (curtainStripe s vertical fromEnd ((24 * s.screen_ratio1).tdiv s.screen_ratio2) i
        width2).h) := by
  have hL : 0 < (if vertical then s.screen_width else s.screen_height) := by
    cases vertical
    · exact hh
    · exact hw
  refine ⟨?_, ?_, ?_⟩
  · intro i j hij
    exact curtainWidth2_antitone _ _ _ _ hL i j (by exact_mod_cast hij)
  · rw [effectSwitch_curtainNumber, curtain_eq s counter effect.duration vertical fromEnd h2 hS hL
      hD hc]
    rfl
  · intro i width2 h0
    unfold curtainStripe
    cases vertical <;> cases fromEnd <;> simp only [Bool.false_eq_true, false_and, and_false,
      if_false, if_true, true_and] <;> (try split_ifs) <;> constructor <;> omega

theorem curtain_widths_witness :
    (effectSwitch (clockEnv 0) idleEngine (request 7 100) 30 10 (curtainNumber true true)
      false).map (fun r => (drawnRects r.1).length) = .ok 17 := by
  rw [(curtain_widths (clockEnv 0) idleEngine (request 7 100) 30 10 false true true
    (by decide) (by decide) (by decide) (by decide) (by decide) (by decide)).2.1]
  rfl

/-! ## Transition engine: the scrolls -/

/-- C29 (the failing input): a step of the right scroll (effect 12) with
duration 2 at counter 1 on the 640 by 480 screen, so that `d = 320`.  The old
frame is handed to `drawEffect` for the columns 0 to 319 and the new frame for
the columns 319 to 638: column 319 is in both rectangles and column 639 in
neither.  The left scroll (effect 11) in the same state hands over the columns
320 to 639 and 0 to 319. -/
theorem scroll_right_misses_column :
    (doEffect (clockEnv 0) { runningEngine with effect_counter := 1 } (request 12 2) false).map
        (fun r => drawnRects r.2.1.log) = .ok [⟨0, 0, 320, 480⟩, ⟨319, 0, 320, 480⟩] ∧
    (SDL_Rect.covers ⟨0, 0, 320, 480⟩ 319 0 ∧ SDL_Rect.covers ⟨319, 0, 320, 480⟩ 319 0) ∧
    (¬ SDL_Rect.covers ⟨0, 0, 320, 480⟩ 639 0 ∧ ¬ SDL_Rect.covers ⟨319, 0, 320, 480⟩ 639 0) ∧
    (doEffect (clockEnv 0) { runningEngine with effect_counter := 1 } (request 11 2) false).map
        (fun r => drawnRects r.2.1.log) = .ok [⟨320, 0, 320, 480⟩, ⟨0, 0, 320, 480⟩] := by
  refine ⟨rfl, by decide, by decide, rfl⟩

/-! ## The clipped blit `drawEffect` -/

/-- C22: `drawEffect` performs no blit when no position lies in both the
destination rectangle and the dirty bounding box; otherwise it blits from the
given surface into the rectangle that covers exactly the positions of both,
and the source rectangle of the blit is the source rectangle of the call moved
by the offset by which the corner of the destination rectangle was moved, with
the width and height of the clipped destination rectangle. -/
theorem drawEffect_clips (dirty dst_rect src_rect : SDL_Rect) (same_object : Bool)
    (surface : SurfaceRef) :
    ((∀ x y : Int, ¬ (dst_rect.covers x y ∧ dirty.covers x y)) →
      drawEffect dirty dst_rect src_rect same_object surface = none) ∧
    ((∃ x y : Int, dst_rect.covers x y ∧ dirty.covers x y) →
      ∃ b, drawEffect dirty dst_rect src_rect same_object surface = some b ∧
        b.surface = surface ∧
        (∀ x y : Int, b.dst_rect.covers x y ↔ dst_rect.covers x y ∧ dirty.covers x y) ∧
        b.src_rect.x - (if same_object then dst_rect else src_rect).x =
          b.dst_rect.x - dst_rect.x ∧
        b.src_rect.y - (if same_object then dst_rect else src_rect).y =
          b.dst_rect.y - dst_rect.y ∧
        b.src_rect.w = b.dst_rect.w ∧ b.src_rect.h = b.dst_rect.h) := by
  constructor
  · intro h
    unfold drawEffect doClipping
    dsimp only
    by_cases he : min (dst_rect.x + dst_rect.w) (dirty.x + dirty.w) - max dst_rect.x dirty.x ≤ 0 ∨
        min (dst_rect.y + dst_rect.h) (dirty.y + dirty.h) - max dst_rect.y dirty.y ≤ 0
    · rw [if_pos he]
    · exfalso
      apply h (max dst_rect.x dirty.x) (max dst_rect.y dirty.y)
      unfold SDL_Rect.covers
      omega
  · rintro ⟨x, y, hd, hc⟩
    unfold SDL_Rect.covers at hd hc
    have he : ¬ (min (dst_rect.x + dst_rect.w) (dirty.x + dirty.w) - max dst_rect.x dirty.x ≤ 0 ∨
        min (dst_rect.y + dst_rect.h) (dirty.y + dirty.h) - max dst_rect.y dirty.y ≤ 0) := by
      omega
    unfold drawEffect doClipping
    dsimp only
    rw [if_neg he]
    refine ⟨_, rfl, rfl, ?_, ?_, ?_, ?_, ?_⟩
    · intro x' y'
      unfold SDL_Rect.covers
      dsimp only
      omega
    · cases same_object <;> simp
    · cases same_object <;> simp
    · cases same_object <;> rfl
    · cases same_object <;> rfl

theorem drawEffect_clips_witness :
    ∃ b, drawEffect ⟨100, 100, 200, 100⟩ ⟨80, 0, 40, 480⟩ ⟨0, 0, 40, 480⟩ false
        .effect_dst_surface = some b ∧
      b.surface = .effect_dst_surface ∧
      (∀ x y : Int, b.dst_rect.covers x y ↔
        SDL_Rect.covers ⟨80, 0, 40, 480⟩ x y ∧ SDL_Rect.covers ⟨100, 100, 200, 100⟩ x y) ∧
      b.src_rect.x - (if false then (⟨80, 0, 40, 480⟩ : SDL_Rect) else ⟨0, 0, 40, 480⟩).x =
        b.dst_rect.x - 80 ∧
      b.src_rect.y - (if false then (⟨80, 0, 40, 480⟩ : SDL_Rect) else ⟨0, 0, 40, 480⟩).y =
        b.dst_rect.y - 0 ∧
      b.src_rect.w = b.dst_rect.w ∧ b.src_rect.h = b.dst_rect.h :=
  (drawEffect_clips ⟨100, 100, 200, 100⟩ ⟨80, 0, 40, 480⟩ ⟨0, 0, 40, 480⟩ false
    .effect_dst_surface).2 ⟨100, 100, by decide, by decide⟩

/-! ## Scheduler: when the wait is 0 -/

/-- C25 (as stated, refuted): without any sprite, `proceedAnimation` returns 0
although no sprite is due; and for the looping sprite with durations 100, 150,
200 at cel 0 with `remaining_time = 0`, which is due, it returns 100. -/
theorem proceedAnimation_zero_counterexample :
    ((proceedAnimation (spriteScheduler [])).map Prod.fst = some 0 ∧
      (entries (spriteScheduler [])).filter AnimationInfo.active = []) ∧
    ((proceedAnimation (spriteScheduler [loopSprite 0 0])).map Prod.fst = some 100 ∧
      (loopSprite 0 0).active = true ∧ (loopSprite 0 0).remaining_time ≤ 0) := by
  decide

theorem candidateWait_zero (a : AnimationInfo) (h : candidateWait a = 0) :
    a.remaining_time = 0 ∧ (a.duration_at a.current_cell).getD 0 = 0 := by
  unfold candidateWait at h
  by_cases hz : a.remaining_time = 0
  · rw [if_pos hz] at h; exact ⟨hz, h⟩
  · rw [if_neg hz] at h; exact absurd h hz

/-- C25 (amended): in every well-formed state in which no candidate wait
equals `-1`, `proceedAnimation` returns 0 if and only if no entry is showing
and animatable, or no candidate wait is negative and some showing, animatable
entry has `remaining_time == 0` and a current cel of duration 0.  A due sprite
whose current cel has a positive duration contributes that duration, not 0,
and a negative `remaining_time` is returned as it is. -/
theorem proceedAnimation_zero_iff (s : Scheduler) (hwf : s.WellFormed)
    (hne : ∀ c ∈ candidates s, c ≠ -1) :
    ∃ r s', proceedAnimation s = some (r, s') ∧
      (r = 0 ↔
        (entries s).filter AnimationInfo.active = [] ∨
        ((∀ c ∈ candidates s, 0 ≤ c) ∧
          ∃ a ∈ entries s, a.active = true ∧ a.remaining_time = 0 ∧
            (a.duration_at a.current_cell).getD 0 = 0)) := by
  obtain ⟨s', h, _⟩ := proceedAnimation_eq s hwf
  obtain ⟨hnil, hcons⟩ := finalWait_isMin (candidates s) hne
  refine ⟨_, s', h, ?_⟩
  by_cases hc : (entries s).filter AnimationInfo.active = []
  · have : candidates s = [] := by unfold candidates; rw [hc]; rfl
    exact ⟨fun _ => Or.inl hc, fun _ => hnil this⟩
  · have hcs : candidates s ≠ [] := by
      unfold candidates
      intro hm
      exact hc (List.map_eq_nil_iff.mp hm)
    obtain ⟨hmem, hle⟩ := hcons hcs
    constructor
    · intro hr
      right
      rw [hr] at hmem hle
      refine ⟨hle, ?_⟩
      unfold candidates at hmem
      obtain ⟨a, ha, hcw⟩ := List.mem_map.mp hmem
      obtain ⟨hin, hact⟩ := List.mem_filter.mp ha
      obtain ⟨hz, hd⟩ := candidateWait_zero a hcw
      exact ⟨a, hin, hact, hz, hd⟩
    · rintro (h0 | ⟨hpos, a, hin, hact, hz, hd⟩)
      · exact absurd h0 hc
      · have hcw : candidateWait a = 0 := by
          unfold candidateWait
          rw [if_pos hz]
          exact hd
        have hmem0 : (0 : Int) ∈ candidates s := by
          unfold candidates
          exact List.mem_map.mpr ⟨a, List.mem_filter.mpr ⟨hin, hact⟩, hcw⟩
        have h1 := hle 0 hmem0
        have h2 := hpos _ hmem
        omega

theorem proceedAnimation_zero_iff_witness :
    ∃ r s', proceedAnimation (spriteScheduler [loopSprite 0 0, loopSprite 40 1]) =
        some (r, s') ∧
      (r = 0 ↔
        (entries (spriteScheduler [loopSprite 0 0, loopSprite 40 1])).filter
            AnimationInfo.active = [] ∨
        ((∀ c ∈ candidates (spriteScheduler [loopSprite 0 0, loopSprite 40 1]), 0 ≤ c) ∧
          ∃ a ∈ entries (spriteScheduler [loopSprite 0 0, loopSprite 40 1]),
            a.active = true ∧ a.remaining_time = 0 ∧
              (a.duration_at a.current_cell).getD 0 = 0)) :=
  proceedAnimation_zero_iff (spriteScheduler [loopSprite 0 0, loopSprite 40 1]) (by decide)
    (by decide)

/-! ## The sprite descriptor reader: loop mode and animatable flag -/

theorem cellDurations_frame (env : ParseEnv) (a : TaggedAnimation) (b : List Char) :
    (cellDurations env a b).1.is_animatable = a.is_animatable ∧
    (cellDurations env a b).1.visible = a.visible := by
  unfold cellDurations
  split_ifs <;> exact ⟨rfl, rfl⟩

theorem parseFileName_frame (env : ParseEnv) (a : TaggedAnimation) (b : List Char) :
    (parseFileName env a b).toAnimationInfo = a.toAnimationInfo := by
  unfold parseFileName
  dsimp only
  split_ifs <;> rfl

theorem inactive_untouched (a : AnimationInfo) (h : a.active = false) :
    advanceIfDue a = a ∧ ∀ t : Int, chargedEntry t a = a := by
  constructor
  · simp [advanceIfDue, h]
  · intro t; simp [chargedEntry, h]

/-- C28: for a descriptor whose cell section `/cells,duration,mode` has a
positive cell count, `parseTaggedString` sets `loop_mode` to the value of the
mode character (`*buffer - '0'`), sets `is_animatable` when that value is not
3, and leaves `is_animatable` as `removeTag` left it when the value is 3; when
`removeTag` leaves the flag clear, a mode-3 sprite is not an active entry of
the scheduler, which neither advances nor charges it. -/
theorem parseTaggedString_loop_mode (env : ParseEnv) (anim a : TaggedAnimation)
    (is_mask : Bool) (buffer : List Char)
    (hname : anim.image_name ≠ none)
    (hhead : parseHead env anim is_mask = .ok (a, buffer))
    (hslash : charAt buffer 0 = '/')
    (hcount : 0 < (env.getNumberFromBuffer buffer.tail).1) :
    ∃ a', parseTaggedString env anim is_mask = .ok (a', []) ∧
      a'.loop_mode = ((loopModeChar env a buffer).toNat : Int) - 48 ∧
      a'.is_animatable =
        (if ((loopModeChar env a buffer).toNat : Int) - 48 ≠ 3 then true
         else (env.removeTag anim).is_animatable) ∧
      (((loopModeChar env a buffer).toNat : Int) - 48 = 3 →
        (env.removeTag anim).is_animatable = false →
        a'.toAnimationInfo.active = false ∧
        advanceIfDue a'.toAnimationInfo = a'.toAnimationInfo ∧
        ∀ t : Int, chargedEntry t a'.toAnimationInfo = a'.toAnimationInfo) := by
  obtain ⟨_, _, _, hanim, _⟩ := parseHead_frame env anim a is_mask buffer hhead
  have hne : ¬ (env.getNumberFromBuffer buffer.tail).1 = 0 := by omega
  have hnl : ¬ (env.getNumberFromBuffer buffer.tail).1 < 0 := by omega
  have hcd := (cellDurations_frame env
    { a with num_of_cells := (env.getNumberFromBuffer buffer.tail).1 }
    (env.getNumberFromBuffer buffer.tail).2.tail).1
  have hpar : parseTaggedString env anim is_mask =
      .ok (parseFileName env
        (if ((loopModeChar env a buffer).toNat : Int) - 48 ≠ 3 then
          { (cellDurations env
              { a with num_of_cells := (env.getNumberFromBuffer buffer.tail).1 }
              (env.getNumberFromBuffer buffer.tail).2.tail).1 with
            loop_mode := ((loopModeChar env a buffer).toNat : Int) - 48,
            is_animatable := true }
         else
          { (cellDurations env
              { a with num_of_cells := (env.getNumberFromBuffer buffer.tail).1 }
              (env.getNumberFromBuffer buffer.tail).2.tail).1 with
            loop_mode := ((loopModeChar env a buffer).toNat : Int) - 48 })
        (skipTo (fun c => c = ';') (cellDurations env
          { a with num_of_cells := (env.getNumberFromBuffer buffer.tail).1 }
          (env.getNumberFromBuffer buffer.tail).2.tail).2.tail), []) := by
    unfold parseTaggedString
    split
    · rename_i hn; exact absurd hn hname
    · simp only [hhead, hslash, if_true, parseCells, hne, hnl, if_false, loopModeChar]
  refine ⟨_, hpar, ?_, ?_, ?_⟩
  · rw [parseFileName_frame]
    split_ifs <;> rfl
  · rw [parseFileName_frame]
    split_ifs
    · rfl
    · show (cellDurations env _ _).1.is_animatable = _
      rw [hcd]
      exact hanim
  · intro h3 hclear
    have hact : (parseFileName env
        (if ((loopModeChar env a buffer).toNat : Int) - 48 ≠ 3 then
          { (cellDurations env
              { a with num_of_cells := (env.getNumberFromBuffer buffer.tail).1 }
              (env.getNumberFromBuffer buffer.tail).2.tail).1 with
            loop_mode := ((loopModeChar env a buffer).toNat : Int) - 48,
            is_animatable := true }
         else
          { (cellDurations env
              { a with num_of_cells := (env.getNumberFromBuffer buffer.tail).1 }
              (env.getNumberFromBuffer buffer.tail).2.tail).1 with
            loop_mode := ((loopModeChar env a buffer).toNat : Int) - 48 })
        (skipTo (fun c => c = ';') (cellDurations env
          { a with num_of_cells := (env.getNumberFromBuffer buffer.tail).1 }
          (env.getNumberFromBuffer buffer.tail).2.tail).2.tail)).toAnimationInfo.active =
        false := by
      rw [parseFileName_frame, if_neg (not_not.mpr h3)]
      show ((cellDurations env _ _).1.visible && (cellDurations env _ _).1.is_animatable) = false
      rw [hcd, hanim, hclear, Bool.and_false]
    exact ⟨hact, inactive_untouched _ hact⟩

theorem parseTaggedString_loop_mode_witness :
    ∃ a', parseTaggedString resettingParseEnv (exampleSprite ":l/4,<10,20,30,40>,3;img.png")
        false = .ok (a', []) ∧
      a'.loop_mode = 3 ∧ a'.toAnimationInfo.active = false ∧
      ∀ t : Int, chargedEntry t a'.toAnimationInfo = a'.toAnimationInfo := by
  obtain ⟨a', h, hl, _, hs⟩ := parseTaggedString_loop_mode resettingParseEnv
    (exampleSprite ":l/4,<10,20,30,40>,3;img.png")
    { exampleSprite ":l/4,<10,20,30,40>,3;img.png" with
      is_animatable := false, duration_list := [], num_of_cells := 1, current_cell := 0,
      trans_mode := .TRANS_TOPLEFT }
    false "/4,<10,20,30,40>,3;img.png".toList (by decide) rfl (by decide) (by decide)
  have h3 : ((loopModeChar resettingParseEnv
      { exampleSprite ":l/4,<10,20,30,40>,3;img.png" with
        is_animatable := false, duration_list := [], num_of_cells := 1, current_cell := 0,
        trans_mode := .TRANS_TOPLEFT }
      "/4,<10,20,30,40>,3;img.png".toList).toNat : Int) - 48 = 3 := by decide
  obtain ⟨hact, _, hch⟩ := hs h3 rfl
  exact ⟨a', h, hl.trans h3, hact, hch⟩

/-! ## Scheduler: rounds of advance and charge -/

/-- C27 (as stated, refuted): the looping sprite with two cels lasting 100
and 99 ticks, started at cel 0 with `remaining_time = 100`.  The second round
moves it to cel 1 and returns the wait 100 of the cel just left, so that the
charge leaves `remaining_time = -1`; from then on every round returns the wait
0 and changes nothing: after 200 charged ticks, more than the 199 of a whole
cycle, the sprite is at cel 1 and stays there. -/
theorem animationRounds_counterexample :
    (animationRounds 3 (spriteScheduler [shortSprite 100 0])).map
        (fun r => (r.1, r.2.sprite_info)) = some ([100, 100, 0], [shortSprite (-1) 1]) ∧
    (animationRound (spriteScheduler [shortSprite (-1) 1])).map
        (fun r => (r.1, r.2.sprite_info)) = some (0, [shortSprite (-1) 1]) ∧
    (animationRounds 40 (spriteScheduler [shortSprite 100 0])).map
        (fun r => (r.1.sum, r.2.sprite_info)) = some (200, [shortSprite (-1) 1]) := by
  decide

/-- A round in a well-formed state: the wait, and what becomes of the
sprites. -/
theorem animationRound_sprites (s : Scheduler) (hwf : s.WellFormed) :
    (animationRound s).map (fun r => (r.1, r.2.sprite_info)) =
      some (finalWait ((candidates s).foldl stepMin (-1)),
        (s.sprite_info.map advanceIfDue).map
          (chargedEntry (finalWait ((candidates s).foldl stepMin (-1))))) := by
  obtain ⟨s', h, _, h2, _⟩ := proceedAnimation_eq s hwf
  have hr := (resetRemainingTime_frame s' (finalWait ((candidates s).foldl stepMin (-1)))).2.1
  simp only [animationRound, h, Option.map_some', hr, h2]

theorem spriteScheduler_single (a : AnimationInfo) (hact : a.active = true)
    (hwf : a.WellFormed) :
    (spriteScheduler [a]).WellFormed ∧ candidates (spriteScheduler [a]) = [candidateWait a] := by
  have hh : hiddenCursor.active = false := rfl
  constructor
  · intro b hb hbact
    simp only [entries, spriteScheduler, applicableCursor, cursorChoice, List.take,
      List.reverse_cons, List.reverse_nil, List.nil_append, List.append_nil, List.mem_append,
      List.mem_cons, List.mem_singleton, List.not_mem_nil, or_false, Bool.not_false,
      if_true] at hb
    rcases hb with (hb | hb | hb) | hb
    · rw [hb, hh] at hbact; cases hbact
    · rw [hb, hh] at hbact; cases hbact
    · rw [hb, hh] at hbact; cases hbact
    · rw [hb]; exact hwf
  · simp [candidates, entries, spriteScheduler, applicableCursor, cursorChoice, hh, hact,
      List.filter_cons]

/-- A round on a single sprite that is not due: the wait is its remaining
time, the cel stays, and the charge leaves the remaining time 0. -/
theorem animationRound_waiting (a : AnimationInfo) (hact : a.active = true)
    (hwf : a.WellFormed) (hz : a.remaining_time ≠ 0) (hm : a.remaining_time ≠ -1) :
    (animationRound (spriteScheduler [a])).map (fun r => (r.1, r.2.sprite_info)) =
      some (a.remaining_time, [{ a with remaining_time := 0 }]) := by
  obtain ⟨hs, hc⟩ := spriteScheduler_single a hact hwf
  rw [animationRound_sprites _ hs, hc]
  have hcw : candidateWait a = a.remaining_time := by simp [candidateWait, hz]
  have hfw : finalWait ([candidateWait a].foldl stepMin (-1)) = a.remaining_time := by
    simp [hcw, stepMin, finalWait, hm]
  rw [hfw]
  simp [spriteScheduler, advanceIfDue, hz, chargedEntry, hact]

/-- A round on a single looping sprite that is due: it moves to the next cel,
the wait is the duration of the cel it leaves, and the charge takes that wait
off the duration of the new cel. -/
theorem animationRound_due (a : AnimationInfo) (d d' : Int) (hact : a.active = true)
    (hwf : a.WellFormed) (hloop : a.loop_mode = 0) (hz : a.remaining_time = 0)
    (hd : a.duration_at a.current_cell = some d) (hd' : a.duration_at (nextCell a) = some d')
    (hm : d ≠ -1) :
    (animationRound (spriteScheduler [a])).map (fun r => (r.1, r.2.sprite_info)) =
      some (d, [{ a with current_cell := nextCell a, remaining_time := d' - d }]) := by
  have hp : a.proceedAnimation =
      some ({ a with current_cell := nextCell a, remaining_time := d' }, true) := by
    unfold AnimationInfo.proceedAnimation
    unfold nextCell at hd'
    by_cases h1 : a.current_cell + 1 < a.num_of_cells
    · rw [if_pos h1] at hd'
      simp [hloop, h1, hd', nextCell]
    · rw [if_neg h1] at hd'
      simp [hloop, h1, hd', nextCell]
  obtain ⟨hs, hc⟩ := spriteScheduler_single a hact hwf
  rw [animationRound_sprites _ hs, hc]
  have hcw : candidateWait a = d := by simp [candidateWait, hz, hd]
  have hfw : finalWait ([candidateWait a].foldl stepMin (-1)) = d := by
    simp [hcw, stepMin, finalWait, hm]
  rw [hfw]
  have hact' : AnimationInfo.active
      { a with current_cell := nextCell a, remaining_time := d' } = true := hact
  simp [spriteScheduler, advanceIfDue, hz, hact, hp, chargedEntry, hact']

/-- C27 (amended): for a showing, animatable, well-formed looping sprite that
is alone in the scheduler, one round of `proceedAnimation` followed by
`resetRemainingTime` with the returned wait does the following.  If
`remaining_time` is neither 0 nor -1, the wait is `remaining_time`, the cel
stays and `remaining_time` becomes 0.  If `remaining_time` is 0, the sprite
moves to the next cel (cel 0 after the last), the wait is the duration `d` of
the cel it leaves (taken not to be -1), and `remaining_time` becomes `d' - d`
for the duration `d'` of the new cel.  For the durations 100, 150, 200, from
cel 0 with `remaining_time = 100`, five rounds return the waits 100, 100, 50,
150, 50, in total 450 ticks, and leave the sprite at cel 2 with
`remaining_time = 0`; the next `proceedAnimation` moves it to cel 0 and
returns 200. -/
theorem animationRound_looping (a : AnimationInfo) (d d' : Int) (hact : a.active = true)
    (hwf : a.WellFormed) (hloop : a.loop_mode = 0) :
    (a.remaining_time ≠ 0 → a.remaining_time ≠ -1 →
      (animationRound (spriteScheduler [a])).map (fun r => (r.1, r.2.sprite_info)) =
        some (a.remaining_time, [{ a with remaining_time := 0 }])) ∧
    (a.remaining_time = 0 → a.duration_at a.current_cell = some d →
      a.duration_at (nextCell a) = some d' → d ≠ -1 →
      (animationRound (spriteScheduler [a])).map (fun r => (r.1, r.2.sprite_info)) =
        some (d, [{ a with current_cell := nextCell a, remaining_time := d' - d }])) ∧
    (animationRounds 5 (spriteScheduler [loopSprite 100 0])).map
        (fun r => (r.1, r.1.sum, r.2.sprite_info)) =
      some ([100, 100, 50, 150, 50], 450, [loopSprite 0 2]) ∧
    (proceedAnimation (spriteScheduler [loopSprite 0 2])).map
        (fun r => (r.1, r.2.sprite_info)) = some (200, [loopSprite 100 0]) := by
  refine ⟨fun hz hm => animationRound_waiting a hact hwf hz hm,
    fun hz hd hd' hm => animationRound_due a d d' hact hwf hloop hz hd hd' hm, by decide,
    by decide⟩

theorem animationRound_looping_witness :
    (animationRound (spriteScheduler [loopSprite 50 1])).map (fun r => (r.1, r.2.sprite_info)) =
        some (50, [{ loopSprite 50 1 with remaining_time := 0 }]) ∧
    (animationRound (spriteScheduler [loopSprite 0 2])).map (fun r => (r.1, r.2.sprite_info)) =
        some (200, [{ loopSprite 0 2 with
          current_cell := nextCell (loopSprite 0 2), remaining_time := 100 - 200 }]) :=
  ⟨(animationRound_looping (loopSprite 50 1) 150 200 (by decide) (by decide) (by decide)).1
      (by decide) (by decide),
    (animationRound_looping (loopSprite 0 2) 200 100 (by decide) (by decide) (by decide)).2.1
      (by decide) (by decide) (by decide) (by decide)⟩

/-! ## The mosaic `generateMosaic` -/

theorem fillRow_eq (p : Nat) (n : Nat) :
    ∀ (ptr : Int) (dst : Int → Nat),
      fillRow p n ptr dst =
        (fun k => if ptr ≤ k ∧ k < ptr + n then p else dst k, ptr + n) := by
  induction n with
  | zero =>
    intro ptr dst
    simp only [fillRow, Nat.cast_zero, add_zero]
    congr 1
    funext k
    rw [if_neg (by omega)]
  | succ n ih =>
    intro ptr dst
    rw [fillRow, ih]
    congr 1
    · funext k
      by_cases h1 : ptr + 1 ≤ k ∧ k < ptr + 1 + (n : Int)
      · rw [if_pos h1, if_pos (by push_cast; omega)]
      · rw [if_neg h1]
        by_cases h2 : k = ptr
        · rw [if_pos h2, if_pos (by push_cast; omega)]
        · rw [if_neg h2, if_neg (by push_cast; omega)]
    · push_cast; omega

/-- The position of the element `y * total_width + x` inside a row of
elements: it lies in the piece `[j, j + width2)` of row `i` exactly when
`y = i` and `j <= x < j + width2`. -/
theorem row_piece (tw i j width2 x y : Int) (hx0 : 0 ≤ x) (hx : x < tw) (hj : 0 ≤ j)
    (hjw : j + width2 ≤ tw) :
    (i * tw + j ≤ y * tw + x ∧ y * tw + x < i * tw + j + width2) ↔
      (y = i ∧ j ≤ x ∧ x < j + width2) := by
  constructor
  · rintro ⟨h1, h2⟩
    have hy : y = i := by
      by_contra hne
      rcases lt_or_gt_of_ne hne with hlt | hgt
      · have : y * tw ≤ (i - 1) * tw := mul_le_mul_of_nonneg_right (by omega) (by omega)
        have e : (i - 1) * tw = i * tw - tw := by ring
        omega
      · have : (i + 1) * tw ≤ y * tw := mul_le_mul_of_nonneg_right (by omega) (by omega)
        have e : (i + 1) * tw = i * tw + tw := by ring
        omega
    subst hy
    exact ⟨rfl, by omega, by omega⟩
  · rintro ⟨rfl, h1, h2⟩
    exact ⟨by omega, by omega⟩

/-- One block: the elements of the columns `[j, j + width2)` in the `n` rows
from `i` upwards get the value `p`, every other element of a row is kept. -/
theorem fillBlock_get (p : Nat) (tw width2 j : Int) (hw : 0 ≤ width2) (hj : 0 ≤ j)
    (hjw : j + width2 ≤ tw) (n : Nat) :
    ∀ (i : Int) (dst : Int → Nat) (x y : Int), 0 ≤ x → x < tw →
      fillBlock p tw width2 n (i * tw + j) dst (y * tw + x) =
        if j ≤ x ∧ x < j + width2 ∧ i - n < y ∧ y ≤ i then p else dst (y * tw + x) := by
  induction n with
  | zero =>
    intro i dst x y _ _
    rw [fillBlock, if_neg (by push_cast; omega)]
  | succ n ih =>
    intro i dst x y hx0 hx
    rw [fillBlock, fillRow_eq]
    dsimp only
    have hcast : ((width2.toNat : Nat) : Int) = width2 := Int.toNat_of_nonneg hw
    have hptr : i * tw + j + ((width2.toNat : Nat) : Int) - (tw + width2) = (i - 1) * tw + j := by
      rw [hcast]; ring
    rw [hptr, ih (i - 1) _ x y hx0 hx, hcast]
    have hpiece := row_piece tw i j width2 x y hx0 hx hj hjw
    by_cases hin : j ≤ x ∧ x < j + width2 ∧ i - 1 - (n : Int) < y ∧ y ≤ i - 1
    · rw [if_pos hin, if_pos (by push_cast; omega)]
    · rw [if_neg hin]
      by_cases hrow : i * tw + j ≤ y * tw + x ∧ y * tw + x < i * tw + j + width2
      · rw [if_pos hrow]
        have := hpiece.mp hrow
        rw [if_pos (by push_cast; omega)]
      · rw [if_neg hrow]
        have hnot : ¬ (y = i ∧ j ≤ x ∧ x < j + width2) := fun h => hrow (hpiece.mpr h)
        rw [if_neg (by push_cast; omega)]

/-- The columns of one row of blocks, from column `j` on: every block gets
the pixel of the frame at its first column in row `i`, and the elements of the
rows outside the band, left of `j` or right of the screen are kept. -/
theorem mosaicCols_get (src : Int → Nat) (tw sw w i : Int) (hw : 0 < w) (hi : 0 ≤ i)
    (hsw : sw ≤ tw) (bound : Nat) :
    ∀ (j : Int) (dst : Int → Nat), 0 ≤ j → sw - j ≤ bound →
      ∃ dst', mosaicCols src tw sw w i bound j dst = some dst' ∧
        (∀ (b : Nat) (x y : Int), j + (b : Int) * w ≤ x → x < j + (b : Int) * w + w → x < sw →
          i - w < y → 0 ≤ y → y ≤ i → dst' (y * tw + x) = src (i * tw + (j + (b : Int) * w))) ∧
        (∀ x y : Int, 0 ≤ x → x < tw → (x < j ∨ sw ≤ x ∨ y ≤ i - w ∨ y < 0 ∨ i < y) →
          dst' (y * tw + x) = dst (y * tw + x)) := by
  induction bound with
  | zero =>
    intro j dst hj hb
    have hg : ¬ j < sw := by simp only [Nat.cast_zero] at hb; omega
    refine ⟨dst, by rw [mosaicCols, if_neg hg], ?_, fun _ _ _ _ _ => rfl⟩
    intro b x y h1 _ h3 _ _ _
    have : 0 ≤ (b : Int) * w := mul_nonneg (Int.ofNat_nonneg b) (le_of_lt hw)
    omega
  | succ bound ih =>
    intro j dst hj hb
    by_cases hg : j < sw
    · rw [mosaicCols, if_pos hg]
      dsimp only
      generalize hh2 : (if i + 1 - w < 0 then i + 1 else w) = height2
      generalize hw2 : (if j + w > sw then sw - j else w) = width2
      have hh2' : 0 < height2 ∧ ∀ y : Int, (i - height2 < y ∧ y ≤ i) ↔
          (i - w < y ∧ 0 ≤ y ∧ y ≤ i) := by
        rw [← hh2]
        split_ifs <;> refine ⟨by omega, fun y => ?_⟩ <;> omega
      have hw2' : 0 < width2 ∧ j + width2 ≤ sw ∧ ∀ x : Int, (x < j + width2) ↔
          (x < j + w ∧ x < sw) := by
        rw [← hw2]
        split_ifs <;> refine ⟨by omega, by omega, fun x => ?_⟩ <;> omega
      obtain ⟨hh0, hband⟩ := hh2'
      obtain ⟨hw0, hwsw, hcol⟩ := hw2'
      have hcast : ((height2.toNat : Nat) : Int) = height2 := Int.toNat_of_nonneg (le_of_lt hh0)
      have hblock := fillBlock_get (src (i * tw + j)) tw width2 j (le_of_lt hw0) hj (by omega)
        height2.toNat i dst
      rw [hcast] at hblock
      obtain ⟨dst', hrun, hval, hframe⟩ := ih (j + w)
        (fillBlock (src (i * tw + j)) tw width2 height2.toNat (i * tw + j) dst) (by omega)
        (by push_cast at hb; omega)
      refine ⟨dst', hrun, ?_, ?_⟩
      · intro b x y h1 h2 h3 h4 h5 h6
        cases b with
        | zero =>
          simp only [Nat.cast_zero, zero_mul, add_zero] at h1 h2 ⊢
          rw [hframe x y (by omega) (by omega) (Or.inl h2), hblock x y (by omega) (by omega)]
          rw [if_pos ⟨h1, (hcol x).mpr ⟨h2, h3⟩, (hband y).mpr ⟨h4, h5, h6⟩⟩]
        | succ b =>
          have e : j + ((b + 1 : Nat) : Int) * w = j + w + (b : Int) * w := by push_cast; ring
          rw [e] at h1 h2 ⊢
          exact hval b x y h1 h2 h3 h4 h5 h6
      · intro x y hx0 hx hout
        have hout' : x < j + w ∨ sw ≤ x ∨ y ≤ i - w ∨ y < 0 ∨ i < y := by omega
        rw [hframe x y hx0 hx hout', hblock x y hx0 hx]
        have hb1 := hband y
        have hc1 := hcol x
        rw [if_neg (by omega)]
    · refine ⟨dst, by rw [mosaicCols, if_neg hg], ?_, fun _ _ _ _ _ => rfl⟩
      intro b x y h1 _ h3 _ _ _
      have : 0 ≤ (b : Int) * w := mul_nonneg (Int.ofNat_nonneg b) (le_of_lt hw)
      omega

/-- The rows of blocks from row `i` upwards: the block in band `a` and column
`b` gets the pixel of the frame at its bottom-left corner, and the elements
below row `i`, above row 0 or right of the screen are kept. -/
theorem mosaicRows_get (src : Int → Nat) (tw sw w : Int) (hw : 0 < w) (hsw : sw ≤ tw)
    (bound : Nat) :
    ∀ (i : Int) (dst : Int → Nat), i + 1 ≤ bound →
      ∃ dst', mosaicRows src tw sw w bound i dst = some dst' ∧
        (∀ (a b : Nat) (x y : Int), 0 ≤ i - (a : Int) * w → i - (a : Int) * w - w < y → 0 ≤ y →
          y ≤ i - (a : Int) * w → (b : Int) * w ≤ x → x < (b : Int) * w + w → x < sw →
          dst' (y * tw + x) = src ((i - (a : Int) * w) * tw + (b : Int) * w)) ∧
        (∀ x y : Int, 0 ≤ x → x < tw → (sw ≤ x ∨ y < 0 ∨ i < y) →
          dst' (y * tw + x) = dst (y * tw + x)) := by
  induction bound with
  | zero =>
    intro i dst hb
    have hg : ¬ i ≥ 0 := by simp only [Nat.cast_zero] at hb; omega
    refine ⟨dst, by rw [mosaicRows, if_neg hg], ?_, fun _ _ _ _ _ => rfl⟩
    intro a b x y h1 _ _ _ _ _ _
    have : 0 ≤ (a : Int) * w := mul_nonneg (Int.ofNat_nonneg a) (le_of_lt hw)
    omega
  | succ bound ih =>
    intro i dst hb
    by_cases hg : i ≥ 0
    · obtain ⟨dst1, hcols, hval1, hframe1⟩ := mosaicCols_get src tw sw w i hw hg hsw sw.toNat 0
        dst (le_refl 0) (by omega)
      obtain ⟨dst', hrun, hval, hframe⟩ := ih (i - w) dst1 (by push_cast at hb; omega)
      refine ⟨dst', by rw [mosaicRows, if_pos hg, hcols]; exact hrun, ?_, ?_⟩
      · intro a b x y h1 h2 h3 h4 h5 h6 h7
        have hb0 : 0 ≤ (b : Int) * w := mul_nonneg (Int.ofNat_nonneg b) (le_of_lt hw)
        cases a with
        | zero =>
          simp only [Nat.cast_zero, zero_mul, sub_zero] at h1 h2 h4 ⊢
          rw [hframe x y (by omega) (by omega) (Or.inr (Or.inr h2))]
          have := hval1 b x y (by omega) (by omega) h7 h2 h3 h4
          rw [this, zero_add]
        | succ a =>
          have e : i - ((a + 1 : Nat) : Int) * w = i - w - (a : Int) * w := by push_cast; ring
          rw [e] at h1 h2 h4 ⊢
          exact hval a b x y h1 h2 h3 h4 h5 h6 h7
      · intro x y hx0 hx hout
        rw [hframe x y hx0 hx (by omega), hframe1 x y hx0 hx (by omega)]
    · refine ⟨dst, by rw [mosaicRows, if_neg hg], ?_, fun _ _ _ _ _ => rfl⟩
      intro a b x y h1 _ _ _ _ _ _
      have : 0 ≤ (a : Int) * w := mul_nonneg (Int.ofNat_nonneg a) (le_of_lt hw)
      omega

/-- The mosaic of a frame, for a block width that is not 0: every block of the
screen, counted from the bottom-left corner, holds the pixel of the frame at
the bottom-left corner of the block. -/
theorem generateMosaic_get (src dst : Int → Nat) (tw sw sh level : Int)
    (hw : 0 < mosaicWidth level) (hsw : sw ≤ tw) :
    ∃ dst', generateMosaic src dst tw sw sh level = some dst' ∧
      (∀ (a b : Nat) (x y : Int), 0 ≤ sh - 1 - (a : Int) * mosaicWidth level →
        sh - 1 - (a : Int) * mosaicWidth level - mosaicWidth level < y → 0 ≤ y →
        y ≤ sh - 1 - (a : Int) * mosaicWidth level →
        (b : Int) * mosaicWidth level ≤ x → x < (b : Int) * mosaicWidth level + mosaicWidth level →
        x < sw →
        dst' (y * tw + x) =
          src ((sh - 1 - (a : Int) * mosaicWidth level) * tw + (b : Int) * mosaicWidth level)) ∧
      (∀ x y : Int, 0 ≤ x → x < tw → (sw ≤ x ∨ y < 0 ∨ sh ≤ y) →
        dst' (y * tw + x) = dst (y * tw + x)) := by
  obtain ⟨dst', hrun, hval, hframe⟩ := mosaicRows_get src tw sw (mosaicWidth level) hw hsw
    sh.toNat (sh - 1) dst (by omega)
  exact ⟨dst', hrun, hval, fun x y hx0 hx hout => hframe x y hx0 hx (by omega)⟩

/-- C26 (as stated, refuted): a frame of 2 by 2 pixels with the values 10, 20
in row 0 and 30, 40 in row 1, and level 5 (block width 5), so that the screen
is one block.  `generateMosaic` fills the block with 30, the pixel at its
bottom-left corner; the mean of the four pixels is 25. -/
theorem generateMosaic_counterexample :
    (generateMosaic (listBuffer [10, 20, 30, 40]) (listBuffer [1, 2, 3, 4]) 2 2 2 5).map
        (fun d => [d 0, d 1, d 2, d 3]) = some [30, 30, 30, 30] ∧
    (10 + 20 + 30 + 40) / 4 = 25 := by
  decide

/-- C26 (amended): for a level whose block width `w` (160 halved `level`
times) is not 0 and a screen no wider than a row of the surface,
`generateMosaic` returns, and it fills every block of the accumulation
surface with one pixel of the frame, the one at the bottom-left corner of the
block: the block in band `a` (counted upwards from the bottom row
`screen_height - 1`) and column `b` (counted from the left) holds the pixel of
the frame at row `screen_height - 1 - a * w`, column `b * w`.  No mean is
taken.  Elements right of the screen or outside its rows are kept. -/
theorem generateMosaic_fills_blocks (src dst : Int → Nat) (tw sw sh level : Int)
    (hw : 0 < mosaicWidth level) (hsw : sw ≤ tw) :
    ∃ dst', generateMosaic src dst tw sw sh level = some dst' ∧
      (∀ (a b : Nat) (x y : Int), 0 ≤ sh - 1 - (a : Int) * mosaicWidth level →
        sh - 1 - (a : Int) * mosaicWidth level - mosaicWidth level < y → 0 ≤ y →
        y ≤ sh - 1 - (a : Int) * mosaicWidth level →
        (b : Int) * mosaicWidth level ≤ x → x < (b : Int) * mosaicWidth level + mosaicWidth level →
        x < sw →
        dst' (y * tw + x) =
          src ((sh - 1 - (a : Int) * mosaicWidth level) * tw + (b : Int) * mosaicWidth level)) ∧
      (∀ x y : Int, 0 ≤ x → x < tw → (sw ≤ x ∨ y < 0 ∨ sh ≤ y) →
        dst' (y * tw + x) = dst (y * tw + x)) :=
  generateMosaic_get src dst tw sw sh level hw hsw

theorem generateMosaic_fills_blocks_witness :
    ∃ dst', generateMosaic (listBuffer [10, 20, 30, 40, 50, 60, 70, 80, 90, 100, 110, 120])
        (listBuffer []) 4 3 3 6 = some dst' ∧
      dst' (1 * 4 + 1) = 90 ∧ dst' (0 * 4 + 2) = 30 ∧ dst' (2 * 4 + 3) = 0 := by
  obtain ⟨dst', h, hval, hframe⟩ := generateMosaic_fills_blocks
    (listBuffer [10, 20, 30, 40, 50, 60, 70, 80, 90, 100, 110, 120]) (listBuffer []) 4 3 3 6
    (by decide) (by decide)
  refine ⟨dst', h, ?_, ?_, ?_⟩
  · exact (hval 0 0 1 1 (by decide) (by decide) (by decide) (by decide) (by decide) (by decide)
      (by decide)).trans (by decide)
  · exact (hval 1 1 2 0 (by decide) (by decide) (by decide) (by decide) (by decide) (by decide)
      (by decide)).trans (by decide)
  · exact (hframe 3 2 (by decide) (by decide) (by decide)).trans (by decide)

/-! ## Transition engine: the sinusoidal quakes -/

/-- For a positive duration and a positive intensity the quotient
`duration / 4 / no` of the code is `floor(duration / (4 * no))`. -/
theorem quakeLimit_eq (D no : Int) (hD : 0 < D) (hno : 0 < no) :
    (D.tdiv 4).tdiv no = D / (4 * no) := by
  rw [Int.tdiv_eq_ediv (le_of_lt hD) (by decide : (0 : Int) ≤ 4)]
  rw [Int.tdiv_eq_ediv (by omega) (le_of_lt hno)]
  obtain ⟨d, rfl⟩ := Int.eq_ofNat_of_zero_le (le_of_lt hD)
  obtain ⟨m, rfl⟩ := Int.eq_ofNat_of_zero_le (le_of_lt hno)
  have key := Nat.div_div_eq_div_mul d 4 m
  exact_mod_cast key

theorem SameSetup.isSineQuake {s s' : Engine} (h : SameSetup s s') (effect : Effect)
    (hq : IsSineQuake s (Ponscripter.effectNo s effect)) :
    IsSineQuake s' (Ponscripter.effectNo s' effect) := by
  rw [h.effectNo effect]
  obtain ⟨hc, _⟩ := h
  unfold IsSineQuake at *
  rw [hc]
  exact hq

/-- The switch on a sinusoidal quake: it returns, with the timer resolution
lowered to `duration / 4 / no`. -/
theorem effectSwitch_quake (env : StepEnv) (s : Engine) (effect : Effect)
    (counter resolution n : Int) (first_time : Bool) (hq : IsSineQuake s n)
    (h2 : s.screen_ratio2 ≠ 0) (hno : effect.no ≠ 0) :
    ∃ calls, effectSwitch env s effect counter resolution n first_time =
      .ok (calls, quakeTicks resolution ((effect.duration.tdiv 4).tdiv effect.no)) := by
  obtain ⟨hk, hr, h99⟩ := hq
  rw [effectSwitch_tail env s effect counter resolution n first_time hr, if_neg h99]
  unfold quakeTicks
  by_cases h0 : n = s.CUSTOM_EFFECT_NO + 0
  · rw [if_pos h0]
    exact sineQuake_ok env s effect counter resolution true h2 hno
  · rw [if_neg h0]
    have h1 : n = s.CUSTOM_EFFECT_NO + 1 := hk.resolve_left h0
    rw [if_pos h1]
    exact sineQuake_ok env s effect counter resolution false h2 hno

/-- One step of a sinusoidal quake without skip input: the counter grows by
the elapsed ticks lowered to `duration / 4 / no`; the step waits while the
counter is below the duration and completes otherwise. -/
theorem doEffect_quake (env : StepEnv) (s : Engine) (effect : Effect) (cdr : Bool)
    (hskip : NoSkipInput s) (h2 : s.screen_ratio2 ≠ 0) (hno : effect.no ≠ 0)
    (hq : IsSineQuake s (effectNo s effect)) :
    ∃ r s', doEffect env s effect cdr = .ok (r, s', effect) ∧
      s'.effect_counter = s.effect_counter +
        quakeTicks (env.ticks - s.effect_start_time_old)
          ((effect.duration.tdiv 4).tdiv effect.no) ∧
      (r = .RET_WAIT_REREAD ↔ s'.effect_counter < effect.duration) ∧
      (r = .RET_CONTINUE ↔ effect.duration ≤ s'.effect_counter) ∧
      s'.effect_start_time_old = env.ticks ∧ SameSetup s s' := by
  obtain ⟨hc, hw⟩ := hskip
  obtain ⟨calls, hsw⟩ := effectSwitch_quake env s effect s.effect_counter
    (env.ticks - s.effect_start_time_old) (effectNo s effect) (decide (s.effect_counter = 0))
    hq h2 hno
  have hne : effectNo s effect ≠ 1 := by
    obtain ⟨_, hr, _⟩ := hq
    omega
  unfold effectNo at hsw hne
  by_cases hlt : s.effect_counter + quakeTicks (env.ticks - s.effect_start_time_old)
      ((effect.duration.tdiv 4).tdiv effect.no) < effect.duration
  · simp only [doEffect, hc, hw, Bool.or_self, Bool.false_eq_true, if_false, hsw, hlt, hne,
      ne_eq, not_false_eq_true, and_self, if_true]
    refine ⟨_, _, rfl, rfl, ?_, ?_, rfl, by simp [SameSetup, hc, hw]⟩
    · exact ⟨fun _ => hlt, fun _ => rfl⟩
    · exact ⟨fun hh => (by cases hh), fun hh => absurd hlt (not_lt.mpr hh)⟩
  · simp only [doEffect, hc, hw, Bool.or_self, Bool.false_eq_true, if_false, hsw, hlt, hne,
      false_and, if_false]
    refine ⟨_, _, rfl, rfl, ?_, ?_, rfl, by simp [SameSetup, hc, hw]⟩
    · exact ⟨fun hh => (by cases hh), fun hh => absurd hh hlt⟩
    · exact ⟨fun _ => not_lt.mp hlt, fun _ => rfl⟩

theorem quakeTicks_le (elapsed limit : Int) : quakeTicks elapsed limit ≤ limit := by
  unfold quakeTicks
  split_ifs <;> omega

/-- A sinusoidal quake driven by steps without skip input: the run returns,
and when its last step completes the transition, the duration is at most the
counter at the start plus as many times `duration / 4 / no` as steps were
run. -/
theorem runTicks_quake (env : StepEnv) (cdr : Bool) (effect : Effect) (ticks : List Int) :
    ∀ s : Engine, NoSkipInput s → s.screen_ratio2 ≠ 0 → effect.no ≠ 0 →
      IsSineQuake s (effectNo s effect) →
      ∃ trace, runTicks env cdr ticks s effect = .ok trace ∧
        ∀ last, trace.getLast? = some (.RET_CONTINUE, last) →
          effect.duration ≤ s.effect_counter +
            (trace.length : Int) * (effect.duration.tdiv 4).tdiv effect.no := by
  induction ticks with
  | nil => intro s _ _ _ _; exact ⟨[], rfl, fun _ h => by cases h⟩
  | cons t rest ih =>
    intro s hskip h2 hno hq
    obtain ⟨r, s1, h, hc1, hwait, hdone, _, hsame⟩ := doEffect_quake
      { env with ticks := s.effect_start_time_old + t } s effect cdr hskip h2 hno hq
    have hle := quakeTicks_le
      (({ env with ticks := s.effect_start_time_old + t } : StepEnv).ticks -
        s.effect_start_time_old) ((effect.duration.tdiv 4).tdiv effect.no)
    cases r with
    | RET_CONTINUE =>
      refine ⟨[(.RET_CONTINUE, s1)], by simp only [runTicks, h], ?_⟩
      intro last _
      have := hdone.mp rfl
      simp only [List.length_singleton, Nat.cast_one, one_mul]
      omega
    | RET_WAIT_REREAD =>
      have h2' : s1.screen_ratio2 ≠ 0 := by
        obtain ⟨_, _, _, _, _, _, _, _, e, _⟩ := hsame
        rw [e]; exact h2
      obtain ⟨trace, hrun, hlast⟩ := ih s1 (hsame.noSkip hskip) h2' hno
        (hsame.isSineQuake effect hq)
      refine ⟨(.RET_WAIT_REREAD, s1) :: trace, by simp only [runTicks, h, hrun], ?_⟩
      intro last hl
      cases trace with
      | nil => simp at hl
      | cons step more =>
        rw [List.getLast?_cons_cons] at hl
        have := hlast last hl
        have e : (((RetCode.RET_WAIT_REREAD, s1) :: step :: more).length : Int) =
            ((step :: more).length : Int) + 1 := by
          simp only [List.length_cons]; push_cast; ring
        rw [e, add_mul, one_mul]
        omega

/-- C31: for a sinusoidal quake (effect number `CUSTOM_EFFECT_NO + 0` or
`CUSTOM_EFFECT_NO + 1`) with duration `D > 0` and intensity `no > 0`, without
skip input: the quotient `D / 4 / no` of the code is `floor(D / (4 * no))`;
every step, from any state of the transition and whatever the clock reads,
returns and adds at most `floor(D / (4 * no))` ticks to `effect_counter` (the
elapsed ticks, lowered to that bound); and a transition armed by `setEffect`
and driven by steps with any elapsed ticks runs without error and, when it
completes, has run at least `4 * no` steps. -/
theorem sineQuake_step_count (aenv : ArmEnv) (env : StepEnv) (s : Engine) (effect : Effect)
    (g u cdr : Bool) (ticks : List Int)
    (hD : 0 < effect.duration) (hno : 0 < effect.no) (hskip : NoSkipInput s)
    (h2 : s.screen_ratio2 ≠ 0) (hq : IsSineQuake s (effectNo s effect)) :
    (effect.duration.tdiv 4).tdiv effect.no = effect.duration / (4 * effect.no) ∧
    (∀ (env0 : StepEnv) (s0 : Engine), SameSetup s s0 →
      ∃ r s1, doEffect env0 s0 effect cdr = .ok (r, s1, effect) ∧
        s1.effect_counter = s0.effect_counter +
          quakeTicks (env0.ticks - s0.effect_start_time_old)
            (effect.duration / (4 * effect.no)) ∧
        s1.effect_counter - s0.effect_counter ≤ effect.duration / (4 * effect.no)) ∧
    ∃ trace, runTicks env cdr ticks (setEffect aenv s effect g u).2.1
        (setEffect aenv s effect g u).2.2 = .ok trace ∧
      ∀ last, trace.getLast? = some (.RET_CONTINUE, last) →
        4 * effect.no ≤ (trace.length : Int) := by
  have hlim := quakeLimit_eq effect.duration effect.no hD hno
  have hno' : effect.no ≠ 0 := ne_of_gt hno
  refine ⟨hlim, ?_, ?_⟩
  · intro env0 s0 hsame
    have h2' : s0.screen_ratio2 ≠ 0 := by
      obtain ⟨_, _, _, _, _, _, _, _, e, _⟩ := hsame
      rw [e]; exact h2
    obtain ⟨r, s1, h, hc1, _, _, _, _⟩ := doEffect_quake env0 s0 effect cdr
      (hsame.noSkip hskip) h2' hno' (hsame.isSineQuake effect hq)
    rw [hlim] at hc1
    have := quakeTicks_le (env0.ticks - s0.effect_start_time_old)
      (effect.duration / (4 * effect.no))
    exact ⟨r, s1, h, hc1, by omega⟩
  · have h0 : effect.effect ≠ 0 := by
      obtain ⟨_, hr, _⟩ := hq
      unfold effectNo at hr
      intro h0
      rw [h0] at hr
      split_ifs at hr <;> omega
    obtain ⟨_, hc, _, _, he, hdur, hC, hk1, hk2, hf1, hf2, _, _, _, hr2⟩ :=
      setEffect_armed aenv s effect g u h0
    have heno : effectNo (setEffect aenv s effect g u).2.1 (setEffect aenv s effect g u).2.2 =
        effectNo s effect := by
      unfold effectNo
      rw [hf1, hf2, he]
    have hskip' : NoSkipInput (setEffect aenv s effect g u).2.1 :=
      ⟨hk1.trans hskip.1, hk2.trans hskip.2⟩
    have hq' : IsSineQuake (setEffect aenv s effect g u).2.1
        (effectNo (setEffect aenv s effect g u).2.1 (setEffect aenv s effect g u).2.2) := by
      rw [heno]
      unfold IsSineQuake at *
      rw [hC]
      exact hq
    have hno2 : (setEffect aenv s effect g u).2.2.no = effect.no := by
      unfold setEffect
      rw [if_neg h0]
      simp only []
      split_ifs <;> rfl
    obtain ⟨trace, hrun, hlast⟩ := runTicks_quake env cdr (setEffect aenv s effect g u).2.2 ticks
      (setEffect aenv s effect g u).2.1 hskip' (by rw [hr2]; exact h2) (by rw [hno2]; exact hno')
      hq'
    refine ⟨trace, hrun, ?_⟩
    intro last hl
    have key := hlast last hl
    rw [hdur, hc, hno2, hlim, zero_add] at key
    have hq0 : 0 ≤ effect.duration / (4 * effect.no) :=
      Int.ediv_nonneg (le_of_lt hD) (by omega)
    have hmul : effect.duration / (4 * effect.no) * (4 * effect.no) ≤ effect.duration :=
      Int.ediv_mul_le _ (by omega)
    by_contra hcon
    have hlen : (trace.length : Int) ≤ 4 * effect.no - 1 := by omega
    have h3 : (trace.length : Int) * (effect.duration / (4 * effect.no)) ≤
        (4 * effect.no - 1) * (effect.duration / (4 * effect.no)) :=
      mul_le_mul_of_nonneg_right hlen hq0
    have e : (4 * effect.no - 1) * (effect.duration / (4 * effect.no)) =
        effect.duration / (4 * effect.no) * (4 * effect.no) -
          effect.duration / (4 * effect.no) := by ring
    have hq1 : effect.duration / (4 * effect.no) ≤ 0 := by omega
    have hq2 : effect.duration / (4 * effect.no) = 0 := le_antisymm hq1 hq0
    rw [hq2] at key
    omega

theorem sineQuake_step_count_witness :
    ∃ trace, runTicks (clockEnv 0) false [5, 5, 5, 5, 5, 5, 5, 5]
        (setEffect armEnv idleEngine (quakeRequest 100 8 2) true true).2.1
        (setEffect armEnv idleEngine (quakeRequest 100 8 2) true true).2.2 = .ok trace ∧
      ∀ last, trace.getLast? = some (.RET_CONTINUE, last) →
        4 * (quakeRequest 100 8 2).no ≤ (trace.length : Int) :=
  (sineQuake_step_count armEnv (clockEnv 0) idleEngine (quakeRequest 100 8 2) true true false
    [5, 5, 5, 5, 5, 5, 5, 5] (by decide) (by decide) (by decide) (by decide) (by decide)).2.2

/-! ## Transition engine: the last frame of a curtain -/

theorem flatMap_eq_map (l : List Nat) (f : Nat → List EngineCall) (g : Nat → EngineCall)
    (h : ∀ i ∈ l, f i = [g i]) : l.flatMap f = l.map g := by
  induction l with
  | nil => rfl
  | cons i rest ih =>
    rw [List.flatMap_cons, List.map_cons, h i (List.mem_cons_self _ _),
      ih (fun j hj => h j (List.mem_cons_of_mem _ hj))]
    rfl

/-- The quotient `t / S` of a position by the stripe width names the stripe
that holds the position. -/
theorem stripe_of_position (t S : Int) (hS : 0 < S) (ht : 0 ≤ t) :
    0 ≤ t / S ∧ t / S * S ≤ t ∧ t < t / S * S + S := by
  have h1 := Int.ediv_mul_le t (ne_of_gt hS)
  have h2 := Int.lt_ediv_add_one_mul_self t hS
  have e : (t / S + 1) * S = t / S * S + S := by ring
  exact ⟨Int.ediv_nonneg ht (le_of_lt hS), h1, by omega⟩

/-- At `counter = duration` every stripe up to index `L / S` is at least one
stripe width wide. -/
theorem curtainWidth2_full (S D L : Int) (hS : 0 < S) (hD : 0 < D) (hL : 0 < L) (i : Int)
    (hi : i ≤ L / S) : S ≤ curtainWidth2 S D D L i := by
  unfold curtainWidth2
  have e1 : S * D * 2 / D = 2 * S := by
    rw [show S * D * 2 = 2 * S * D by ring]
    exact Int.mul_ediv_cancel _ (ne_of_gt hD)
  have h1 : S * i ≤ S * (L / S) := mul_le_mul_of_nonneg_left hi (le_of_lt hS)
  have h2 : S * (L / S) ≤ L := Int.mul_ediv_self_le (ne_of_gt hS)
  have h3 : S * S * i ≤ S * L := by
    rw [mul_assoc]
    exact mul_le_mul_of_nonneg_left (le_trans h1 h2) (le_of_lt hS)
  have h4 : S * S * i / L ≤ S * L / L := Int.ediv_le_ediv hL h3
  rw [Int.mul_ediv_cancel _ (ne_of_gt hL)] at h4
  omega

/-- A stripe of a curtain that is at least one stripe width wide covers the
positions of its own stripe of the screen: stripe `i` from the near edge for
the cases 6 and 8, from the far edge for 7 and 9. -/
theorem curtainStripe_covers (s : Engine) (vertical fromEnd : Bool) (S i W x y : Int)
    (hW : S ≤ W) (hx : 0 ≤ x ∧ x < s.screen_width) (hy : 0 ≤ y ∧ y < s.screen_height)
    (hpos : if vertical then
        (if fromEnd then i * S ≤ s.screen_width - 1 - x ∧ s.screen_width - 1 - x < i * S + S
          else i * S ≤ x ∧ x < i * S + S)
      else
        (if fromEnd then i * S ≤ s.screen_height - 1 - y ∧ s.screen_height - 1 - y < i * S + S
          else i * S ≤ y ∧ y < i * S + S)) :
    (curtainStripe s vertical fromEnd S i W).covers x y := by
  unfold curtainStripe SDL_Rect.covers
  cases vertical <;> cases fromEnd <;>
    simp only [Bool.false_eq_true, false_and, and_false, if_false, if_true, true_and] at hpos ⊢
  · omega
  · omega
  · omega
  · split_ifs <;> omega

/-- C34: for every curtain (effects 6 to 9), with stripe width
`S = 24 * screen_ratio1 / screen_ratio2 > 0` and screen extent `L` (the width
for 6 and 7, the height for 8 and 9), a step whose counter equals the
duration computes for every stripe index `i` in `0 .. L / S` a width
`width2(i) >= S`; the switch hands every one of these stripes to `drawEffect`
with the new frame; and every pixel of the screen lies in one of the
rectangles handed over. -/
theorem curtain_last_frame (env : StepEnv) (s : Engine) (effect : Effect)
    (resolution : Int) (first_time vertical fromEnd : Bool)
    (h2 : s.screen_ratio2 ≠ 0) (hS : 0 < (24 * s.screen_ratio1).tdiv s.screen_ratio2)
    (hw : 0 < s.screen_width) (hh : 0 < s.screen_height) (hD : 0 < effect.duration) :
    (∀ i : Nat, (i : Int) ≤ (if vertical then s.screen_width else s.screen_height) /
        (24 * s.screen_ratio1).tdiv s.screen_ratio2 →
      (24 * s.screen_ratio1).tdiv s.screen_ratio2 ≤
        curtainWidth2 ((24 * s.screen_ratio1).tdiv s.screen_ratio2) effect.duration
          effect.duration (if vertical then s.screen_width else s.screen_height) i) ∧
    effectSwitch env s effect effect.duration resolution (curtainNumber vertical fromEnd)
        first_time =
      .ok ((List.range
          ((if vertical then s.screen_width else s.screen_height) /
            (24 * s.screen_ratio1).tdiv s.screen_ratio2 + 1).toNat).map
        (fun i : Nat =>
          EngineCall.drawEffect
            (curtainStripe s vertical fromEnd ((24 * s.screen_ratio1).tdiv s.screen_ratio2) i
              (curtainWidth2 ((24 * s.screen_ratio1).tdiv s.screen_ratio2) effect.duration
                effect.duration (if vertical then s.screen_width else s.screen_height) i))
            (curtainStripe s vertical fromEnd ((24 * s.screen_ratio1).tdiv s.screen_ratio2) i
              (curtainWidth2 ((24 * s.screen_ratio1).tdiv s.screen_ratio2) effect.duration
                effect.duration (if vertical then s.screen_width else s.screen_height) i))
            true .effect_dst_surface), resolution) ∧
    (∀ x y : Int, 0 ≤ x → x < s.screen_width → 0 ≤ y → y < s.screen_height →
      ∃ i : Nat, (i : Int) ≤ (if vertical then s.screen_width else s.screen_height) /
          (24 * s.screen_ratio1).tdiv s.screen_ratio2 ∧
        (curtainStripe s vertical fromEnd ((24 * s.screen_ratio1).tdiv s.screen_ratio2) i
          (curtainWidth2 ((24 * s.screen_ratio1).tdiv s.screen_ratio2) effect.duration
            effect.duration (if vertical then s.screen_width else s.screen_height)
            i)).covers x y) := by
  have hL : 0 < (if vertical then s.screen_width else s.screen_height) := by
    cases vertical
    · exact hh
    · exact hw
  have hwide : ∀ i : Nat, (i : Int) ≤ (if vertical then s.screen_width else s.screen_height) /
        (24 * s.screen_ratio1).tdiv s.screen_ratio2 →
      (24 * s.screen_ratio1).tdiv s.screen_ratio2 ≤
        curtainWidth2 ((24 * s.screen_ratio1).tdiv s.screen_ratio2) effect.duration
          effect.duration (if vertical then s.screen_width else s.screen_height) i :=
    fun i hi => curtainWidth2_full _ _ _ hS hD hL i hi
  refine ⟨hwide, ?_, ?_⟩
  · rw [effectSwitch_curtainNumber, curtain_eq s effect.duration effect.duration vertical fromEnd
      h2 hS hL hD (le_of_lt hD)]
    rw [flatMap_eq_map _ _ (fun i : Nat =>
      EngineCall.drawEffect
        (curtainStripe s vertical fromEnd ((24 * s.screen_ratio1).tdiv s.screen_ratio2) i
          (curtainWidth2 ((24 * s.screen_ratio1).tdiv s.screen_ratio2) effect.duration
            effect.duration (if vertical then s.screen_width else s.screen_height) i))
        (curtainStripe s vertical fromEnd ((24 * s.screen_ratio1).tdiv s.screen_ratio2) i
          (curtainWidth2 ((24 * s.screen_ratio1).tdiv s.screen_ratio2) effect.duration
            effect.duration (if vertical then s.screen_width else s.screen_height) i))
        true .effect_dst_surface)]
    · rfl
    · intro i hi
      have hlt := List.mem_range.mp hi
      have hi' : (i : Int) ≤ (if vertical then s.screen_width else s.screen_height) /
          (24 * s.screen_ratio1).tdiv s.screen_ratio2 := by omega
      have := hwide i hi'
      rw [if_pos (by omega)]
  · intro x y hx0 hx hy0 hy
    generalize hSdef : (24 * s.screen_ratio1).tdiv s.screen_ratio2 = S at hS hwide ⊢
    have hchoice : ∃ t : Int, 0 ≤ t ∧
        t < (if vertical then s.screen_width else s.screen_height) ∧
        t = (if vertical then (if fromEnd then s.screen_width - 1 - x else x)
          else (if fromEnd then s.screen_height - 1 - y else y)) := by
      refine ⟨_, ?_, ?_, rfl⟩ <;> cases vertical <;> cases fromEnd <;>
        simp only [Bool.false_eq_true, if_false, if_true] <;> omega
    obtain ⟨t, ht0, htL, ht⟩ := hchoice
    obtain ⟨hk0, hk1, hk2⟩ := stripe_of_position t S hS ht0
    have hkL : t / S ≤ (if vertical then s.screen_width else s.screen_height) / S :=
      Int.ediv_le_ediv hS (le_of_lt htL)
    have hcast : (((t / S).toNat : Nat) : Int) = t / S := Int.toNat_of_nonneg hk0
    refine ⟨(t / S).toNat, by rw [hcast]; exact hkL, ?_⟩
    apply curtainStripe_covers s vertical fromEnd S _ _ x y
      (hwide (t / S).toNat (by rw [hcast]; exact hkL)) ⟨hx0, hx⟩ ⟨hy0, hy⟩
    rw [hcast]
    cases vertical <;> cases fromEnd <;>
      simp only [Bool.false_eq_true, if_false, if_true] at ht ⊢ <;> rw [← ht] <;>
      exact ⟨hk1, hk2⟩

theorem curtain_last_frame_witness :
    (effectSwitch (clockEnv 0) skipEngine { request 7 100 with duration := 1 } 1 10
      (curtainNumber true true) false).map (fun r => drawnRects r.1 |>.map (fun q => (q.x, q.w))) =
      .ok ((List.range 27).map (fun i : Nat => (640 - 24 * ((i : Int) + 1), 24))) := by
  rw [(curtain_last_frame (clockEnv 0) skipEngine { request 7 100 with duration := 1 } 10 false
    true true (by decide) (by decide) (by decide) (by decide) (by decide)).2.1]
  rfl

/-! ## The mosaic: levels and termination -/

theorem halveTimes_zero (n : Nat) : halveTimes n 0 = 0 := by
  induction n with
  | zero => rfl
  | succ n ih => rw [halveTimes]; exact ih

/-- The block width by level: at least 5 up to level 5, then 2 and 1, and 0
from level 8 on. -/
theorem mosaicWidth_cases (level : Int) :
    (level ≤ 5 → 5 ≤ mosaicWidth level) ∧ (level ≤ 7 → 0 < mosaicWidth level) ∧
      (8 ≤ level → mosaicWidth level = 0) := by
  unfold mosaicWidth
  by_cases h : level ≤ 7
  · have hn : level.toNat ≤ 7 := by omega
    have h5 : level ≤ 5 → level.toNat ≤ 5 := by omega
    generalize level.toNat = n at hn h5
    refine ⟨fun hl => ?_, fun _ => ?_, fun h8 => by omega⟩
    · have := h5 hl
      interval_cases n <;> decide
    · interval_cases n <;> decide
  · have hn : ∃ m : Nat, level.toNat = m + 8 := ⟨level.toNat - 8, by omega⟩
    obtain ⟨m, hm⟩ := hn
    refine ⟨fun hl => by omega, fun hl => by omega, fun _ => ?_⟩
    rw [hm]
    have e : halveTimes (m + 8) 160 = halveTimes m 0 := by
      simp only [halveTimes]
      rfl
    rw [e, halveTimes_zero]

theorem mosaicWidth_nonneg (level : Int) : 0 ≤ mosaicWidth level := by
  obtain ⟨_, h7, h8⟩ := mosaicWidth_cases level
  by_cases h : level ≤ 7
  · exact le_of_lt (h7 h)
  · rw [h8 (by omega)]

/-- The loop over the columns ends when the block width is not 0. -/
theorem mosaicCols_some (src : Int → Nat) (tw sw w i : Int) (hw : 0 < w) (bound : Nat) :
    ∀ (j : Int) (dst : Int → Nat), sw - j ≤ bound →
      ∃ dst', mosaicCols src tw sw w i bound j dst = some dst' := by
  induction bound with
  | zero =>
    intro j dst hb
    have hg : ¬ j < sw := by simp only [Nat.cast_zero] at hb; omega
    exact ⟨dst, by rw [mosaicCols, if_neg hg]⟩
  | succ bound ih =>
    intro j dst hb
    by_cases hg : j < sw
    · rw [mosaicCols, if_pos hg]
      exact ih (j + w) _ (by push_cast at hb; omega)
    · exact ⟨dst, by rw [mosaicCols, if_neg hg]⟩

/-- The loop over the rows ends when the block width is not 0. -/
theorem mosaicRows_some (src : Int → Nat) (tw sw w : Int) (hw : 0 < w) (bound : Nat) :
    ∀ (i : Int) (dst : Int → Nat), i + 1 ≤ bound →
      ∃ dst', mosaicRows src tw sw w bound i dst = some dst' := by
  induction bound with
  | zero =>
    intro i dst hb
    have hg : ¬ i ≥ 0 := by simp only [Nat.cast_zero] at hb; omega
    exact ⟨dst, by rw [mosaicRows, if_neg hg]⟩
  | succ bound ih =>
    intro i dst hb
    by_cases hg : i ≥ 0
    · obtain ⟨dst1, hcols⟩ := mosaicCols_some src tw sw w i hw sw.toNat 0 dst (by omega)
      obtain ⟨dst', hrun⟩ := ih (i - w) dst1 (by push_cast at hb; omega)
      exact ⟨dst', by rw [mosaicRows, if_pos hg, hcols]; exact hrun⟩
    · exact ⟨dst, by rw [mosaicRows, if_neg hg]⟩

/-- With block width 0 the loop over the rows never leaves a row `i >= 0`:
the row index stays the same, whatever the bound on the rounds. -/
theorem mosaicRows_none (src : Int → Nat) (tw sw : Int) (bound : Nat) :
    ∀ (i : Int) (dst : Int → Nat), 0 ≤ i → mosaicRows src tw sw 0 bound i dst = none := by
  induction bound with
  | zero =>
    intro i dst hi
    rw [mosaicRows, if_pos hi]
  | succ bound ih =>
    intro i dst hi
    rw [mosaicRows, if_pos hi]
    cases mosaicCols src tw sw 0 i sw.toNat 0 dst with
    | none => rfl
    | some dst1 => exact ih (i - 0) dst1 (by omega)

/-- The call `generateMosaic` returns exactly when the block width of the
level is not 0, on a screen with at least one row. -/
theorem generateMosaic_isSome (src dst : Int → Nat) (tw sw sh level : Int) :
    (0 < mosaicWidth level → (generateMosaic src dst tw sw sh level).isSome = true) ∧
      (0 < sh → mosaicWidth level = 0 → generateMosaic src dst tw sw sh level = none) := by
  constructor
  · intro hw
    obtain ⟨dst', h⟩ := mosaicRows_some src tw sw (mosaicWidth level) hw sh.toNat (sh - 1) dst
      (by omega)
    unfold generateMosaic
    rw [h]
    rfl
  · intro hsh hw
    unfold generateMosaic
    rw [hw]
    exact mosaicRows_none src tw sw sh.toNat (sh - 1) dst (by omega)

theorem effectSwitch_mosaic (env : StepEnv) (s : Engine) (effect : Effect)
    (counter resolution : Int) (first_time out : Bool) :
    effectSwitch env s effect counter resolution (if out then 16 else 17) first_time =
      keepResolution resolution (mosaic effect counter out) := by
  cases out <;> simp [effectSwitch]

/-- C33: for a duration `D > 0` and a counter with `0 <= counter < D`, the
level `q = floor(6 * counter / D)` lies in 0..5; the switch calls
`generateMosaic` with level `q` for the mosaic in (17) and with `5 - q` for
the mosaic out (16); for both levels the block width is at least 5 and
`generateMosaic` returns, whatever the frame and the screen size.  For every
level, the block width is not 0 exactly when `level <= 7`, and on a screen
with at least one row `generateMosaic` returns exactly when `level <= 7`. -/
theorem mosaic_levels_terminate (env : StepEnv) (s : Engine) (effect : Effect)
    (counter resolution : Int) (first_time : Bool) (src dst : Int → Nat) (tw sw sh : Int)
    (hD : 0 < effect.duration) (hc0 : 0 ≤ counter) (hc : counter < effect.duration)
    (hsh : 0 < sh) :
    (0 ≤ 6 * counter / effect.duration ∧ 6 * counter / effect.duration ≤ 5) ∧
    effectSwitch env s effect counter resolution 17 first_time =
      .ok ([.generateMosaic .effect_dst_surface (6 * counter / effect.duration)], resolution) ∧
    effectSwitch env s effect counter resolution 16 first_time =
      .ok ([.generateMosaic .effect_src_surface (5 - 6 * counter / effect.duration)],
        resolution) ∧
    (5 ≤ mosaicWidth (6 * counter / effect.duration) ∧
      5 ≤ mosaicWidth (5 - 6 * counter / effect.duration)) ∧
    ((generateMosaic src dst tw sw sh (6 * counter / effect.duration)).isSome = true ∧
      (generateMosaic src dst tw sw sh (5 - 6 * counter / effect.duration)).isSome = true) ∧
    (∀ level : Int, (mosaicWidth level ≠ 0 ↔ level ≤ 7) ∧
      ((generateMosaic src dst tw sw sh level).isSome = true ↔ level ≤ 7)) := by
  have hq0 : 0 ≤ 6 * counter / effect.duration := Int.ediv_nonneg (by omega) (le_of_lt hD)
  have hq5 : 6 * counter / effect.duration ≤ 5 := by
    have : 6 * counter / effect.duration < 6 :=
      Int.ediv_lt_of_lt_mul hD (by omega)
    omega
  have e : (6 * counter).tdiv effect.duration = 6 * counter / effect.duration :=
    Int.tdiv_eq_ediv (by omega) (le_of_lt hD)
  have hin := effectSwitch_mosaic env s effect counter resolution first_time false
  have hout := effectSwitch_mosaic env s effect counter resolution first_time true
  simp only [Bool.false_eq_true, if_false, if_true, mosaic, cdiv_ok _ _ (ne_of_gt hD), e,
    Except.map, keepResolution] at hin hout
  have w1 := (mosaicWidth_cases (6 * counter / effect.duration)).1 hq5
  have w2 := (mosaicWidth_cases (5 - 6 * counter / effect.duration)).1 (by omega)
  refine ⟨⟨hq0, hq5⟩, hin, hout, ⟨w1, w2⟩, ⟨?_, ?_⟩, ?_⟩
  · exact (generateMosaic_isSome src dst tw sw sh _).1 (by omega)
  · exact (generateMosaic_isSome src dst tw sw sh _).1 (by omega)
  · intro level
    obtain ⟨_, h7, h8⟩ := mosaicWidth_cases level
    obtain ⟨hsome, hnone⟩ := generateMosaic_isSome src dst tw sw sh level
    constructor
    · constructor
      · intro hne
        by_contra hcon
        exact hne (h8 (by omega))
      · intro hle
        exact ne_of_gt (h7 hle)
    · constructor
      · intro hs
        by_contra hcon
        rw [hnone hsh (h8 (by omega))] at hs
        cases hs
      · intro hle
        exact hsome (h7 hle)

theorem mosaic_levels_terminate_witness :
    (generateMosaic (listBuffer [10, 20, 30, 40]) (listBuffer []) 2 2 2
        (6 * 50 / (request 17 100).duration)).isSome = true ∧
      (generateMosaic (listBuffer [10, 20, 30, 40]) (listBuffer []) 2 2 2
        (5 - 6 * 50 / (request 17 100).duration)).isSome = true :=
  (mosaic_levels_terminate (clockEnv 0) idleEngine (request 17 100) 50 10 false
    (listBuffer [10, 20, 30, 40]) (listBuffer []) 2 2 2 (by decide) (by decide) (by decide)
    (by decide)).2.2.2.2.1

/-! ## The mosaic: every pixel is written once -/

theorem applyWrites_append (a b : List (Int × Nat)) (dst : Int → Nat) :
    applyWrites (a ++ b) dst = applyWrites b (applyWrites a dst) := by
  unfold applyWrites
  rw [List.foldl_append]

theorem fillRow_writes (p : Nat) (n : Nat) :
    ∀ (ptr : Int) (dst : Int → Nat),
      fillRow p n ptr dst = (applyWrites (rowWrites p n ptr).1 dst, (rowWrites p n ptr).2) := by
  induction n with
  | zero => intro ptr dst; rfl
  | succ n ih =>
    intro ptr dst
    rw [fillRow, ih]
    rfl

theorem fillBlock_writes (p : Nat) (tw width2 : Int) (n : Nat) :
    ∀ (ptr : Int) (dst : Int → Nat),
      fillBlock p tw width2 n ptr dst = applyWrites (blockWrites p tw width2 n ptr) dst := by
  induction n with
  | zero => intro ptr dst; rfl
  | succ n ih =>
    intro ptr dst
    rw [fillBlock, blockWrites, fillRow_writes]
    dsimp only
    rw [ih, applyWrites_append]

theorem mosaicCols_writes (src : Int → Nat) (tw sw w i : Int) (bound : Nat) :
    ∀ (j : Int) (dst : Int → Nat),
      mosaicCols src tw sw w i bound j dst =
        (mosaicColsWrites src tw sw w i bound j).map (fun ws => applyWrites ws dst) := by
  induction bound with
  | zero =>
    intro j dst
    rw [mosaicCols, mosaicColsWrites]
    split_ifs <;> rfl
  | succ bound ih =>
    intro j dst
    rw [mosaicCols, mosaicColsWrites]
    by_cases hg : j < sw
    · rw [if_pos hg, if_pos hg]
      dsimp only
      rw [ih, fillBlock_writes, Option.map_map]
      congr 1
      funext rest
      simp only [Function.comp, applyWrites_append]
    · rw [if_neg hg, if_neg hg]
      rfl

theorem mosaicRows_writes (src : Int → Nat) (tw sw w : Int) (bound : Nat) :
    ∀ (i : Int) (dst : Int → Nat),
      mosaicRows src tw sw w bound i dst =
        (mosaicRowsWrites src tw sw w bound i).map (fun ws => applyWrites ws dst) := by
  induction bound with
  | zero =>
    intro i dst
    rw [mosaicRows, mosaicRowsWrites]
    split_ifs <;> rfl
  | succ bound ih =>
    intro i dst
    rw [mosaicRows, mosaicRowsWrites]
    by_cases hg : i ≥ 0
    · rw [if_pos hg, if_pos hg, mosaicCols_writes]
      cases mosaicColsWrites src tw sw w i sw.toNat 0 with
      | none => rfl
      | some ws =>
        simp only [Option.map_some']
        rw [ih, Option.map_map]
        congr 1
        funext rest
        simp only [Function.comp, applyWrites_append]
    · rw [if_neg hg, if_neg hg]
      rfl

/-- The array that `generateMosaic` leaves is the array before the call after
the recorded stores. -/
theorem generateMosaic_writes (src dst : Int → Nat) (tw sw sh level : Int) :
    generateMosaic src dst tw sw sh level =
      (mosaicWrites src tw sw sh level).map (fun ws => applyWrites ws dst) :=
  mosaicRows_writes src tw sw (mosaicWidth level) sh.toNat (sh - 1) dst

theorem writesAt_append (k : Int) (a b : List (Int × Nat)) :
    writesAt k (a ++ b) = writesAt k a ++ writesAt k b := by
  unfold writesAt
  rw [List.filter_append]

theorem rowWrites_at (p : Nat) (n : Nat) :
    ∀ (ptr k : Int), (rowWrites p n ptr).2 = ptr + n ∧
      writesAt k (rowWrites p n ptr).1 = if ptr ≤ k ∧ k < ptr + n then [(k, p)] else [] := by
  induction n with
  | zero =>
    intro ptr k
    refine ⟨by simp [rowWrites], ?_⟩
    rw [if_neg (by push_cast; omega)]
    rfl
  | succ n ih =>
    intro ptr k
    obtain ⟨h1, h2⟩ := ih (ptr + 1) k
    refine ⟨by rw [rowWrites]; dsimp only; rw [h1]; push_cast; ring, ?_⟩
    rw [rowWrites]
    dsimp only
    unfold writesAt at h2 ⊢
    rw [List.filter_cons, h2]
    by_cases hk : ptr = k
    · subst hk
      simp only [decide_True, if_true]
      rw [if_neg (by omega), if_pos (by push_cast; omega)]
    · simp only [hk, decide_False, Bool.false_eq_true, if_false]
      by_cases hin : ptr + 1 ≤ k ∧ k < ptr + 1 + (n : Int)
      · rw [if_pos hin, if_pos (by push_cast; omega)]
      · rw [if_neg hin, if_neg (by push_cast; omega)]

/-- The stores of one block: each element of the columns `[j, j + width2)` in
the `n` rows from `i` upwards is written once, with the value `p`; no other
element of a row is written. -/
theorem blockWrites_at (p : Nat) (tw width2 j : Int) (hw : 0 ≤ width2) (hj : 0 ≤ j)
    (hjw : j + width2 ≤ tw) (n : Nat) :
    ∀ (i x y : Int), 0 ≤ x → x < tw →
      writesAt (y * tw + x) (blockWrites p tw width2 n (i * tw + j)) =
        if j ≤ x ∧ x < j + width2 ∧ i - n < y ∧ y ≤ i then [(y * tw + x, p)] else [] := by
  induction n with
  | zero =>
    intro i x y _ _
    rw [if_neg (by push_cast; omega)]
    rfl
  | succ n ih =>
    intro i x y hx0 hx
    rw [blockWrites]
    obtain ⟨hptr1, hrow⟩ := rowWrites_at p width2.toNat (i * tw + j) (y * tw + x)
    have hcast : ((width2.toNat : Nat) : Int) = width2 := Int.toNat_of_nonneg hw
    have hptr : (rowWrites p width2.toNat (i * tw + j)).2 - (tw + width2) = (i - 1) * tw + j := by
      rw [hptr1, hcast]; ring
    rw [writesAt_append, hptr, ih (i - 1) x y hx0 hx, hrow, hcast]
    have hpiece := row_piece tw i j width2 x y hx0 hx hj hjw
    by_cases hin : j ≤ x ∧ x < j + width2 ∧ i - 1 - (n : Int) < y ∧ y ≤ i - 1
    · have hrow' : ¬ (i * tw + j ≤ y * tw + x ∧ y * tw + x < i * tw + j + width2) := by
        intro h
        have := hpiece.mp h
        omega
      rw [if_pos hin, if_neg hrow', if_pos (by push_cast; omega)]
      rfl
    · rw [if_neg hin]
      by_cases hrow' : i * tw + j ≤ y * tw + x ∧ y * tw + x < i * tw + j + width2
      · have := hpiece.mp hrow'
        rw [if_pos hrow', if_pos (by push_cast; omega)]
        rfl
      · have hnot : ¬ (y = i ∧ j ≤ x ∧ x < j + width2) := fun h => hrow' (hpiece.mpr h)
        rw [if_neg hrow', if_neg (by push_cast; omega)]
        rfl

/-- The stores of one row of blocks, from column `j` on: every element of the
band right of `j` and inside the screen is written once, with the pixel of the
frame at the first column of its block in row `i`; no element outside is
written. -/
theorem mosaicColsWrites_at (src : Int → Nat) (tw sw w i : Int) (hw : 0 < w) (hi : 0 ≤ i)
    (hsw : sw ≤ tw) (bound : Nat) :
    ∀ (j : Int), 0 ≤ j → sw - j ≤ bound →
      ∃ ws, mosaicColsWrites src tw sw w i bound j = some ws ∧
        (∀ (b : Nat) (x y : Int), j + (b : Int) * w ≤ x → x < j + (b : Int) * w + w → x < sw →
          i - w < y → 0 ≤ y → y ≤ i →
          writesAt (y * tw + x) ws = [(y * tw + x, src (i * tw + (j + (b : Int) * w)))]) ∧
        (∀ x y : Int, 0 ≤ x → x < tw → (x < j ∨ sw ≤ x ∨ y ≤ i - w ∨ y < 0 ∨ i < y) →
          writesAt (y * tw + x) ws = []) := by
  induction bound with
  | zero =>
    intro j hj hb
    have hg : ¬ j < sw := by simp only [Nat.cast_zero] at hb; omega
    refine ⟨[], by rw [mosaicColsWrites, if_neg hg], ?_, fun _ _ _ _ _ => rfl⟩
    intro b x y h1 _ h3 _ _ _
    have : 0 ≤ (b : Int) * w := mul_nonneg (Int.ofNat_nonneg b) (le_of_lt hw)
    omega
  | succ bound ih =>
    intro j hj hb
    by_cases hg : j < sw
    · rw [mosaicColsWrites, if_pos hg]
      dsimp only
      generalize hh2 : (if i + 1 - w < 0 then i + 1 else w) = height2
      generalize hw2 : (if j + w > sw then sw - j else w) = width2
      have hh2' : 0 < height2 ∧ ∀ y : Int, (i - height2 < y ∧ y ≤ i) ↔
          (i - w < y ∧ 0 ≤ y ∧ y ≤ i) := by
        rw [← hh2]
        split_ifs <;> refine ⟨by omega, fun y => ?_⟩ <;> omega
      have hw2' : 0 < width2 ∧ j + width2 ≤ sw ∧ ∀ x : Int, (x < j + width2) ↔
          (x < j + w ∧ x < sw) := by
        rw [← hw2]
        split_ifs <;> refine ⟨by omega, by omega, fun x => ?_⟩ <;> omega
      obtain ⟨hh0, hband⟩ := hh2'
      obtain ⟨hw0, hwsw, hcol⟩ := hw2'
      have hcast : ((height2.toNat : Nat) : Int) = height2 := Int.toNat_of_nonneg (le_of_lt hh0)
      have hblock := blockWrites_at (src (i * tw + j)) tw width2 j (le_of_lt hw0) hj (by omega)
        height2.toNat i
      rw [hcast] at hblock
      obtain ⟨rest, hrun, hval, hframe⟩ := ih (j + w) (by omega) (by push_cast at hb; omega)
      refine ⟨_, by rw [hrun]; rfl, ?_, ?_⟩
      · intro b x y h1 h2 h3 h4 h5 h6
        rw [writesAt_append]
        cases b with
        | zero =>
          simp only [Nat.cast_zero, zero_mul, add_zero] at h1 h2 ⊢
          rw [hframe x y (by omega) (by omega) (Or.inl h2), hblock x y (by omega) (by omega)]
          rw [if_pos ⟨h1, (hcol x).mpr ⟨h2, h3⟩, (hband y).mpr ⟨h4, h5, h6⟩⟩]
          rfl
        | succ b =>
          have e : j + ((b + 1 : Nat) : Int) * w = j + w + (b : Int) * w := by push_cast; ring
          rw [e] at h1 h2 ⊢
          have hb0 : 0 ≤ (b : Int) * w := mul_nonneg (Int.ofNat_nonneg b) (le_of_lt hw)
          have hc1 := hcol x
          rw [hval b x y h1 h2 h3 h4 h5 h6, hblock x y (by omega) (by omega),
            if_neg (by omega)]
          rfl
      · intro x y hx0 hx hout
        have hout' : x < j + w ∨ sw ≤ x ∨ y ≤ i - w ∨ y < 0 ∨ i < y := by omega
        rw [writesAt_append, hframe x y hx0 hx hout', hblock x y hx0 hx]
        have hb1 := hband y
        have hc1 := hcol x
        rw [if_neg (by omega)]
        rfl
    · refine ⟨[], by rw [mosaicColsWrites, if_neg hg], ?_, fun _ _ _ _ _ => rfl⟩
      intro b x y h1 _ h3 _ _ _
      have : 0 ≤ (b : Int) * w := mul_nonneg (Int.ofNat_nonneg b) (le_of_lt hw)
      omega

/-- The stores of the rows of blocks from row `i` upwards: every element of
the screen in the rows `0 .. i` is written once, with the pixel of the frame at
the bottom-left corner of its block; no element below row `i`, above row 0 or
right of the screen is written. -/
theorem mosaicRowsWrites_at (src : Int → Nat) (tw sw w : Int) (hw : 0 < w) (hsw : sw ≤ tw)
    (bound : Nat) :
    ∀ (i : Int), i + 1 ≤ bound →
      ∃ ws, mosaicRowsWrites src tw sw w bound i = some ws ∧
        (∀ (a b : Nat) (x y : Int), 0 ≤ i - (a : Int) * w → i - (a : Int) * w - w < y → 0 ≤ y →
          y ≤ i - (a : Int) * w → (b : Int) * w ≤ x → x < (b : Int) * w + w → x < sw →
          writesAt (y * tw + x) ws =
            [(y * tw + x, src ((i - (a : Int) * w) * tw + (b : Int) * w))]) ∧
        (∀ x y : Int, 0 ≤ x → x < tw → (sw ≤ x ∨ y < 0 ∨ i < y) →
          writesAt (y * tw + x) ws = []) := by
  induction bound with
  | zero =>
    intro i hb
    have hg : ¬ i ≥ 0 := by simp only [Nat.cast_zero] at hb; omega
    refine ⟨[], by rw [mosaicRowsWrites, if_neg hg], ?_, fun _ _ _ _ _ => rfl⟩
    intro a b x y h1 _ _ _ _ _ _
    have : 0 ≤ (a : Int) * w := mul_nonneg (Int.ofNat_nonneg a) (le_of_lt hw)
    omega
  | succ bound ih =>
    intro i hb
    by_cases hg : i ≥ 0
    · obtain ⟨ws1, hcols, hval1, hframe1⟩ := mosaicColsWrites_at src tw sw w i hw hg hsw
        sw.toNat 0 (le_refl 0) (by omega)
      obtain ⟨rest, hrun, hval, hframe⟩ := ih (i - w) (by push_cast at hb; omega)
      refine ⟨ws1 ++ rest, by rw [mosaicRowsWrites, if_pos hg, hcols, hrun]; rfl, ?_, ?_⟩
      · intro a b x y h1 h2 h3 h4 h5 h6 h7
        have hb0 : 0 ≤ (b : Int) * w := mul_nonneg (Int.ofNat_nonneg b) (le_of_lt hw)
        rw [writesAt_append]
        cases a with
        | zero =>
          simp only [Nat.cast_zero, zero_mul, sub_zero] at h1 h2 h4 ⊢
          rw [hframe x y (by omega) (by omega) (Or.inr (Or.inr h2))]
          have := hval1 b x y (by omega) (by omega) h7 h2 h3 h4
          rw [this, zero_add]
          rfl
        | succ a =>
          have e : i - ((a + 1 : Nat) : Int) * w = i - w - (a : Int) * w := by push_cast; ring
          rw [e] at h1 h2 h4 ⊢
          have ha0 : 0 ≤ (a : Int) * w := mul_nonneg (Int.ofNat_nonneg a) (le_of_lt hw)
          rw [hval a b x y h1 h2 h3 h4 h5 h6 h7,
            hframe1 x y (by omega) (by omega) (Or.inr (Or.inr (Or.inl (by omega))))]
          rfl
      · intro x y hx0 hx hout
        rw [writesAt_append, hframe x y hx0 hx (by omega), hframe1 x y hx0 hx (by omega)]
        rfl
    · refine ⟨[], by rw [mosaicRowsWrites, if_neg hg], ?_, fun _ _ _ _ _ => rfl⟩
      intro a b x y h1 _ _ _ _ _ _
      have : 0 ≤ (a : Int) * w := mul_nonneg (Int.ofNat_nonneg a) (le_of_lt hw)
      omega

theorem mosaicRowsWrites_nil (src : Int → Nat) (tw sw w : Int) (hsw : sw ≤ 0) (bound : Nat) :
    ∀ (i : Int) (ws : List (Int × Nat)),
      mosaicRowsWrites src tw sw w bound i = some ws → ws = [] := by
  induction bound with
  | zero =>
    intro i ws h
    rw [mosaicRowsWrites] at h
    split_ifs at h
    exact (Option.some.inj h).symm
  | succ bound ih =>
    intro i ws h
    rw [mosaicRowsWrites] at h
    have hcols : mosaicColsWrites src tw sw w i sw.toNat 0 = some [] := by
      have hg : ¬ (0 : Int) < sw := by omega
      cases sw.toNat with
      | zero => rw [mosaicColsWrites, if_neg hg]
      | succ n => rw [mosaicColsWrites, if_neg hg]
    by_cases hg : i ≥ 0
    · rw [if_pos hg, hcols] at h
      simp only [List.nil_append] at h
      cases hr : mosaicRowsWrites src tw sw w bound (i - w) with
      | none => rw [hr] at h; cases h
      | some r =>
        rw [hr] at h
        have e : r = ws := Option.some.inj h
        rw [← e]
        exact ih (i - w) r hr
    · rw [if_neg hg] at h
      exact (Option.some.inj h).symm

theorem applyWrites_of_not_written (ws : List (Int × Nat)) (k : Int) :
    ∀ dst : Int → Nat, (∀ wr ∈ ws, wr.1 ≠ k) → applyWrites ws dst k = dst k := by
  induction ws with
  | nil => intro dst _; rfl
  | cons wr rest ih =>
    intro dst h
    have hk : k ≠ wr.1 := fun e => h wr (List.mem_cons_self _ _) e.symm
    have step : applyWrites (wr :: rest) dst =
        applyWrites rest (fun k => if k = wr.1 then wr.2 else dst k) := rfl
    rw [step, ih _ (fun w hw => h w (List.mem_cons_of_mem _ hw)), if_neg hk]

/-- The block of a position: the stripe index `t / w` along an axis and the
first position `t - t % w` of that stripe. -/
theorem block_of_position (t w : Int) (hw : 0 < w) (ht : 0 ≤ t) :
    (((t / w).toNat : Nat) : Int) * w = t - t % w ∧ 0 ≤ t % w ∧ t % w < w := by
  have h1 : ((t / w).toNat : Int) = t / w := Int.toNat_of_nonneg (Int.ediv_nonneg ht (le_of_lt hw))
  have h2 := Int.ediv_add_emod t w
  have h3 := Int.emod_nonneg t (ne_of_gt hw)
  have h4 := Int.emod_lt_of_pos t hw
  rw [h1, mul_comm]
  exact ⟨by omega, h3, h4⟩

/-- C32: for a level whose block width `w` (160 halved `level` times) is at
least 1 and a screen no wider than a row of the surface, `generateMosaic`
returns; the array it leaves is the array before the call after its stores;
every pixel `(x, y)` of the screen is stored to exactly once, with the pixel
of the frame at `(x - x mod w, y + ((screen_height - 1 - y) mod w))`, the
bottom-left pixel of its block in the grid anchored at the bottom-left corner
of the screen, and holds that value afterwards; every store goes to a pixel of
the screen; and every element that is not a pixel of the screen is kept. -/
theorem generateMosaic_writes_once (src dst : Int → Nat) (tw sw sh level : Int)
    (hw : 0 < mosaicWidth level) (hsw : sw ≤ tw) :
    ∃ ws dst', mosaicWrites src tw sw sh level = some ws ∧
      generateMosaic src dst tw sw sh level = some dst' ∧ dst' = applyWrites ws dst ∧
      (∀ x y : Int, 0 ≤ x → x < sw → 0 ≤ y → y < sh →
        writesAt (y * tw + x) ws =
          [(y * tw + x, src ((y + (sh - 1 - y) % mosaicWidth level) * tw +
            (x - x % mosaicWidth level)))] ∧
        dst' (y * tw + x) = src ((y + (sh - 1 - y) % mosaicWidth level) * tw +
          (x - x % mosaicWidth level))) ∧
      (∀ wr ∈ ws, ∃ x y : Int, 0 ≤ x ∧ x < sw ∧ 0 ≤ y ∧ y < sh ∧ wr.1 = y * tw + x) ∧
      (∀ k : Int, (∀ x y : Int, 0 ≤ x → x < sw → 0 ≤ y → y < sh → k ≠ y * tw + x) →
        dst' k = dst k) := by
  obtain ⟨ws, hrun, hval, hframe⟩ := mosaicRowsWrites_at src tw sw (mosaicWidth level) hw hsw
    sh.toNat (sh - 1) (by omega)
  have hws : mosaicWrites src tw sw sh level = some ws := hrun
  have hgen : generateMosaic src dst tw sw sh level = some (applyWrites ws dst) := by
    rw [generateMosaic_writes, hws]
    rfl
  obtain ⟨dst', hgen', hpix, _⟩ := generateMosaic_get src dst tw sw sh level hw hsw
  have hdst : dst' = applyWrites ws dst := Option.some.inj (hgen'.symm.trans hgen)
  have hscreen : ∀ wr ∈ ws, ∃ x y : Int, 0 ≤ x ∧ x < sw ∧ 0 ≤ y ∧ y < sh ∧ wr.1 = y * tw + x := by
    intro wr hwr
    by_cases htw : 0 < tw
    · have e := Int.ediv_add_emod wr.1 tw
      have hx0 := Int.emod_nonneg wr.1 (ne_of_gt htw)
      have hx := Int.emod_lt_of_pos wr.1 htw
      have hk : wr.1 = wr.1 / tw * tw + wr.1 % tw := by rw [mul_comm]; omega
      by_contra hcon
      have hout : sw ≤ wr.1 % tw ∨ wr.1 / tw < 0 ∨ sh - 1 < wr.1 / tw := by
        by_contra hin
        exact hcon ⟨wr.1 % tw, wr.1 / tw, hx0, by omega, by omega, by omega, hk⟩
      have hnone := hframe (wr.1 % tw) (wr.1 / tw) hx0 hx hout
      rw [← hk] at hnone
      have hmem : wr ∈ writesAt wr.1 ws := by
        unfold writesAt
        exact List.mem_filter.mpr ⟨hwr, by simp⟩
      rw [hnone] at hmem
      cases hmem
    · have hnil := mosaicRowsWrites_nil src tw sw (mosaicWidth level) (by omega) sh.toNat
        (sh - 1) ws hrun
      rw [hnil] at hwr
      cases hwr
  refine ⟨ws, dst', hws, hgen', hdst, ?_, hscreen, ?_⟩
  · intro x y hx0 hx hy0 hy
    obtain ⟨hb, hb0, hb1⟩ := block_of_position x (mosaicWidth level) hw hx0
    obtain ⟨ha, ha0, ha1⟩ := block_of_position (sh - 1 - y) (mosaicWidth level) hw (by omega)
    have hanchor : sh - 1 - (((sh - 1 - y) / mosaicWidth level).toNat : Int) * mosaicWidth level =
        y + (sh - 1 - y) % mosaicWidth level := by omega
    have h1 := hval ((sh - 1 - y) / mosaicWidth level).toNat (x / mosaicWidth level).toNat x y
      (by omega) (by omega) hy0 (by omega) (by omega) (by omega) hx
    have h2 := hpix ((sh - 1 - y) / mosaicWidth level).toNat (x / mosaicWidth level).toNat x y
      (by omega) (by omega) hy0 (by omega) (by omega) (by omega) hx
    rw [hanchor, hb] at h1 h2
    exact ⟨h1, h2⟩
  · intro k hk
    rw [hdst]
    apply applyWrites_of_not_written
    intro wr hwr e
    obtain ⟨x, y, hx0, hx, hy0, hy, hxy⟩ := hscreen wr hwr
    exact hk x y hx0 hx hy0 hy (e.symm.trans hxy)

theorem generateMosaic_writes_once_witness :
    ∃ ws dst', mosaicWrites (listBuffer [10, 20, 30, 40, 50, 60, 70, 80, 90, 100, 110, 120])
        4 3 3 6 = some ws ∧
      generateMosaic (listBuffer [10, 20, 30, 40, 50, 60, 70, 80, 90, 100, 110, 120])
        (listBuffer []) 4 3 3 6 = some dst' ∧
      writesAt (1 * 4 + 1) ws = [(5, 90)] ∧ dst' (1 * 4 + 1) = 90 ∧ ws.length = 9 := by
  obtain ⟨ws, dst', hws, hgen, _, hpix, _, _⟩ := generateMosaic_writes_once
    (listBuffer [10, 20, 30, 40, 50, 60, 70, 80, 90, 100, 110, 120]) (listBuffer []) 4 3 3 6
    (by decide) (by decide)
  obtain ⟨h1, h2⟩ := hpix 1 1 (by decide) (by decide) (by decide) (by decide)
  refine ⟨ws, dst', hws, hgen, h1.trans (by decide), h2.trans (by decide), ?_⟩
  have hlist : mosaicWrites (listBuffer [10, 20, 30, 40, 50, 60, 70, 80, 90, 100, 110, 120])
      4 3 3 6 = some [(8, 90), (9, 90), (4, 90), (5, 90), (10, 110), (6, 110), (0, 10), (1, 10),
        (2, 30)] := by decide
  rw [hlist] at hws
  rw [← Option.some.inj hws]
  rfl

end Ponscripter
